import Mathlib

/-!
# gr-plc receiver: shallow embedding of `phy_rx_impl` (src/lib/phy_rx_impl.cc)
and of `app_in_impl` (src/lib/app_in_impl.cc)

Conventions of the embedding.

* C++ `int` values are unbounded integers (`Int`); no claim below depends on
  32-bit wrap-around.
* C++ `float` samples and accumulators are exact rationals (`ℚ`): the numeric
  statements are statements of exact arithmetic, rounding is not modelled.
* `std::vector<float>` buffers are lists; a read outside the buffer yields `0`
  and a write outside the buffer is dropped (both are undefined in C++).
* The input pointer `in` of `work` is a function `inp : Int → ℚ` (the sample
  `in[k]` is `inp k`), `ninput` is the item count handed to `work`.
* The implementation of `light_plc::phy_service` (phy_service.cc) is not part
  of the embedded sources; its member functions are the fields of
  `phy_service_ops`, acting on an abstract service state `P`.
* `message_port_pub(pmt::mp("mac out"), m)` appends `m` to the list of
  published messages returned by the call.
* A `pmt_t` is a reference-counted handle. Where the lifetime of a message
  matters (`app_in_impl`), messages live on a heap of objects with a handle
  count, the queue of an input port is the list of the addresses its handles
  refer to, oldest first, and a raw pointer into a message is its address.
  `delete_head_blocking` on an empty queue does not return.
-/

namespace GrPlc

/-! ## Messages (pmt) -/

/-- Polymorphic message values of the GNU Radio runtime, restricted to the
constructors this program builds or inspects. -/
inductive pmt_t where
  | PMT_NIL
  | symbol (s : String)
  | u8vector (bytes : List Nat)
  | f32vector (xs : List ℚ)
  | pair (car cdr : pmt_t)
  deriving DecidableEq, Repr

/-- The call `pmt::mp(s)` on a string literal: the interned symbol. -/
def mp (s : String) : pmt_t := pmt_t.symbol s

/-- The call `pmt::make_dict()`: the empty dictionary. -/
def make_dict : pmt_t := pmt_t.PMT_NIL

/-- The call `pmt::dict_add(dict, key, value)`: dictionaries are association
lists, the new entry is consed in front (every call in this program adds a
fresh key). -/
def dict_add (dict key value : pmt_t) : pmt_t := pmt_t.pair (pmt_t.pair key value) dict

/-- The call `pmt::cons(a, b)`. -/
def cons (a b : pmt_t) : pmt_t := pmt_t.pair a b

/-- The call `pmt::make_u8vector(n, 0)`: `n` zero bytes. -/
def make_u8vector (n : Int) : List Nat := List.replicate n.toNat 0

/-- The predicate `pmt::is_pair`. -/
def is_pair : pmt_t → Bool
  | pmt_t.pair _ _ => true
  | _ => false

/-- The predicate `pmt::is_symbol`. -/
def is_symbol : pmt_t → Bool
  | pmt_t.symbol _ => true
  | _ => false

/-- The accessor `pmt::car` (of a pair). -/
def car : pmt_t → pmt_t
  | pmt_t.pair a _ => a
  | _ => pmt_t.PMT_NIL

/-- The accessor `pmt::symbol_to_string` (of a symbol). -/
def symbol_to_string : pmt_t → String
  | pmt_t.symbol s => s
  | _ => ""

/-! ## Types and constants -/

/-- The receiver states of `phy_rx_impl`. -/
inductive receiver_state_t where
  | SEARCH | SYNC | COPY_PREAMBLE | COPY_FRAME_CONTROL | COPY_PAYLOAD
  | CONSUME_SPACE | SENSE_SPACE | RESET | IDLE | HALT
  deriving DecidableEq, Repr

/-- Modelled from the spec: the frame-type enumeration of `lightplc/defs.h`,
which is not among the sources. The receiver compares the decoded type with
`MPDU_TYPE_SOF`, `MPDU_TYPE_SACK` and `MPDU_TYPE_SOUND`; every further
delimiter type (beacon, RTS/CTS, RSOF, ...) is `MPDU_TYPE_OTHER code`. -/
inductive mpdu_type_t where
  | MPDU_TYPE_SOF | MPDU_TYPE_SACK | MPDU_TYPE_SOUND
  | MPDU_TYPE_OTHER (code : Nat)
  deriving DecidableEq, Repr

/-- A tone map: one modulation code per carrier (the enumeration
`modulation_type_t` of `lightplc/defs.h`, as its integer codes). -/
abbrev tone_map_t := List Nat

/-- The constants taken from the IEEE 1901 definitions (`defs.h`, absent):
`SYNCP_SIZE = IEEE1901_SYNCP_SIZE` and
`FRAME_CONTROL_SIZE = NUMBER_OF_CARRIERS + IEEE1901_GUARD_INTERVAL_FC`. -/
structure constants where
  SYNCP_SIZE : Int
  FRAME_CONTROL_SIZE : Int
  deriving DecidableEq, Repr

/-- The constant `SYNC_LENGTH = 2 * SYNCP_SIZE`. -/
def constants.SYNC_LENGTH (c : constants) : Int := 2 * c.SYNCP_SIZE

/-- The constant `PREAMBLE_SIZE = SYNCP_SIZE * 10` (phy_service.h). -/
def constants.PREAMBLE_SIZE (c : constants) : Int := c.SYNCP_SIZE * 10

/-- The constant `MIN_PLATEAU = 5.5 * SYNCP_SIZE`, converted to `int`
(truncation toward zero). -/
def constants.MIN_PLATEAU (c : constants) : Int := Int.tdiv (11 * c.SYNCP_SIZE) 2

/-- The autocorrelation threshold `THRESHOLD = 0.9`. -/
def THRESHOLD : ℚ := 9 / 10

/-- The minimum signal energy `MIN_ENERGY = 1e-3`. -/
def MIN_ENERGY : ℚ := 1 / 1000

/-- The member functions of `light_plc::phy_service` used by the receiver.
Getters read the service state, the other functions may change it. Buffers an
implementation fills through a pointer are passed in and returned. -/
structure phy_service_ops (P : Type) where
  preamble : P → List ℚ
  process_ppdu_preamble : P → List ℚ → P
  process_ppdu_frame_control : P → List ℚ → Bool × P
  get_ppdu_payload_length : P → Int
  get_mpdu_payload_size : P → Int
  process_ppdu_payload : P → List ℚ → List Nat → P × List Nat
  get_frame_type : P → mpdu_type_t
  get_sackd_size : P → Int
  get_sackd : P → List Nat → List Nat
  get_inter_frame_space : P → Int
  process_noise : P → List ℚ → P
  get_snr : P → List ℚ
  set_noise_psd : P → ℚ → P
  calculate_tone_map : P → ℚ → tone_map_t × P
  set_tone_map : P → tone_map_t → P

/-- The data members of `phy_rx_impl`. `d_fir` holds the taps of the
correlation filter. -/
structure phy_rx_impl (P : Type) where
  d_receiver_state : receiver_state_t
  d_search_corr : ℚ
  d_energy : ℚ
  d_plateau : Int
  d_payload_size : Int
  d_payload_offset : Int
  d_sync_offset : Int
  d_frame_control_offset : Int
  d_preamble_offset : Int
  d_frame_start : Int
  d_output_datastream_offset : Int
  d_output_datastream_len : Int
  d_noise : List ℚ
  d_noise_offset : Int
  d_inter_frame_space_offset : Int
  d_preamble : List ℚ
  d_frame_control : List ℚ
  d_payload : List ℚ
  d_cor : List ℚ
  d_fir : List ℚ
  d_correlation : List ℚ
  d_phy_service : P

/-- What one call of `work` does: the receiver afterwards, the messages
published on "mac out" in order, and the argument of `consume_each`.
`search_hits` is a ghost record: the value of the detection condition on each
iteration of the SEARCH loop executed by this call, in order. -/
structure work_result (P : Type) where
  rx : phy_rx_impl P
  published : List pmt_t
  consumed : Int
  search_hits : List Bool

/-! ## Buffers -/

/-- The read `buf[idx]`. -/
def rd (buf : List ℚ) (idx : Int) : ℚ := if 0 ≤ idx then buf.getD idx.toNat 0 else 0

/-- The assignment `buf[idx] = v`. -/
def wr (buf : List ℚ) (idx : Int) (v : ℚ) : List ℚ :=
  if 0 ≤ idx then buf.set idx.toNat v else buf

/-- The call `std::copy(in + src, in + src + n, buf.begin() + dst)`, element by
element. -/
def std_copy (inp : Int → ℚ) : Nat → Int → List ℚ → Int → List ℚ
  | 0, _, buf, _ => buf
  | n + 1, src, buf, dst => std_copy inp n (src + 1) (wr buf dst (inp src)) (dst + 1)

/-- The statement pair `d_preamble[d_preamble_offset++] = v;
d_preamble_offset = d_preamble_offset % PREAMBLE_SIZE;`. -/
def preamble_put {P : Type} (c : constants) (s : phy_rx_impl P) (v : ℚ) : phy_rx_impl P :=
  { s with
    d_preamble := wr s.d_preamble s.d_preamble_offset v
    d_preamble_offset := Int.tmod (s.d_preamble_offset + 1) c.PREAMBLE_SIZE }

/-- The call `d_fir->filterN(out, in, n)` of the GNU Radio FIR kernel:
`out[m] = Σ_k taps[k] * in[m + ntaps - 1 - k]` for `m < n`. -/
def filterN (taps : List ℚ) (inp : Int → ℚ) (n : Int) : List ℚ :=
  (List.range n.toNat).map (fun (m : Nat) =>
    ((List.range taps.length).map
      (fun (k : Nat) => taps.getD k 0 * inp ((m : Int) + (taps.length : Int) - 1 - (k : Int)))).sum)

/-! ## The loops of `work` -/

open receiver_state_t mpdu_type_t

variable {P : Type}

/-- The SEARCH loop `while (i + 2*SYNCP_SIZE < ninput)`. At most
`ninput - 2*SYNCP_SIZE` iterations run from `i = 0`, which is the fuel `work`
supplies. Returns the receiver, the final `i` and the value of the detection
condition on each iteration executed. -/
def search_loop (c : constants) (inp : Int → ℚ) (ninput : Int) :
    Nat → phy_rx_impl P → Int → phy_rx_impl P × Int × List Bool
  | 0, s, i => (s, i, [])
  | fuel + 1, s, i =>
    if i + 2 * c.SYNCP_SIZE < ninput then
      let s1 : phy_rx_impl P := { s with
        d_search_corr := s.d_search_corr +
          (inp (i + c.SYNCP_SIZE) * inp (i + c.SYNCP_SIZE * 2) - inp i * inp (i + c.SYNCP_SIZE)) }
      let s2 : phy_rx_impl P := { s1 with
        d_energy := s1.d_energy +
          (inp (i + c.SYNCP_SIZE) * inp (i + c.SYNCP_SIZE) - inp i * inp i) }
      if s2.d_energy > MIN_ENERGY ∧ s2.d_search_corr / s2.d_energy > THRESHOLD then
        if s2.d_plateau < c.MIN_PLATEAU then
          let s3 : phy_rx_impl P := { s2 with d_plateau := s2.d_plateau + 1 }
          let r := search_loop c inp ninput fuel
            (preamble_put c s3 (inp (i + 2 * c.SYNCP_SIZE))) (i + 1)
          (r.1, r.2.1, true :: r.2.2)
        else
          ({ s2 with d_receiver_state := SYNC }, i + 2 * c.SYNCP_SIZE, [true])
      else
        let s3 : phy_rx_impl P := { s2 with d_plateau := 0 }
        let r := search_loop c inp ninput fuel
          (preamble_put c s3 (inp (i + 2 * c.SYNCP_SIZE))) (i + 1)
        (r.1, r.2.1, false :: r.2.2)
    else (s, i, [])

/-- The first SYNC loop `for (; i < SYNC_LENGTH - SYNCP_SIZE; i++)`, on the
receiver and the locals `i`, `max_index`, `max_value`. -/
def sync_loop1 (c : constants) (inp : Int → ℚ) :
    Nat → phy_rx_impl P → Int → Int → ℚ → phy_rx_impl P × Int × Int × ℚ
  | 0, s, i, max_index, max_value => (s, i, max_index, max_value)
  | fuel + 1, s, i, max_index, max_value =>
    if i < c.SYNC_LENGTH - c.SYNCP_SIZE then
      let s1 := preamble_put c s (inp i)
      if rd s.d_correlation i * rd s.d_correlation (i + c.SYNCP_SIZE) > max_value then
        sync_loop1 c inp fuel s1 (i + 1) i
          (rd s.d_correlation i * rd s.d_correlation (i + c.SYNCP_SIZE))
      else
        sync_loop1 c inp fuel s1 (i + 1) max_index max_value
    else (s, i, max_index, max_value)

/-- The second SYNC loop `for (; i < SYNC_LENGTH; i++)`. -/
def sync_loop2 (c : constants) (inp : Int → ℚ) :
    Nat → phy_rx_impl P → Int → phy_rx_impl P × Int
  | 0, s, i => (s, i)
  | fuel + 1, s, i =>
    if i < c.SYNC_LENGTH then
      sync_loop2 c inp fuel (preamble_put c s (inp i)) (i + 1)
    else (s, i)

/-- The COPY_PREAMBLE loop `while (i < ninput && d_sync_offset < d_frame_start)`. -/
def copy_preamble_loop (c : constants) (inp : Int → ℚ) (ninput : Int) :
    Nat → phy_rx_impl P → Int → phy_rx_impl P × Int
  | 0, s, i => (s, i)
  | fuel + 1, s, i =>
    if i < ninput ∧ s.d_sync_offset < s.d_frame_start then
      let s1 := preamble_put c s (inp i)
      copy_preamble_loop c inp ninput fuel
        { s1 with d_sync_offset := s1.d_sync_offset + 1 } (i + 1)
    else (s, i)

/-- The else branch of the COPY_FRAME_CONTROL loop body (the buffer is full):
`process_ppdu_frame_control(d_frame_control.begin())` is called; on `false` the
state becomes RESET, otherwise COPY_PAYLOAD with `d_payload_size` and a fresh
payload buffer taken from `get_ppdu_payload_length()`. -/
def frame_control_decode (ops : phy_service_ops P) (s : phy_rx_impl P) : phy_rx_impl P :=
  let r := ops.process_ppdu_frame_control s.d_phy_service s.d_frame_control
  if r.1 = false then
    { s with d_phy_service := r.2, d_receiver_state := RESET }
  else
    let s1 : phy_rx_impl P := { s with d_phy_service := r.2, d_receiver_state := COPY_PAYLOAD }
    let s2 : phy_rx_impl P := { s1 with
      d_payload_size := ops.get_ppdu_payload_length s1.d_phy_service }
    { s2 with d_payload := List.replicate s2.d_payload_size.toNat 0 }

/-- The COPY_FRAME_CONTROL loop `while (i < ninput)`: a sample is stored while
the buffer is not full; with a full buffer the frame control is decoded and
the loop is left (`break`) without consuming the sample at hand. -/
def copy_frame_control_loop (c : constants) (ops : phy_service_ops P) (inp : Int → ℚ)
    (ninput : Int) : Nat → phy_rx_impl P → Int → phy_rx_impl P × Int
  | 0, s, i => (s, i)
  | fuel + 1, s, i =>
    if i < ninput then
      if s.d_frame_control_offset < c.FRAME_CONTROL_SIZE then
        let s1 : phy_rx_impl P := { s with
          d_frame_control := wr s.d_frame_control s.d_frame_control_offset (inp i) }
        copy_frame_control_loop c ops inp ninput fuel
          { s1 with d_frame_control_offset := s1.d_frame_control_offset + 1 } (i + 1)
      else
        (frame_control_decode ops s, i)
    else (s, i)

/-- The SENSE_SPACE loop `while (i<j) d_noise[d_inter_frame_space_offset++] = in[i++];`. -/
def sense_loop (inp : Int → ℚ) (j : Int) :
    Nat → phy_rx_impl P → Int → phy_rx_impl P × Int
  | 0, s, i => (s, i)
  | fuel + 1, s, i =>
    if i < j then
      sense_loop inp j fuel
        { s with
          d_noise := wr s.d_noise s.d_inter_frame_space_offset (inp i)
          d_inter_frame_space_offset := s.d_inter_frame_space_offset + 1 } (i + 1)
    else (s, i)

/-- The RESET loop `for (int j=0; j<SYNCP_SIZE; j++)` seeding both sums and the
first `2*SYNCP_SIZE` entries of the preamble buffer. -/
def reset_loop (c : constants) (inp : Int → ℚ) :
    Nat → phy_rx_impl P → Int → phy_rx_impl P
  | 0, s, _ => s
  | fuel + 1, s, j =>
    if j < c.SYNCP_SIZE then
      let s1 : phy_rx_impl P := { s with
        d_search_corr := s.d_search_corr + inp j * inp (j + c.SYNCP_SIZE) }
      let s2 : phy_rx_impl P := { s1 with d_energy := s1.d_energy + inp j * inp j }
      let s3 : phy_rx_impl P := { s2 with
        d_preamble := wr s2.d_preamble s2.d_preamble_offset (inp (j * 2))
        d_preamble_offset := s2.d_preamble_offset + 1 }
      let s4 : phy_rx_impl P := { s3 with
        d_preamble := wr s3.d_preamble s3.d_preamble_offset (inp (j * 2 + 1))
        d_preamble_offset := s3.d_preamble_offset + 1 }
      reset_loop c inp fuel s4 (j + 1)
    else s

/-- The accumulation `for (iter ...) noise_var += (*iter)*(*iter)/get_inter_frame_space();`
starting from `noise_var = 0`. -/
def noise_var (noise : List ℚ) (inter_frame_space : Int) : ℚ :=
  noise.foldl (fun acc v => acc + v * v / (inter_frame_space : ℚ)) 0

/-! ## `work`, `mac_in` and runs of calls -/

/-- The case SEARCH of the switch in `work`. -/
def work_search (c : constants) (ninput : Int) (inp : Int → ℚ) (s : phy_rx_impl P) :
    work_result P :=
  let r := search_loop c inp ninput (ninput - 2 * c.SYNCP_SIZE).toNat s 0
  { rx := r.1, published := [], consumed := r.2.1, search_hits := r.2.2 }

/-- The case SYNC of the switch in `work`. The assignment
`d_frame_start = 2.5 * SYNCP_SIZE + max_index - i` converts a `double` to `int`
(truncation toward zero). -/
def work_sync (c : constants) (inp : Int → ℚ) (s : phy_rx_impl P) : work_result P :=
  let s1 : phy_rx_impl P := { s with d_correlation := filterN s.d_fir inp c.SYNC_LENGTH }
  let r1 := sync_loop1 c inp (c.SYNC_LENGTH - c.SYNCP_SIZE).toNat s1 0 0
    (rd s1.d_correlation 0 * rd s1.d_correlation c.SYNCP_SIZE)
  let r2 := sync_loop2 c inp c.SYNC_LENGTH.toNat r1.1 r1.2.1
  let max_index := r1.2.2.1
  let i := r2.2
  let s2 : phy_rx_impl P := { r2.1 with
    d_frame_start := Int.tdiv (5 * c.SYNCP_SIZE + 2 * max_index - 2 * i) 2 }
  if s2.d_frame_start < 0 then
    { rx := { s2 with d_receiver_state := RESET }, published := [], consumed := i,
      search_hits := [] }
  else
    { rx := { s2 with d_receiver_state := COPY_PREAMBLE }, published := [], consumed := i,
      search_hits := [] }

/-- The case COPY_PREAMBLE of the switch in `work`. -/
def work_copy_preamble (c : constants) (ops : phy_service_ops P) (ninput : Int)
    (inp : Int → ℚ) (s : phy_rx_impl P) : work_result P :=
  let r := copy_preamble_loop c inp ninput ninput.toNat s 0
  let s1 := r.1
  if s1.d_sync_offset = s1.d_frame_start then
    let preamble_aligned :=
      s1.d_preamble.drop s1.d_preamble_offset.toNat ++
        s1.d_preamble.take s1.d_preamble_offset.toNat
    { rx := { s1 with
        d_phy_service := ops.process_ppdu_preamble s1.d_phy_service preamble_aligned
        d_receiver_state := COPY_FRAME_CONTROL },
      published := [], consumed := r.2, search_hits := [] }
  else
    { rx := s1, published := [], consumed := r.2, search_hits := [] }

/-- The case COPY_FRAME_CONTROL of the switch in `work`. -/
def work_copy_frame_control (c : constants) (ops : phy_service_ops P) (ninput : Int)
    (inp : Int → ℚ) (s : phy_rx_impl P) : work_result P :=
  let r := copy_frame_control_loop c ops inp ninput ninput.toNat s 0
  { rx := r.1, published := [], consumed := r.2, search_hits := [] }

/-- The case COPY_PAYLOAD of the switch in `work`. -/
def work_copy_payload (ops : phy_service_ops P) (ninput : Int) (inp : Int → ℚ)
    (s : phy_rx_impl P) : work_result P :=
  let k := min (s.d_payload_size - s.d_payload_offset) ninput
  let s1 : phy_rx_impl P := { s with
    d_payload := std_copy inp k.toNat 0 s.d_payload s.d_payload_offset }
  let s2 : phy_rx_impl P := { s1 with d_payload_offset := s1.d_payload_offset + k }
  let i := k
  if s2.d_payload_offset = s2.d_payload_size then
    let r := ops.process_ppdu_payload s2.d_phy_service s2.d_payload
      (make_u8vector (ops.get_mpdu_payload_size s2.d_phy_service))
    let payload_pmt := pmt_t.u8vector r.2
    let s3 : phy_rx_impl P := { s2 with d_phy_service := r.1 }
    if ops.get_frame_type s3.d_phy_service = MPDU_TYPE_SOF then
      let dict := dict_add make_dict (mp "payload") payload_pmt
      { rx := { s3 with d_receiver_state := SENSE_SPACE },
        published := [cons (mp "PHY-RXSOF") dict], consumed := i, search_hits := [] }
    else if ops.get_frame_type s3.d_phy_service = MPDU_TYPE_SACK then
      let sackd_pmt := pmt_t.u8vector (ops.get_sackd s3.d_phy_service
        (make_u8vector (ops.get_sackd_size s3.d_phy_service)))
      let dict := dict_add make_dict (mp "sackd") sackd_pmt
      { rx := { s3 with d_receiver_state := CONSUME_SPACE },
        published := [cons (mp "PHY-RXSACK") dict], consumed := i, search_hits := [] }
    else if ops.get_frame_type s3.d_phy_service = MPDU_TYPE_SOUND then
      { rx := { s3 with d_receiver_state := SENSE_SPACE },
        published := [cons (mp "PHY-RXSOUND") make_dict], consumed := i, search_hits := [] }
    else
      { rx := s3, published := [], consumed := i, search_hits := [] }
  else
    { rx := s2, published := [], consumed := i, search_hits := [] }

/-- The case CONSUME_SPACE of the switch in `work`. -/
def work_consume_space (ops : phy_service_ops P) (ninput : Int) (s : phy_rx_impl P) :
    work_result P :=
  let j := min (ops.get_inter_frame_space s.d_phy_service - s.d_inter_frame_space_offset) ninput
  let i := j
  let s1 : phy_rx_impl P := { s with
    d_inter_frame_space_offset := s.d_inter_frame_space_offset + j }
  if s1.d_inter_frame_space_offset = ops.get_inter_frame_space s1.d_phy_service then
    { rx := { s1 with d_receiver_state := RESET },
      published := [cons (mp "PHY-RXEND") make_dict], consumed := i, search_hits := [] }
  else
    { rx := s1, published := [], consumed := i, search_hits := [] }

/-- The case SENSE_SPACE of the switch in `work`. -/
def work_sense_space (ops : phy_service_ops P) (ninput : Int) (inp : Int → ℚ)
    (s : phy_rx_impl P) : work_result P :=
  let s1 : phy_rx_impl P :=
    if s.d_inter_frame_space_offset = 0 then
      { s with d_noise := List.replicate (ops.get_inter_frame_space s.d_phy_service).toNat 0 }
    else s
  let j := min (ops.get_inter_frame_space s1.d_phy_service - s1.d_inter_frame_space_offset) ninput
  let r := sense_loop inp j j.toNat s1 0
  let s2 := r.1
  let i := r.2
  if s2.d_inter_frame_space_offset = ops.get_inter_frame_space s2.d_phy_service then
    let s3 : phy_rx_impl P := { s2 with
      d_phy_service := ops.process_noise s2.d_phy_service s2.d_noise }
    let snr := ops.get_snr s3.d_phy_service
    let dict := dict_add make_dict (mp "snr") (pmt_t.f32vector snr)
    let nv := noise_var s3.d_noise (ops.get_inter_frame_space s3.d_phy_service)
    let s4 : phy_rx_impl P := { s3 with
      d_phy_service := ops.set_noise_psd s3.d_phy_service (nv * 2) }
    { rx := { s4 with d_receiver_state := RESET },
      published := [cons (mp "PHY-RXSNR") dict, cons (mp "PHY-RXEND") make_dict],
      consumed := i, search_hits := [] }
  else
    { rx := s2, published := [], consumed := i, search_hits := [] }

/-- The case RESET of the switch in `work`. -/
def work_reset (c : constants) (inp : Int → ℚ) (s : phy_rx_impl P) : work_result P :=
  let s1 : phy_rx_impl P := { s with
    d_plateau := 0
    d_frame_control_offset := 0
    d_sync_offset := 0
    d_preamble_offset := 0
    d_payload_size := 0
    d_payload_offset := 0
    d_cor := []
    d_output_datastream_offset := 0
    d_output_datastream_len := 0
    d_noise_offset := 0
    d_search_corr := 0
    d_energy := 0
    d_inter_frame_space_offset := 0 }
  let s2 := reset_loop c inp c.SYNCP_SIZE.toNat s1 0
  { rx := { s2 with d_receiver_state := SEARCH }, published := [], consumed := 0,
    search_hits := [] }

/-- The member function `phy_rx_impl::work(noutput_items, input_items, output_items)`,
with `inp` the samples of `input_items[0]`: the switch on `d_receiver_state`
followed by `consume_each(i)`. IDLE sets `i = ninput` and falls through to
HALT, which does nothing. -/
def work (c : constants) (ops : phy_service_ops P) (noutput_items : Int) (inp : Int → ℚ)
    (s : phy_rx_impl P) : work_result P :=
  let ninput := noutput_items
  match s.d_receiver_state with
  | SEARCH => work_search c ninput inp s
  | SYNC => work_sync c inp s
  | COPY_PREAMBLE => work_copy_preamble c ops ninput inp s
  | COPY_FRAME_CONTROL => work_copy_frame_control c ops ninput inp s
  | COPY_PAYLOAD => work_copy_payload ops ninput inp s
  | CONSUME_SPACE => work_consume_space ops ninput s
  | SENSE_SPACE => work_sense_space ops ninput inp s
  | RESET => work_reset c inp s
  | IDLE => { rx := s, published := [], consumed := ninput, search_hits := [] }
  | HALT => { rx := s, published := [], consumed := 0, search_hits := [] }

/-- The message handler `phy_rx_impl::mac_in(msg)`: the receiver afterwards and
the messages published on "mac out". The cast `(uint8_t)tone_map[j]` is the
code modulo 256. -/
def mac_in (ops : phy_service_ops P) (s : phy_rx_impl P) (msg : pmt_t) :
    phy_rx_impl P × List pmt_t :=
  if is_pair msg then
    if !is_symbol (car msg) then (s, [])
    else
      let cmd := symbol_to_string (car msg)
      if cmd = "PHY-CALCTONEMAP.request" then
        let r := ops.calculate_tone_map s.d_phy_service (1 / 100)
        let tone_map := r.1
        let s1 : phy_rx_impl P := { s with d_phy_service := ops.set_tone_map r.2 tone_map }
        let tone_map_blob := tone_map.map (fun m => m % 256)
        let dict := dict_add make_dict (mp "tone_map") (pmt_t.u8vector tone_map_blob)
        (s1, [cons (mp "PHY-CALCTONEMAP.response") dict])
      else (s, [])
  else (s, [])

/-- The receiver in a run of `work` calls over one sample stream: `pos` counts
the samples consumed so far, `published` and `search_hits` accumulate what the
calls published and recorded. -/
structure run_state (P : Type) where
  rx : phy_rx_impl P
  pos : Int
  published : List pmt_t
  search_hits : List Bool

/-- One scheduler step: `work` is called with `ninput` items whose first sample
is the stream sample at the read position, which then advances by the
consumed count. -/
def run_call (c : constants) (ops : phy_service_ops P) (x : Int → ℚ) (r : run_state P)
    (ninput : Int) : run_state P :=
  let w := work c ops ninput (fun k => x (r.pos + k)) r.rx
  { rx := w.rx, pos := r.pos + w.consumed, published := r.published ++ w.published,
    search_hits := r.search_hits ++ w.search_hits }

/-- A run of calls: one `ninput` per call, in order. -/
def run (c : constants) (ops : phy_service_ops P) (x : Int → ℚ) (r : run_state P)
    (ns : List Int) : run_state P :=
  ns.foldl (run_call c ops x) r

/-- The start of a run at stream position 0 with nothing published. -/
def run_start (s : phy_rx_impl P) : run_state P :=
  { rx := s, pos := 0, published := [], search_hits := [] }

/-- The samples `x[a], ..., x[a+n-1]` of a stream. -/
def stream_slice (x : Int → ℚ) (a : Int) (n : Nat) : List ℚ :=
  (List.range n).map (fun (k : Nat) => x (a + (k : Int)))

/-! ## Receiver states reached while a buffer is being filled -/

/-- The receiver `s` once the `k` stream samples that follow position `p` have
been stored at the start of its frame-control buffer. -/
def frame_control_stored (s : phy_rx_impl P) (x : Int → ℚ) (p k : Int) : phy_rx_impl P :=
  { s with
    d_frame_control := std_copy x k.toNat p s.d_frame_control 0
    d_frame_control_offset := k }

/-- The noise buffer of a SENSE_SPACE call that completes the inter-frame space:
the buffer (allocated afresh when the offset is 0) with the missing samples
stored from the offset on. -/
def sense_space_noise (ops : phy_service_ops P) (inp : Int → ℚ) (s : phy_rx_impl P) : List ℚ :=
  std_copy inp
    (ops.get_inter_frame_space s.d_phy_service - s.d_inter_frame_space_offset).toNat 0
    (if s.d_inter_frame_space_offset = 0 then
      List.replicate (ops.get_inter_frame_space s.d_phy_service).toNat 0
     else s.d_noise)
    s.d_inter_frame_space_offset

/-- The receiver `s` once the `k` stream samples that follow position `p` have
been stored at the start of a freshly allocated noise buffer. -/
def noise_stored (ops : phy_service_ops P) (s : phy_rx_impl P) (x : Int → ℚ) (p k : Int) :
    phy_rx_impl P :=
  { s with
    d_noise := std_copy x k.toNat p
      (List.replicate (ops.get_inter_frame_space s.d_phy_service).toNat 0) 0
    d_inter_frame_space_offset := k }

/-- The receiver `s` after SENSE_SPACE has collected the inter-frame space
`noise`: noise estimation done, state RESET. -/
def sense_space_done (ops : phy_service_ops P) (s : phy_rx_impl P) (noise : List ℚ) :
    phy_rx_impl P :=
  { s with
    d_noise := noise
    d_inter_frame_space_offset := ops.get_inter_frame_space s.d_phy_service
    d_phy_service :=
      ops.set_noise_psd (ops.process_noise s.d_phy_service noise)
        (noise_var noise
          (ops.get_inter_frame_space (ops.process_noise s.d_phy_service noise)) * 2)
    d_receiver_state := RESET }

/-- The two messages SENSE_SPACE publishes when the inter-frame space `noise`
is complete, in order. -/
def sense_space_messages (ops : phy_service_ops P) (s : phy_rx_impl P) (noise : List ℚ) :
    List pmt_t :=
  [cons (mp "PHY-RXSNR") (dict_add make_dict (mp "snr")
      (pmt_t.f32vector (ops.get_snr (ops.process_noise s.d_phy_service noise)))),
    cons (mp "PHY-RXEND") make_dict]

/-! ## The search phase in terms of the stream -/

/-- The sum `Σ x[j]*x[j+S]` over `j` in `[n, n+S)`: the autocorrelation between
the `SYNCP`-long windows starting at samples `n` and `n+S`. -/
def autocorr_window (x : Int → ℚ) (S n : Int) : ℚ :=
  Finset.sum (Finset.range S.toNat) (fun j => x (n + (j : Int)) * x (n + (j : Int) + S))

/-- The sum `Σ x[j]^2` over `j` in `[n, n+S)`: the energy of the window starting
at sample `n`. -/
def energy_window (x : Int → ℚ) (S n : Int) : ℚ :=
  Finset.sum (Finset.range S.toNat) (fun j => x (n + (j : Int)) ^ 2)

/-- The detection condition of SEARCH on the windows starting at sample `n`:
the energy is above `MIN_ENERGY` and the normalised autocorrelation is above
`THRESHOLD`. -/
def detection (x : Int → ℚ) (S n : Int) : Bool :=
  decide (energy_window x S n > MIN_ENERGY ∧
    autocorr_window x S n / energy_window x S n > THRESHOLD)

/-- The number of consecutive `true` entries at the end of a record of
detection outcomes. -/
def trailing_hits (l : List Bool) : Nat := (l.reverse.takeWhile id).length

/-- A run of calls that goes on only while the receiver is in state `st`: the
first call found in another state, and all calls after it, are not made. -/
def run_in (st : receiver_state_t) (c : constants) (ops : phy_service_ops P) (x : Int → ℚ) :
    run_state P → List Int → run_state P
  | r, [] => r
  | r, n :: ns =>
    if r.rx.d_receiver_state = st then run_in st c ops x (run_call c ops x r n) ns else r

/-- No initial segment of the record `l` ends with more than `M` consecutive
hits. -/
def no_plateau (M : Int) (l : List Bool) : Prop :=
  ∀ k : Nat, k ≤ l.length → (trailing_hits (l.take k) : Int) ≤ M

/-- The state of a run between RESET and the hand-over to SYNC, in terms of the
stream `x` indexed from the first sample seen by the RESET call: with `n` the
number of SEARCH loop iterations executed so far, both sums are the window sums
at `n`, the record of detection outcomes is what the stream dictates, and
either the receiver is still in SEARCH, has consumed `n` samples and counts the
trailing hits in `d_plateau`, or it has just moved to SYNC on a hit that
completed `MIN_PLATEAU + 1` consecutive hits. -/
def search_phase (c : constants) (x : Int → ℚ) (r : run_state P) : Prop :=
  r.rx.d_search_corr = autocorr_window x c.SYNCP_SIZE r.search_hits.length ∧
  r.rx.d_energy = energy_window x c.SYNCP_SIZE r.search_hits.length ∧
  r.search_hits = (List.range r.search_hits.length).map
    (fun t : Nat => detection x c.SYNCP_SIZE (1 + (t : Int))) ∧
  ((r.rx.d_receiver_state = SEARCH ∧ r.pos = r.search_hits.length ∧
      r.rx.d_plateau = trailing_hits r.search_hits ∧
      no_plateau c.MIN_PLATEAU r.search_hits) ∨
    (r.rx.d_receiver_state = SYNC ∧
      r.pos = (r.search_hits.length : Int) - 1 + 2 * c.SYNCP_SIZE ∧
      r.rx.d_plateau = c.MIN_PLATEAU ∧
      (trailing_hits r.search_hits : Int) = c.MIN_PLATEAU + 1 ∧
      ∃ h1 : List Bool, r.search_hits = h1 ++ [true] ∧ no_plateau c.MIN_PLATEAU h1))

/-! ## The circular preamble buffer -/

/-- The circular preamble buffer as a pair: the buffer `d_preamble` and the
write position `d_preamble_offset`. One `preamble_put` on the pair. -/
def ring_put (c : constants) (rg : List ℚ × Int) (v : ℚ) : List ℚ × Int :=
  (wr rg.1 rg.2 v, Int.tmod (rg.2 + 1) c.PREAMBLE_SIZE)

/-- The samples of `l` put into the circular preamble buffer one after the
other, in order. -/
def ring_append (c : constants) (rg : List ℚ × Int) (l : List ℚ) : List ℚ × Int :=
  l.foldl (ring_put c) rg

/-- The product `d_correlation[i] * d_correlation[i + SYNCP_SIZE]` that SYNC
maximises. -/
def sync_product (c : constants) (corr : List ℚ) (i : Int) : ℚ :=
  rd corr i * rd corr (i + c.SYNCP_SIZE)

/-- The local `max_index` of SYNC when the first loop is left, for a receiver
whose `d_correlation` has been filled. -/
def sync_max_index (c : constants) (inp : Int → ℚ) (s : phy_rx_impl P) : Int :=
  (sync_loop1 c inp (c.SYNC_LENGTH - c.SYNCP_SIZE).toNat s 0 0
    (rd s.d_correlation 0 * rd s.d_correlation c.SYNCP_SIZE)).2.2.1

/-! ## The constructor -/

/-- The constructor `phy_rx_impl::phy_rx_impl(debug)`, with `phy` the freshly
constructed `light_plc::phy_service()`. The correlation filter taps are the
vector built from the iterator range
`[preamble() + SYNCP_SIZE * 7.5, preamble() + SYNCP_SIZE * 8.5)` (the `double`
offsets convert to integers by truncation) and then reversed; `d_correlation`,
`d_preamble` and `d_frame_control` are allocated with `SYNC_LENGTH`,
`PREAMBLE_SIZE` and `FRAME_CONTROL_SIZE` entries. -/
def phy_rx_impl_new (c : constants) (ops : phy_service_ops P) (phy : P) : phy_rx_impl P :=
  let first := Int.tdiv (15 * c.SYNCP_SIZE) 2
  let last := Int.tdiv (17 * c.SYNCP_SIZE) 2
  let syncp := ((ops.preamble phy).drop first.toNat).take (last - first).toNat
  { d_receiver_state := RESET, d_search_corr := 0, d_energy := 0, d_plateau := 0,
    d_payload_size := 0, d_payload_offset := 0, d_sync_offset := 0,
    d_frame_control_offset := 0, d_preamble_offset := 0, d_frame_start := 0,
    d_output_datastream_offset := 0, d_output_datastream_len := 0, d_noise := [],
    d_noise_offset := 0, d_inter_frame_space_offset := 0,
    d_preamble := List.replicate c.PREAMBLE_SIZE.toNat 0,
    d_frame_control := List.replicate c.FRAME_CONTROL_SIZE.toNat 0,
    d_payload := [], d_cor := [], d_fir := syncp.reverse,
    d_correlation := List.replicate c.SYNC_LENGTH.toNat 0, d_phy_service := phy }

/-! ## `app_in_impl` (src/lib/app_in_impl.cc) -/

/-- The accessor `pmt::cdr` (of a pair). -/
def cdr : pmt_t → pmt_t
  | pmt_t.pair _ b => b
  | _ => pmt_t.PMT_NIL

/-- The predicate `pmt::is_dict`: the empty dictionary or a pair. -/
def is_dict : pmt_t → Bool
  | pmt_t.PMT_NIL => true
  | pmt_t.pair _ _ => true
  | _ => false

/-- The call `pmt::dict_ref(dict, key, not_found)`: the value of the first entry
of the association list whose key equals `key`, `not_found` when there is none
(or the list is malformed). -/
def dict_ref : pmt_t → pmt_t → pmt_t → pmt_t
  | pmt_t.pair (pmt_t.pair k v) rest, key, not_found =>
    if key = k then v else dict_ref rest key not_found
  | _, _, not_found => not_found

/-- The call `pmt::u8vector_elements(v, len)`: the bytes of a u8vector (`len` is
their number); any other value makes it throw. -/
def u8vector_elements : pmt_t → Option (List Nat)
  | pmt_t.u8vector bytes => some bytes
  | _ => none

/-- A message object on the heap of the GNU Radio runtime: its value and the
number of `pmt_t` handles that keep it alive, that is the handles to the
message, to its dictionary or to a vector it carries, wherever they are held
(a message queue, a local variable of a block, the sender). A `pmt_t` is a
reference-counted pointer: the object and the storage of its vectors are freed
when the last handle is released. -/
structure heap_obj where
  value : pmt_t
  refs : Nat
  deriving DecidableEq, Repr

/-- The heap of message objects: entry `a` is the object at address `a`, `none`
once it has been freed. -/
abbrev heap_t := List (Option heap_obj)

/-- The release of one handle to the object at address `a` (the destructor of a
`pmt_t`): the last release frees the object. -/
def release (heap : heap_t) (a : Nat) : heap_t :=
  match heap.getD a none with
  | some obj =>
    if obj.refs ≤ 1 then heap.set a none
    else heap.set a (some { obj with refs := obj.refs - 1 })
  | none => heap

/-- The bytes behind a pointer to the elements of the `msdu` vector of the
message at address `a`: `none` once the message has been freed. -/
def msdu_elements (heap : heap_t) (a : Nat) : Option (List Nat) :=
  match heap.getD a none with
  | some obj => u8vector_elements (dict_ref (cdr obj.value) (mp "msdu") pmt_t.PMT_NIL)
  | none => none

/-- The ways a call of `general_work` fails to return normally. -/
inductive fault where
  /-- The call `delete_head_blocking` waits on an empty queue. -/
  | blocked
  /-- The call `u8vector_elements` throws `pmt::wrong_type`. -/
  | wrong_type
  /-- A read of storage that has been freed. -/
  | use_after_free
  /-- A read outside the storage of the vector. -/
  | out_of_bounds
  deriving DecidableEq, Repr

/-- The data members of `app_in_impl` that `general_work` uses (the clock and
the log level only feed the debug output). `d_mac_payload` is a raw pointer to
the elements of the `msdu` vector of a message; it is the address of that
message and holds no handle to it. The declaration (app_in_impl.h) is not among
the sources; the three counters are unbounded integers. -/
structure app_in_impl where
  d_mac_payload : Nat
  d_mac_payload_offset : Int
  d_mac_payload_length : Int
  d_total_bytes : Int
  deriving DecidableEq, Repr

/-- What one call of `general_work` does: the block afterwards, the handles left
in the queue of port "mac in", the heap, the bytes written to `out` and the
returned number of items. -/
structure general_work_result where
  block : app_in_impl
  queue : List Nat
  heap : heap_t
  out : List Nat
  returned : Int
  deriving DecidableEq, Repr

/-- The test of the loop body of `general_work`: the message is a
`MAC-RXMSDU` command, a pair of a symbol and a dictionary. -/
def is_rxmsdu (msg : pmt_t) : Bool :=
  is_pair msg && is_symbol (car msg) && is_dict (cdr msg) &&
    decide (symbol_to_string (car msg) = "MAC-RXMSDU")

/-- The loop `while (!d_mac_payload_offset)` of `general_work`, entered with the
offset at 0, on the queue of port "mac in" (the addresses its handles refer to,
oldest first) and the heap. `delete_head_blocking` moves the head handle of the
queue into the local `msg`; an empty queue blocks the call. The locals `msg`,
`dict` and `mac_payload_pmt` are declared inside the loop body, so the handle
taken from the queue is released at the end of every iteration and at the
`break`. On a `MAC-RXMSDU` command the block keeps the pointer returned by
`u8vector_elements` and the length, nothing else. -/
def dequeue_loop (s : app_in_impl) :
    List Nat → heap_t → Except fault (app_in_impl × List Nat × heap_t)
  | [], _ => Except.error fault.blocked
  | a :: queue, heap =>
    match heap.getD a none with
    | none => Except.error fault.use_after_free
    | some obj =>
      let msg := obj.value
      if is_pair msg && is_symbol (car msg) && is_dict (cdr msg) then
        let cmd := symbol_to_string (car msg)
        let dict := cdr msg
        if cmd = "MAC-RXMSDU" then
          let mac_payload_pmt := dict_ref dict (mp "msdu") pmt_t.PMT_NIL
          match u8vector_elements mac_payload_pmt with
          | some bytes =>
            Except.ok ({ s with d_mac_payload := a, d_mac_payload_length := bytes.length },
              queue, release heap a)
          | none => Except.error fault.wrong_type
        else dequeue_loop s queue (release heap a)
      else dequeue_loop s queue (release heap a)

/-- The call `std::memcpy(out, d_mac_payload + offset, i)`: the `i` bytes read
through the pointer. A copy of no byte reads nothing; otherwise the storage
must still be allocated and hold `offset + i` bytes. -/
def memcpy_payload (heap : heap_t) (d_mac_payload : Nat) (offset i : Int) :
    Except fault (List Nat) :=
  if i = 0 then Except.ok []
  else
    match msdu_elements heap d_mac_payload with
    | none => Except.error fault.use_after_free
    | some bytes =>
      if 0 ≤ offset ∧ 0 ≤ i ∧ offset + i ≤ bytes.length then
        Except.ok ((bytes.drop offset.toNat).take i.toNat)
      else Except.error fault.out_of_bounds

/-- The member function `app_in_impl::general_work(noutput_items, ...)` on the
block, the queue of port "mac in" and the heap: the dequeue loop when the
offset is 0, then `i = min(noutput_items, length - offset)` bytes are copied
through `d_mac_payload` to `out`, the offset advances and wraps to 0 at the end
of the payload. -/
def general_work (noutput_items : Int) (s : app_in_impl) (queue : List Nat) (heap : heap_t) :
    Except fault general_work_result :=
  match (if s.d_mac_payload_offset = 0 then dequeue_loop s queue heap
         else Except.ok (s, queue, heap)) with
  | Except.error e => Except.error e
  | Except.ok (s1, queue1, heap1) =>
    let i := min noutput_items (s1.d_mac_payload_length - s1.d_mac_payload_offset)
    match memcpy_payload heap1 s1.d_mac_payload s1.d_mac_payload_offset i with
    | Except.error e => Except.error e
    | Except.ok out =>
      let s2 : app_in_impl := { s1 with d_mac_payload_offset := s1.d_mac_payload_offset + i }
      let s3 : app_in_impl := { s2 with d_total_bytes := s2.d_total_bytes + i }
      let s4 : app_in_impl :=
        if s3.d_mac_payload_offset = s3.d_mac_payload_length then
          { s3 with d_mac_payload_offset := 0 }
        else s3
      Except.ok { block := s4, queue := queue1, heap := heap1, out := out, returned := i }

/-- A run of `general_work` calls, one `noutput_items` per call, with nothing
else touching the queue or the heap in between: the block, the queue, the heap
and the concatenated output after the last call, or the fault of the first
call that does not return. -/
def general_work_run : List Int → app_in_impl → List Nat → heap_t → List Nat →
    Except fault (app_in_impl × List Nat × heap_t × List Nat)
  | [], s, queue, heap, out => Except.ok (s, queue, heap, out)
  | n :: ns, s, queue, heap, out =>
    match general_work n s queue heap with
    | Except.error e => Except.error e
    | Except.ok r => general_work_run ns r.block r.queue r.heap (out ++ r.out)

deriving instance DecidableEq for Except

/-! ## The circular preamble buffer over a run -/

/-- The number `T` of stream samples written to the circular preamble buffer
since the RESET call, for a run at read position `pos`: RESET writes
`2*SYNCP_SIZE` samples and consumes none, so in SEARCH the writes are
`2*SYNCP_SIZE` ahead of the read position; from the hand-over to SYNC on every
written sample has been consumed. -/
def preamble_written (c : constants) (r : run_state P) : Int :=
  if r.rx.d_receiver_state = SEARCH then r.pos + 2 * c.SYNCP_SIZE else r.pos

/-- The circular preamble buffer of the run state `r` is the buffer `buf0` into
which the stream samples `x[0], ..., x[T-1]` have been put one after the other,
in order, from write position 0. -/
def ring_holds (c : constants) (x : Int → ℚ) (buf0 : List ℚ) (r : run_state P) : Prop :=
  0 ≤ preamble_written c r ∧
  (r.rx.d_preamble, r.rx.d_preamble_offset) =
    ring_append c (buf0, 0) (stream_slice x 0 (preamble_written c r).toNat)

/-- The buffer `preamble_aligned` that COPY_PREAMBLE builds from the circular
buffer: the part from the write position to the end, then the part before it. -/
def preamble_aligned (s : phy_rx_impl P) : List ℚ :=
  s.d_preamble.drop s.d_preamble_offset.toNat ++ s.d_preamble.take s.d_preamble_offset.toNat

/-- The state of a run between the SYNC call and the preamble hand-over, for a
SYNC call that ended at stream position `p3` with `d_frame_start = fs` and
service `phy0`: the circular buffer is in step with the stream, `d_sync_offset`
counts the samples consumed since `p3`, and either the receiver is still in
COPY_PREAMBLE with the service untouched, or it has consumed `fs` samples and
handed the rotated buffer to `process_ppdu_preamble`. -/
def copy_phase (c : constants) (ops : phy_service_ops P) (x : Int → ℚ) (buf0 : List ℚ)
    (p3 fs : Int) (phy0 : P) (r : run_state P) : Prop :=
  ring_holds c x buf0 r ∧
  r.rx.d_frame_start = fs ∧
  r.pos - r.rx.d_sync_offset = p3 ∧
  r.rx.d_sync_offset ≤ fs ∧
  ((r.rx.d_receiver_state = COPY_PREAMBLE ∧ r.rx.d_phy_service = phy0) ∨
    (r.rx.d_receiver_state = COPY_FRAME_CONTROL ∧ r.rx.d_sync_offset = fs ∧
      r.rx.d_phy_service = ops.process_ppdu_preamble phy0 (preamble_aligned r.rx)))

/-! ## `forecast` and the memory accesses of `work` -/

/-- The member function `phy_rx_impl::forecast(noutput_items, ninput_items_required)`:
the values it stores in `ninput_items_required[0]`, `[1]` and `[2]`. -/
def forecast (c : constants) (ops : phy_service_ops P) (noutput_items : Int)
    (s : phy_rx_impl P) : List Int :=
  if s.d_receiver_state = SYNC then
    [c.SYNC_LENGTH + c.SYNCP_SIZE - 1, c.SYNC_LENGTH + c.SYNCP_SIZE - 1,
      c.SYNC_LENGTH + c.SYNCP_SIZE - 1]
  else if s.d_receiver_state = RESET then
    [2 * c.SYNCP_SIZE, 2 * c.SYNCP_SIZE, 2 * c.SYNCP_SIZE]
  else if s.d_receiver_state = SENSE_SPACE then
    [ops.get_inter_frame_space s.d_phy_service, ops.get_inter_frame_space s.d_phy_service,
      ops.get_inter_frame_space s.d_phy_service]
  else
    [noutput_items, noutput_items, noutput_items]

/-- A record of what a piece of `work` touches, each list in execution order:
the indices `k` of the reads `in[k]`, the indices `k` of the writes
`d_preamble[k] = ...`, and the value of `d_energy` at each evaluation of the
division `d_search_corr / d_energy`. -/
structure access_log where
  reads : List Int
  preamble_writes : List Int
  divisors : List ℚ
  deriving DecidableEq, Repr

/-- The empty record. -/
def access_log.none : access_log := { reads := [], preamble_writes := [], divisors := [] }

/-- The record of one piece of code followed by another. -/
def access_log.append (a b : access_log) : access_log :=
  { reads := a.reads ++ b.reads, preamble_writes := a.preamble_writes ++ b.preamble_writes,
    divisors := a.divisors ++ b.divisors }

/-- The record of the statement pair `d_preamble[d_preamble_offset++] = in[k];
d_preamble_offset = d_preamble_offset % PREAMBLE_SIZE;` on the receiver `s`. -/
def preamble_put_log (s : phy_rx_impl P) (k : Int) : access_log :=
  { reads := [k], preamble_writes := [s.d_preamble_offset], divisors := [] }

/-- The RESET loop (`reset_loop`) together with the record of its accesses. -/
def reset_loop_log (c : constants) (inp : Int → ℚ) :
    Nat → phy_rx_impl P → Int → phy_rx_impl P × access_log
  | 0, s, _ => (s, access_log.none)
  | fuel + 1, s, j =>
    if j < c.SYNCP_SIZE then
      let s1 : phy_rx_impl P := { s with
        d_search_corr := s.d_search_corr + inp j * inp (j + c.SYNCP_SIZE) }
      let s2 : phy_rx_impl P := { s1 with d_energy := s1.d_energy + inp j * inp j }
      let s3 : phy_rx_impl P := { s2 with
        d_preamble := wr s2.d_preamble s2.d_preamble_offset (inp (j * 2))
        d_preamble_offset := s2.d_preamble_offset + 1 }
      let s4 : phy_rx_impl P := { s3 with
        d_preamble := wr s3.d_preamble s3.d_preamble_offset (inp (j * 2 + 1))
        d_preamble_offset := s3.d_preamble_offset + 1 }
      let r := reset_loop_log c inp fuel s4 (j + 1)
      (r.1, access_log.append
        { reads := [j, j + c.SYNCP_SIZE, j, j, j * 2, j * 2 + 1],
          preamble_writes := [s2.d_preamble_offset, s3.d_preamble_offset],
          divisors := [] } r.2)
    else (s, access_log.none)

/-- The SEARCH loop (`search_loop`) together with the record of its accesses.
The condition `d_energy > MIN_ENERGY && d_search_corr / d_energy > THRESHOLD`
evaluates its division only when the first operand holds. -/
def search_loop_log (c : constants) (inp : Int → ℚ) (ninput : Int) :
    Nat → phy_rx_impl P → Int → (phy_rx_impl P × Int × List Bool) × access_log
  | 0, s, i => ((s, i, []), access_log.none)
  | fuel + 1, s, i =>
    if i + 2 * c.SYNCP_SIZE < ninput then
      let s1 : phy_rx_impl P := { s with
        d_search_corr := s.d_search_corr +
          (inp (i + c.SYNCP_SIZE) * inp (i + c.SYNCP_SIZE * 2) - inp i * inp (i + c.SYNCP_SIZE)) }
      let s2 : phy_rx_impl P := { s1 with
        d_energy := s1.d_energy +
          (inp (i + c.SYNCP_SIZE) * inp (i + c.SYNCP_SIZE) - inp i * inp i) }
      let sums : access_log :=
        { reads := [i + c.SYNCP_SIZE, i + c.SYNCP_SIZE * 2, i, i + c.SYNCP_SIZE,
            i + c.SYNCP_SIZE, i + c.SYNCP_SIZE, i, i],
          preamble_writes := [],
          divisors := if s2.d_energy > MIN_ENERGY then [s2.d_energy] else [] }
      if s2.d_energy > MIN_ENERGY ∧ s2.d_search_corr / s2.d_energy > THRESHOLD then
        if s2.d_plateau < c.MIN_PLATEAU then
          let s3 : phy_rx_impl P := { s2 with d_plateau := s2.d_plateau + 1 }
          let r := search_loop_log c inp ninput fuel
            (preamble_put c s3 (inp (i + 2 * c.SYNCP_SIZE))) (i + 1)
          ((r.1.1, r.1.2.1, true :: r.1.2.2),
            access_log.append
              (access_log.append sums (preamble_put_log s3 (i + 2 * c.SYNCP_SIZE))) r.2)
        else
          (({ s2 with d_receiver_state := SYNC }, i + 2 * c.SYNCP_SIZE, [true]), sums)
      else
        let s3 : phy_rx_impl P := { s2 with d_plateau := 0 }
        let r := search_loop_log c inp ninput fuel
          (preamble_put c s3 (inp (i + 2 * c.SYNCP_SIZE))) (i + 1)
        ((r.1.1, r.1.2.1, false :: r.1.2.2),
          access_log.append
            (access_log.append sums (preamble_put_log s3 (i + 2 * c.SYNCP_SIZE))) r.2)
    else ((s, i, []), access_log.none)

/-- The input indices read by `d_fir->filterN(out, in, n)`: output `m` reads
`in[m + ntaps - 1 - k]` for every tap `k`. -/
def filterN_reads (taps : List ℚ) (n : Int) : List Int :=
  (List.range n.toNat).flatMap (fun (m : Nat) =>
    (List.range taps.length).map
      (fun (k : Nat) => (m : Int) + (taps.length : Int) - 1 - (k : Int)))

/-- The first SYNC loop (`sync_loop1`) together with the record of its accesses. -/
def sync_loop1_log (c : constants) (inp : Int → ℚ) :
    Nat → phy_rx_impl P → Int → Int → ℚ → (phy_rx_impl P × Int × Int × ℚ) × access_log
  | 0, s, i, max_index, max_value => ((s, i, max_index, max_value), access_log.none)
  | fuel + 1, s, i, max_index, max_value =>
    if i < c.SYNC_LENGTH - c.SYNCP_SIZE then
      let s1 := preamble_put c s (inp i)
      if rd s.d_correlation i * rd s.d_correlation (i + c.SYNCP_SIZE) > max_value then
        let r := sync_loop1_log c inp fuel s1 (i + 1) i
          (rd s.d_correlation i * rd s.d_correlation (i + c.SYNCP_SIZE))
        (r.1, access_log.append (preamble_put_log s i) r.2)
      else
        let r := sync_loop1_log c inp fuel s1 (i + 1) max_index max_value
        (r.1, access_log.append (preamble_put_log s i) r.2)
    else ((s, i, max_index, max_value), access_log.none)

/-- The second SYNC loop (`sync_loop2`) together with the record of its accesses. -/
def sync_loop2_log (c : constants) (inp : Int → ℚ) :
    Nat → phy_rx_impl P → Int → (phy_rx_impl P × Int) × access_log
  | 0, s, i => ((s, i), access_log.none)
  | fuel + 1, s, i =>
    if i < c.SYNC_LENGTH then
      let r := sync_loop2_log c inp fuel (preamble_put c s (inp i)) (i + 1)
      (r.1, access_log.append (preamble_put_log s i) r.2)
    else ((s, i), access_log.none)

/-- The COPY_PREAMBLE loop (`copy_preamble_loop`) together with the record of its
accesses. -/
def copy_preamble_loop_log (c : constants) (inp : Int → ℚ) (ninput : Int) :
    Nat → phy_rx_impl P → Int → (phy_rx_impl P × Int) × access_log
  | 0, s, i => ((s, i), access_log.none)
  | fuel + 1, s, i =>
    if i < ninput ∧ s.d_sync_offset < s.d_frame_start then
      let s1 := preamble_put c s (inp i)
      let r := copy_preamble_loop_log c inp ninput fuel
        { s1 with d_sync_offset := s1.d_sync_offset + 1 } (i + 1)
      (r.1, access_log.append (preamble_put_log s i) r.2)
    else ((s, i), access_log.none)

/-- The case SEARCH of `work` (`work_search`) together with the record of its
accesses. -/
def work_search_log (c : constants) (ninput : Int) (inp : Int → ℚ) (s : phy_rx_impl P) :
    work_result P × access_log :=
  let r := search_loop_log c inp ninput (ninput - 2 * c.SYNCP_SIZE).toNat s 0
  ({ rx := r.1.1, published := [], consumed := r.1.2.1, search_hits := r.1.2.2 }, r.2)

/-- The case SYNC of `work` (`work_sync`) together with the record of its
accesses: the reads of `filterN`, then the two loops. -/
def work_sync_log (c : constants) (inp : Int → ℚ) (s : phy_rx_impl P) :
    work_result P × access_log :=
  let s1 : phy_rx_impl P := { s with d_correlation := filterN s.d_fir inp c.SYNC_LENGTH }
  let r1 := sync_loop1_log c inp (c.SYNC_LENGTH - c.SYNCP_SIZE).toNat s1 0 0
    (rd s1.d_correlation 0 * rd s1.d_correlation c.SYNCP_SIZE)
  let r2 := sync_loop2_log c inp c.SYNC_LENGTH.toNat r1.1.1 r1.1.2.1
  let max_index := r1.1.2.2.1
  let i := r2.1.2
  let s2 : phy_rx_impl P := { r2.1.1 with
    d_frame_start := Int.tdiv (5 * c.SYNCP_SIZE + 2 * max_index - 2 * i) 2 }
  let log := access_log.append
    { reads := filterN_reads s.d_fir c.SYNC_LENGTH, preamble_writes := [], divisors := [] }
    (access_log.append r1.2 r2.2)
  if s2.d_frame_start < 0 then
    ({ rx := { s2 with d_receiver_state := RESET }, published := [], consumed := i,
       search_hits := [] }, log)
  else
    ({ rx := { s2 with d_receiver_state := COPY_PREAMBLE }, published := [], consumed := i,
       search_hits := [] }, log)

/-- The case COPY_PREAMBLE of `work` (`work_copy_preamble`) together with the
record of its accesses. -/
def work_copy_preamble_log (c : constants) (ops : phy_service_ops P) (ninput : Int)
    (inp : Int → ℚ) (s : phy_rx_impl P) : work_result P × access_log :=
  let r := copy_preamble_loop_log c inp ninput ninput.toNat s 0
  let s1 := r.1.1
  if s1.d_sync_offset = s1.d_frame_start then
    let preamble_aligned :=
      s1.d_preamble.drop s1.d_preamble_offset.toNat ++
        s1.d_preamble.take s1.d_preamble_offset.toNat
    ({ rx := { s1 with
        d_phy_service := ops.process_ppdu_preamble s1.d_phy_service preamble_aligned
        d_receiver_state := COPY_FRAME_CONTROL },
       published := [], consumed := r.1.2, search_hits := [] }, r.2)
  else
    ({ rx := s1, published := [], consumed := r.1.2, search_hits := [] }, r.2)

/-- The case RESET of `work` (`work_reset`) together with the record of its
accesses. -/
def work_reset_log (c : constants) (inp : Int → ℚ) (s : phy_rx_impl P) :
    work_result P × access_log :=
  let s1 : phy_rx_impl P := { s with
    d_plateau := 0
    d_frame_control_offset := 0
    d_sync_offset := 0
    d_preamble_offset := 0
    d_payload_size := 0
    d_payload_offset := 0
    d_cor := []
    d_output_datastream_offset := 0
    d_output_datastream_len := 0
    d_noise_offset := 0
    d_search_corr := 0
    d_energy := 0
    d_inter_frame_space_offset := 0 }
  let r := reset_loop_log c inp c.SYNCP_SIZE.toNat s1 0
  ({ rx := { r.1 with d_receiver_state := SEARCH }, published := [], consumed := 0,
     search_hits := [] }, r.2)

/-- The function `work` together with the record of its accesses in the four
states that write the preamble buffer: RESET, SEARCH, SYNC and COPY_PREAMBLE.
The other states neither write the preamble buffer nor divide; their reads of
`in` are not recorded and the record is empty. -/
def work_log (c : constants) (ops : phy_service_ops P) (noutput_items : Int) (inp : Int → ℚ)
    (s : phy_rx_impl P) : work_result P × access_log :=
  let ninput := noutput_items
  match s.d_receiver_state with
  | SEARCH => work_search_log c ninput inp s
  | SYNC => work_sync_log c inp s
  | COPY_PREAMBLE => work_copy_preamble_log c ops ninput inp s
  | RESET => work_reset_log c inp s
  | _ => (work c ops noutput_items inp s, access_log.none)

/-- Every access of the record is in range: the reads of `in` within
`[0, ninput)`, the writes of `d_preamble` within `[0, PREAMBLE_SIZE)`, and every
divisor above `MIN_ENERGY`. -/
def access_log.in_bounds (c : constants) (ninput : Int) (l : access_log) : Prop :=
  (∀ k ∈ l.reads, 0 ≤ k ∧ k < ninput) ∧
  (∀ k ∈ l.preamble_writes, 0 ≤ k ∧ k < c.PREAMBLE_SIZE) ∧
  (∀ d ∈ l.divisors, MIN_ENERGY < d)

/-! ## Concrete instances on which the theorems are exercised -/

/-- A service without state: frame control decodes to `fc_ok`, the frame type
is `ty`, payloads are 3 samples and 2 bytes long, the inter-frame space is 4
samples. -/
def demo_ops (ty : mpdu_type_t) (fc_ok : Bool) : phy_service_ops Unit where
  preamble := fun _ => []
  process_ppdu_preamble := fun _ _ => ()
  process_ppdu_frame_control := fun _ _ => (fc_ok, ())
  get_ppdu_payload_length := fun _ => 3
  get_mpdu_payload_size := fun _ => 2
  process_ppdu_payload := fun _ _ blob => ((), blob)
  get_frame_type := fun _ => ty
  get_sackd_size := fun _ => 1
  get_sackd := fun _ blob => blob
  get_inter_frame_space := fun _ => 4
  process_noise := fun _ _ => ()
  get_snr := fun _ => []
  set_noise_psd := fun _ _ => ()
  calculate_tone_map := fun _ _ => ([1, 2], ())
  set_tone_map := fun _ _ => ()

/-- The constants of the demo receiver: `SYNCP_SIZE = 1` (so `MIN_PLATEAU = 5`,
`PREAMBLE_SIZE = 10`) and `FRAME_CONTROL_SIZE = 2`. -/
def demo_constants : constants := { SYNCP_SIZE := 1, FRAME_CONTROL_SIZE := 2 }

/-- A freshly constructed demo receiver put in state `st`, with a payload
buffer of `payload_size` samples. -/
def demo_rx (st : receiver_state_t) (payload_size : Nat) : phy_rx_impl Unit :=
  { d_receiver_state := st, d_search_corr := 0, d_energy := 0, d_plateau := 0,
    d_payload_size := payload_size, d_payload_offset := 0, d_sync_offset := 0,
    d_frame_control_offset := 0, d_preamble_offset := 0, d_frame_start := 0,
    d_output_datastream_offset := 0, d_output_datastream_len := 0, d_noise := [],
    d_noise_offset := 0, d_inter_frame_space_offset := 0,
    d_preamble := List.replicate 10 0, d_frame_control := List.replicate 2 0,
    d_payload := List.replicate payload_size 0, d_cor := [], d_fir := [1],
    d_correlation := [0, 0], d_phy_service := () }

/-- The stream whose `k`-th sample is `k`. -/
def ramp (k : Int) : ℚ := k

/-- The stream of constant samples `1`. -/
def ones (_ : Int) : ℚ := 1

/-- A service whose state is the last value given to `set_noise_psd`; the
inter-frame space is 4 samples. -/
def demo_psd_ops : phy_service_ops ℚ where
  preamble := fun _ => []
  process_ppdu_preamble := fun q _ => q
  process_ppdu_frame_control := fun q _ => (true, q)
  get_ppdu_payload_length := fun _ => 3
  get_mpdu_payload_size := fun _ => 2
  process_ppdu_payload := fun q _ blob => (q, blob)
  get_frame_type := fun _ => MPDU_TYPE_SOUND
  get_sackd_size := fun _ => 1
  get_sackd := fun _ blob => blob
  get_inter_frame_space := fun _ => 4
  process_noise := fun q _ => q
  get_snr := fun _ => []
  set_noise_psd := fun _ v => v
  calculate_tone_map := fun q _ => ([1, 2], q)
  set_tone_map := fun q _ => q

/-- A freshly constructed receiver over `demo_psd_ops` put in state `st`. -/
def demo_psd_rx (st : receiver_state_t) : phy_rx_impl ℚ :=
  { d_receiver_state := st, d_search_corr := 0, d_energy := 0, d_plateau := 0,
    d_payload_size := 0, d_payload_offset := 0, d_sync_offset := 0,
    d_frame_control_offset := 0, d_preamble_offset := 0, d_frame_start := 0,
    d_output_datastream_offset := 0, d_output_datastream_len := 0, d_noise := [],
    d_noise_offset := 0, d_inter_frame_space_offset := 0,
    d_preamble := List.replicate 10 0, d_frame_control := List.replicate 2 0,
    d_payload := [], d_cor := [], d_fir := [1], d_correlation := [0, 0], d_phy_service := 0 }

/-- The constants of a second demo receiver: `SYNCP_SIZE = 2` (so
`SYNC_LENGTH = 4`, `MIN_PLATEAU = 11`, `PREAMBLE_SIZE = 20`) and
`FRAME_CONTROL_SIZE = 2`. -/
def demo_constants2 : constants := { SYNCP_SIZE := 2, FRAME_CONTROL_SIZE := 2 }

/-- A demo receiver for `demo_constants2` in state `st`, with the correlation
vector `corr`, the filter taps `[1, 0]` and a preamble buffer of 20 zeros. -/
def demo_sync_rx (st : receiver_state_t) (corr : List ℚ) : phy_rx_impl Unit :=
  { d_receiver_state := st, d_search_corr := 0, d_energy := 0, d_plateau := 0,
    d_payload_size := 0, d_payload_offset := 0, d_sync_offset := 0,
    d_frame_control_offset := 0, d_preamble_offset := 0, d_frame_start := 0,
    d_output_datastream_offset := 0, d_output_datastream_len := 0, d_noise := [],
    d_noise_offset := 0, d_inter_frame_space_offset := 0,
    d_preamble := List.replicate 20 0, d_frame_control := List.replicate 2 0,
    d_payload := [], d_cor := [], d_fir := [1, 0], d_correlation := corr,
    d_phy_service := () }

/-- The demo receiver in COPY_PREAMBLE with two samples of the preamble still
to come (`d_frame_start = 2`, `d_sync_offset = 0`). -/
def demo_preamble_rx : phy_rx_impl Unit :=
  { demo_rx COPY_PREAMBLE 0 with d_frame_start := 2 }

/-- The demo service with a reference preamble of 20 samples, sample `j` being
`j`. -/
def demo_preamble_ops : phy_service_ops Unit :=
  { demo_ops MPDU_TYPE_SOF true with preamble := fun _ => stream_slice ramp 0 20 }

/-- A freshly constructed `app_in` block (the constructor leaves
`d_mac_payload` unset). -/
def demo_app_in : app_in_impl :=
  { d_mac_payload := 0, d_mac_payload_offset := 0, d_mac_payload_length := 0,
    d_total_bytes := 0 }

/-- A `MAC-RXMSDU` message with the payload 7, 8, 9. -/
def demo_rxmsdu : pmt_t :=
  cons (mp "MAC-RXMSDU") (dict_add make_dict (mp "msdu") (pmt_t.u8vector [7, 8, 9]))

/-- A heap of four messages: a malformed message, another command, the message
`demo_rxmsdu` kept alive by `refs` handles, and one more command. The other
three are referred to by the queue only. -/
def demo_heap (refs : Nat) : heap_t :=
  [some { value := pmt_t.symbol "MAC-RXMSDU", refs := 1 },
    some { value := cons (mp "PHY-RXEND") make_dict, refs := 1 },
    some { value := demo_rxmsdu, refs := refs },
    some { value := cons (mp "PHY-RXEND") make_dict, refs := 1 }]

/-- The queue of port "mac in" holding one handle to each message of
`demo_heap`, in order. -/
def demo_queue : List Nat := [0, 1, 2, 3]

/-- A service whose state is the last buffer given to `process_ppdu_preamble`. -/
def demo_record_ops : phy_service_ops (List ℚ) where
  preamble := fun _ => []
  process_ppdu_preamble := fun _ l => l
  process_ppdu_frame_control := fun q _ => (true, q)
  get_ppdu_payload_length := fun _ => 3
  get_mpdu_payload_size := fun _ => 2
  process_ppdu_payload := fun q _ blob => (q, blob)
  get_frame_type := fun _ => MPDU_TYPE_SOF
  get_sackd_size := fun _ => 1
  get_sackd := fun _ blob => blob
  get_inter_frame_space := fun _ => 4
  process_noise := fun q _ => q
  get_snr := fun _ => []
  set_noise_psd := fun q _ => q
  calculate_tone_map := fun q _ => ([1, 2], q)
  set_tone_map := fun q _ => q

/-- A receiver over `demo_record_ops` for `demo_constants2` in state RESET, with
the filter taps `[1, 0]` and a preamble buffer of 20 stale entries `-1`. -/
def demo_record_rx : phy_rx_impl (List ℚ) :=
  { d_receiver_state := RESET, d_search_corr := 0, d_energy := 0, d_plateau := 0,
    d_payload_size := 0, d_payload_offset := 0, d_sync_offset := 0,
    d_frame_control_offset := 0, d_preamble_offset := 0, d_frame_start := 0,
    d_output_datastream_offset := 0, d_output_datastream_len := 0, d_noise := [],
    d_noise_offset := 0, d_inter_frame_space_offset := 0,
    d_preamble := List.replicate 20 (-1), d_frame_control := List.replicate 2 0,
    d_payload := [], d_cor := [], d_fir := [1, 0], d_correlation := List.replicate 4 0,
    d_phy_service := [] }

/-! ## Buffer lemmas -/

theorem wr_length (buf : List ℚ) (idx : Int) (v : ℚ) : (wr buf idx v).length = buf.length := by
  unfold wr; split <;> simp

theorem rd_wr (buf : List ℚ) (idx j : Int) (v : ℚ) :
    rd (wr buf idx v) j = if j = idx ∧ 0 ≤ idx ∧ idx < buf.length then v else rd buf j := by
  unfold rd wr
  by_cases h0 : 0 ≤ idx
  · by_cases hj : 0 ≤ j
    · simp only [h0, hj, if_true, true_and]
      rw [List.getD_eq_getElem?_getD, List.getD_eq_getElem?_getD, List.getElem?_set]
      by_cases hji : j = idx
      · subst hji
        by_cases hlt : j < buf.length
        · have : j.toNat < buf.length := by omega
          simp [hlt, this]
        · have hge : buf.length ≤ j.toNat := by omega
          have : ¬ j.toNat < buf.length := by omega
          simp [hlt, this, List.getElem?_eq_none hge]
      · have : idx.toNat ≠ j.toNat := by omega
        simp [hji, this]
    · have : ¬ (j = idx) := by omega
      simp [h0, hj, this]
  · simp [h0]

theorem std_copy_length (inp : Int → ℚ) (n : Nat) (src : Int) (buf : List ℚ) (dst : Int) :
    (std_copy inp n src buf dst).length = buf.length := by
  induction n generalizing src buf dst with
  | zero => rfl
  | succ n ih => simp [std_copy, ih, wr_length]

theorem rd_std_copy (inp : Int → ℚ) (n : Nat) (src : Int) (buf : List ℚ) (dst : Int)
    (hdst : 0 ≤ dst) (idx : Int) :
    rd (std_copy inp n src buf dst) idx =
      if dst ≤ idx ∧ idx < dst + n ∧ idx < buf.length then inp (src + (idx - dst))
      else rd buf idx := by
  induction n generalizing src buf dst with
  | zero =>
    simp only [std_copy]
    rw [if_neg]
    omega
  | succ n ih =>
    simp only [std_copy]
    rw [ih _ _ _ (by omega), wr_length, rd_wr]
    by_cases h1 : idx = dst
    · subst h1
      by_cases h2 : idx < buf.length
      · have a : ¬ (idx + 1 ≤ idx ∧ idx < idx + 1 + (n : Int) ∧ idx < buf.length) := by omega
        have b : (idx ≤ idx ∧ idx < idx + ((n + 1 : Nat) : Int) ∧ idx < buf.length) := by
          push_cast; omega
        simp [a, b, hdst, h2]
      · have a : ¬ (idx + 1 ≤ idx ∧ idx < idx + 1 + (n : Int) ∧ idx < buf.length) := by omega
        have b : ¬ (idx ≤ idx ∧ idx < idx + ((n + 1 : Nat) : Int) ∧ idx < buf.length) := by
          push_cast; omega
        simp [a, b, h2]
    · by_cases h2 : dst + 1 ≤ idx ∧ idx < dst + 1 + (n : Int) ∧ idx < buf.length
      · have b : (dst ≤ idx ∧ idx < dst + ((n + 1 : Nat) : Int) ∧ idx < buf.length) := by
          push_cast; omega
        rw [if_pos h2, if_pos b]
        congr 1; ring
      · have b : ¬ (dst ≤ idx ∧ idx < dst + ((n + 1 : Nat) : Int) ∧ idx < buf.length) := by
          push_cast; omega
        rw [if_neg h2, if_neg b]
        simp [h1]

/-- The frame-control loop stores `m` samples when that many are at hand and
fit below `FRAME_CONTROL_SIZE`. -/
theorem copy_frame_control_loop_store (c : constants) (ops : phy_service_ops P)
    (inp : Int → ℚ) (ninput : Int) (m fuel : Nat) (s : phy_rx_impl P) (i : Int)
    (hin : i + m ≤ ninput) (hfit : s.d_frame_control_offset + m ≤ c.FRAME_CONTROL_SIZE) :
    copy_frame_control_loop c ops inp ninput (m + fuel) s i =
      copy_frame_control_loop c ops inp ninput fuel
        { s with
          d_frame_control := std_copy inp m i s.d_frame_control s.d_frame_control_offset
          d_frame_control_offset := s.d_frame_control_offset + m } (i + m) := by
  induction m generalizing s i with
  | zero => simp [std_copy]
  | succ m ih =>
    have h1 : i < ninput := by push_cast at hin; omega
    have h2 : s.d_frame_control_offset < c.FRAME_CONTROL_SIZE := by push_cast at hfit; omega
    rw [show m + 1 + fuel = (m + fuel) + 1 by omega]
    rw [copy_frame_control_loop]
    simp only [h1, h2, if_true]
    rw [ih _ _ (by push_cast at hin ⊢; omega)
      (by show s.d_frame_control_offset + 1 + (m : Int) ≤ c.FRAME_CONTROL_SIZE
          push_cast at hfit; omega)]
    have e1 : i + 1 + (m : Int) = i + ((m + 1 : Nat) : Int) := by push_cast; ring
    have e2 : s.d_frame_control_offset + 1 + (m : Int) =
        s.d_frame_control_offset + ((m + 1 : Nat) : Int) := by push_cast; ring
    simp only [std_copy, e1, e2]

theorem std_copy_shift (x : Int → ℚ) (p : Int) (n : Nat) (src : Int) (buf : List ℚ) (dst : Int) :
    std_copy (fun j => x (p + j)) n src buf dst = std_copy x n (p + src) buf dst := by
  induction n generalizing src buf dst with
  | zero => rfl
  | succ n ih =>
    simp only [std_copy]
    rw [ih, add_assoc]

theorem std_copy_add (inp : Int → ℚ) (a b : Nat) (src : Int) (buf : List ℚ) (dst : Int) :
    std_copy inp (a + b) src buf dst =
      std_copy inp b (src + a) (std_copy inp a src buf dst) (dst + a) := by
  induction a generalizing src buf dst with
  | zero => simp [std_copy]
  | succ a ih =>
    rw [show a + 1 + b = (a + b) + 1 by omega]
    simp only [std_copy]
    rw [ih]
    push_cast
    have e1 : src + 1 + (a : Int) = src + ((a : Int) + 1) := by ring
    have e2 : dst + 1 + (a : Int) = dst + ((a : Int) + 1) := by ring
    rw [e1, e2]

theorem rd_eq_getElem (buf : List ℚ) (i : Nat) (h : i < buf.length) :
    rd buf (i : Int) = buf[i] := by
  simp [rd, List.getD_eq_getElem?_getD, List.getElem?_eq_getElem h]

theorem stream_slice_length (x : Int → ℚ) (a : Int) (n : Nat) :
    (stream_slice x a n).length = n := by
  simp [stream_slice]

/-- Copying as many samples as the buffer holds, from its start, leaves
exactly those samples in the buffer. -/
theorem std_copy_full (x : Int → ℚ) (a : Int) (buf : List ℚ) :
    std_copy x buf.length a buf 0 = stream_slice x a buf.length := by
  apply List.ext_getElem
  · rw [std_copy_length, stream_slice_length]
  · intro i h1 h2
    rw [std_copy_length] at h1
    rw [← rd_eq_getElem _ i (by rw [std_copy_length]; exact h1),
      rd_std_copy _ _ _ _ _ (le_refl 0), if_pos (by omega)]
    simp [stream_slice]

/-! ## Claims -/

/-- C1: one call of `work` in state COPY_PAYLOAD consumes
`k = min(d_payload_size - d_payload_offset, ninput)` samples and stores them, in
arrival order, at `d_payload[d_payload_offset ..]`. If the offset stays below
`d_payload_size` nothing is published and only the payload buffer and offset
change. If the offset reaches `d_payload_size`, exactly one message is published,
chosen by the decoded frame type: SOF gives `PHY-RXSOF` with the decoded bytes
under `payload` and state SENSE_SPACE, SACK gives `PHY-RXSACK` with the SACK data
under `sackd` and state CONSUME_SPACE, SOUND gives `PHY-RXSOUND` with an empty
dict and state SENSE_SPACE. -/
theorem copy_payload_step (c : constants) (ops : phy_service_ops P) (ninput : Int)
    (inp : Int → ℚ) (s : phy_rx_impl P)
    (hst : s.d_receiver_state = COPY_PAYLOAD)
    (hoff : 0 ≤ s.d_payload_offset)
    (hlen : (s.d_payload.length : Int) = s.d_payload_size) :
    let k := min (s.d_payload_size - s.d_payload_offset) ninput
    let w := work c ops ninput inp s
    let dec := ops.process_ppdu_payload s.d_phy_service w.rx.d_payload
      (make_u8vector (ops.get_mpdu_payload_size s.d_phy_service))
    w.consumed = k ∧
    w.rx.d_payload_offset = s.d_payload_offset + k ∧
    w.rx.d_payload.length = s.d_payload.length ∧
    (∀ j : Int, 0 ≤ j → j < k → rd w.rx.d_payload (s.d_payload_offset + j) = inp j) ∧
    (∀ idx : Int, idx < s.d_payload_offset → rd w.rx.d_payload idx = rd s.d_payload idx) ∧
    (s.d_payload_offset + k < s.d_payload_size →
      w.published = [] ∧
      w.rx = { s with d_payload := w.rx.d_payload, d_payload_offset := s.d_payload_offset + k }) ∧
    (s.d_payload_offset + k = s.d_payload_size →
      (ops.get_frame_type dec.1 = MPDU_TYPE_SOF →
        w.published =
          [cons (mp "PHY-RXSOF") (dict_add make_dict (mp "payload") (pmt_t.u8vector dec.2))] ∧
        w.rx.d_receiver_state = SENSE_SPACE) ∧
      (ops.get_frame_type dec.1 = MPDU_TYPE_SACK →
        w.published =
          [cons (mp "PHY-RXSACK") (dict_add make_dict (mp "sackd")
            (pmt_t.u8vector (ops.get_sackd dec.1 (make_u8vector (ops.get_sackd_size dec.1)))))] ∧
        w.rx.d_receiver_state = CONSUME_SPACE) ∧
      (ops.get_frame_type dec.1 = MPDU_TYPE_SOUND →
        w.published = [cons (mp "PHY-RXSOUND") make_dict] ∧
        w.rx.d_receiver_state = SENSE_SPACE)) := by
  intro k w dec
  have hbuf : w.rx.d_payload = std_copy inp k.toNat 0 s.d_payload s.d_payload_offset := by
    simp only [w, k, work, hst, work_copy_payload]
    split_ifs <;> rfl
  have hphy : s.d_payload_offset + k = s.d_payload_size →
      ops.process_ppdu_payload s.d_phy_service
        (std_copy inp k.toNat 0 s.d_payload s.d_payload_offset)
        (make_u8vector (ops.get_mpdu_payload_size s.d_phy_service)) = dec := by
    intro _; simp only [dec, hbuf]
  refine ⟨?_, ?_, ?_, ?_, ?_, ?_, ?_⟩
  · simp only [w, k, work, hst, work_copy_payload]; split_ifs <;> rfl
  · simp only [w, k, work, hst, work_copy_payload]; split_ifs <;> rfl
  · rw [hbuf, std_copy_length]
  · intro j hj0 hjk
    rw [hbuf, rd_std_copy _ _ _ _ _ hoff, if_pos]
    · congr 1; ring
    · have : k ≤ s.d_payload_size - s.d_payload_offset := min_le_left _ _
      omega
  · intro idx hidx
    rw [hbuf, rd_std_copy _ _ _ _ _ hoff, if_neg]
    omega
  · intro hlt
    have hne : ¬ (s.d_payload_offset + k = s.d_payload_size) := by omega
    constructor
    · simp only [w, k, work, hst, work_copy_payload]; simp only [k] at hne; simp [hne]
    · simp only [w, k, work, hst, work_copy_payload]; simp only [k] at hne; simp [hne]
  · intro heq
    have hd := hphy heq
    refine ⟨?_, ?_, ?_⟩
    · intro hty
      rw [← hd] at hty ⊢
      simp only [w, k, work, hst, work_copy_payload]; simp only [k] at heq hty; simp [heq, hty]
    · intro hty
      rw [← hd] at hty ⊢
      simp only [w, k, work, hst, work_copy_payload]; simp only [k] at heq hty; simp [heq, hty]
    · intro hty
      rw [← hd] at hty
      simp only [w, k, work, hst, work_copy_payload]; simp only [k] at heq hty; simp [heq, hty]


/-- Witness of C1: a SOF payload of three samples collected in one call. -/
theorem copy_payload_step_witness :
    ((demo_rx COPY_PAYLOAD 3).d_receiver_state = COPY_PAYLOAD ∧
      0 ≤ (demo_rx COPY_PAYLOAD 3).d_payload_offset ∧
      ((demo_rx COPY_PAYLOAD 3).d_payload.length : Int) = (demo_rx COPY_PAYLOAD 3).d_payload_size) ∧
    (work demo_constants (demo_ops MPDU_TYPE_SOF true) 5 ramp (demo_rx COPY_PAYLOAD 3)).consumed = 3 ∧
    (work demo_constants (demo_ops MPDU_TYPE_SOF true) 5 ramp (demo_rx COPY_PAYLOAD 3)).published =
      [cons (mp "PHY-RXSOF") (dict_add make_dict (mp "payload") (pmt_t.u8vector [0, 0]))] ∧
    (work demo_constants (demo_ops MPDU_TYPE_SOF true) 5 ramp
      (demo_rx COPY_PAYLOAD 3)).rx.d_receiver_state = SENSE_SPACE :=
  have h := copy_payload_step demo_constants (demo_ops MPDU_TYPE_SOF true) 5 ramp
    (demo_rx COPY_PAYLOAD 3) rfl (by decide) (by decide)
  ⟨⟨rfl, by decide, by decide⟩, h.1, (h.2.2.2.2.2.2 (by decide)).1 rfl⟩

/-- C2 (evaluation at the failing input): the payload is complete and the
decoded frame type is none of SOF, SACK, SOUND. The call publishes nothing, but
the receiver state stays COPY_PAYLOAD instead of becoming RESET, and the
following calls consume no sample at all: the stream position stays at 3. -/
theorem copy_payload_unsupported_type_stays :
    (work demo_constants (demo_ops (MPDU_TYPE_OTHER 0) true) 5 ramp
      (demo_rx COPY_PAYLOAD 3)).rx.d_receiver_state = COPY_PAYLOAD ∧
    (work demo_constants (demo_ops (MPDU_TYPE_OTHER 0) true) 5 ramp
      (demo_rx COPY_PAYLOAD 3)).published = [] ∧
    (work demo_constants (demo_ops (MPDU_TYPE_OTHER 0) true) 5 ramp
      (demo_rx COPY_PAYLOAD 3)).consumed = 3 ∧
    (run demo_constants (demo_ops (MPDU_TYPE_OTHER 0) true) ramp
      (run_start (demo_rx COPY_PAYLOAD 3)) [5, 5, 5, 5]).rx.d_receiver_state = COPY_PAYLOAD ∧
    (run demo_constants (demo_ops (MPDU_TYPE_OTHER 0) true) ramp
      (run_start (demo_rx COPY_PAYLOAD 3)) [5, 5, 5, 5]).pos = 3 ∧
    (run demo_constants (demo_ops (MPDU_TYPE_OTHER 0) true) ramp
      (run_start (demo_rx COPY_PAYLOAD 3)) [5, 5, 5, 5]).published = [] := by
  refine ⟨?_, ?_, ?_, ?_, ?_, ?_⟩ <;> decide

/-- C5: `mac_in` reacts to exactly one kind of message. On a pair whose car is
the symbol `PHY-CALCTONEMAP.request` it computes `calculate_tone_map(0.01)`,
applies it with `set_tone_map` and publishes exactly one
`PHY-CALCTONEMAP.response` whose `tone_map` entry is a byte vector as long as the
tone map, byte `j` being the code `tone_map[j]` cast to `uint8_t` (the code itself
for codes below 256). On every other message it publishes nothing and leaves
the receiver, the service state included, as it was. -/
theorem mac_in_tone_map_request (ops : phy_service_ops P) (s : phy_rx_impl P) (msg : pmt_t) :
    let tm := ops.calculate_tone_map s.d_phy_service (1 / 100)
    ((∃ d, msg = pmt_t.pair (pmt_t.symbol "PHY-CALCTONEMAP.request") d) →
      ∃ blob : List Nat,
        mac_in ops s msg =
          ({ s with d_phy_service := ops.set_tone_map tm.2 tm.1 },
            [cons (mp "PHY-CALCTONEMAP.response")
              (dict_add make_dict (mp "tone_map") (pmt_t.u8vector blob))]) ∧
        blob.length = tm.1.length ∧
        (∀ j, j < tm.1.length → blob.getD j 0 = tm.1.getD j 0 % 256) ∧
        ((∀ m ∈ tm.1, m < 256) → blob = tm.1)) ∧
    ((¬ ∃ d, msg = pmt_t.pair (pmt_t.symbol "PHY-CALCTONEMAP.request") d) →
      mac_in ops s msg = (s, [])) := by
  intro tm
  constructor
  · rintro ⟨d, rfl⟩
    refine ⟨tm.1.map (fun m => m % 256), ?_, ?_, ?_, ?_⟩
    · simp [mac_in, is_pair, is_symbol, car, symbol_to_string, tm]
    · simp
    · intro j hj
      simp [List.getD_eq_getElem?_getD, List.getElem?_map, List.getElem?_eq_getElem hj]
    · intro hlt
      conv_rhs => rw [← List.map_id tm.1]
      apply List.map_congr_left
      intro m hm
      exact Nat.mod_eq_of_lt (hlt m hm)
  · intro hne
    cases msg with
    | pair a d =>
      cases a with
      | symbol str =>
        have hstr : str ≠ "PHY-CALCTONEMAP.request" := by
          intro h; exact hne ⟨d, by rw [h]⟩
        simp [mac_in, is_pair, is_symbol, car, symbol_to_string, hstr]
      | _ => simp [mac_in, is_pair, is_symbol, car]
    | _ => simp [mac_in, is_pair]

/-- Witness of C5: a request and another command on the demo receiver. -/
theorem mac_in_tone_map_request_witness :
    mac_in (demo_ops MPDU_TYPE_SOF true) (demo_rx RESET 0)
        (pmt_t.pair (pmt_t.symbol "PHY-CALCTONEMAP.request") pmt_t.PMT_NIL) =
      (demo_rx RESET 0, [cons (mp "PHY-CALCTONEMAP.response")
        (dict_add make_dict (mp "tone_map") (pmt_t.u8vector [1, 2]))]) ∧
    mac_in (demo_ops MPDU_TYPE_SOF true) (demo_rx RESET 0)
        (pmt_t.pair (pmt_t.symbol "PHY-RXEND") pmt_t.PMT_NIL) = (demo_rx RESET 0, []) := by
  have h1 := (mac_in_tone_map_request (demo_ops MPDU_TYPE_SOF true) (demo_rx RESET 0)
    (pmt_t.pair (pmt_t.symbol "PHY-CALCTONEMAP.request") pmt_t.PMT_NIL)).1 ⟨_, rfl⟩
  have h2 := (mac_in_tone_map_request (demo_ops MPDU_TYPE_SOF true) (demo_rx RESET 0)
    (pmt_t.pair (pmt_t.symbol "PHY-RXEND") pmt_t.PMT_NIL)).2 (by
      rintro ⟨d, hd⟩
      injection hd with h _
      injection h with h
      exact absurd h (by decide))
  obtain ⟨blob, hb, _, _, hall⟩ := h1
  have : blob = [1, 2] := hall (by decide)
  subst this
  exact ⟨hb, h2⟩

/-- C7: in IDLE and in HALT a call of `work` leaves every receiver field as it
was and publishes nothing; IDLE consumes all `ninput` samples, HALT none. -/
theorem idle_halt_step (c : constants) (ops : phy_service_ops P) (ninput : Int)
    (inp : Int → ℚ) (s : phy_rx_impl P) :
    (s.d_receiver_state = IDLE →
      (work c ops ninput inp s).rx = s ∧ (work c ops ninput inp s).published = [] ∧
      (work c ops ninput inp s).consumed = ninput) ∧
    (s.d_receiver_state = HALT →
      (work c ops ninput inp s).rx = s ∧ (work c ops ninput inp s).published = [] ∧
      (work c ops ninput inp s).consumed = 0) := by
  constructor <;> intro h <;> simp [work, h]

/-- Witness of C7: the demo receiver in IDLE and in HALT. -/
theorem idle_halt_step_witness :
    ((work demo_constants (demo_ops MPDU_TYPE_SOF true) 7 ramp (demo_rx IDLE 0)).rx = demo_rx IDLE 0 ∧
      (work demo_constants (demo_ops MPDU_TYPE_SOF true) 7 ramp (demo_rx IDLE 0)).published = [] ∧
      (work demo_constants (demo_ops MPDU_TYPE_SOF true) 7 ramp (demo_rx IDLE 0)).consumed = 7) ∧
    ((work demo_constants (demo_ops MPDU_TYPE_SOF true) 7 ramp (demo_rx HALT 0)).rx = demo_rx HALT 0 ∧
      (work demo_constants (demo_ops MPDU_TYPE_SOF true) 7 ramp (demo_rx HALT 0)).published = [] ∧
      (work demo_constants (demo_ops MPDU_TYPE_SOF true) 7 ramp (demo_rx HALT 0)).consumed = 0) :=
  ⟨(idle_halt_step demo_constants (demo_ops MPDU_TYPE_SOF true) 7 ramp (demo_rx IDLE 0)).1 rfl,
   (idle_halt_step demo_constants (demo_ops MPDU_TYPE_SOF true) 7 ramp (demo_rx HALT 0)).2 rfl⟩

/-- A call in COPY_FRAME_CONTROL whose samples all fit in the buffer stores
them and consumes them. -/
theorem copy_frame_control_call_store (c : constants) (ops : phy_service_ops P) (n : Int)
    (inp : Int → ℚ) (s : phy_rx_impl P) (hst : s.d_receiver_state = COPY_FRAME_CONTROL)
    (hn : 0 ≤ n) (hfit : s.d_frame_control_offset + n ≤ c.FRAME_CONTROL_SIZE) :
    work c ops n inp s =
      { rx := { s with
          d_frame_control := std_copy inp n.toNat 0 s.d_frame_control s.d_frame_control_offset
          d_frame_control_offset := s.d_frame_control_offset + n },
        published := [], consumed := n, search_hits := [] } := by
  have hcast : ((n.toNat : Nat) : Int) = n := Int.toNat_of_nonneg hn
  have h := copy_frame_control_loop_store c ops inp n n.toNat 0 s 0
    (by omega) (by omega)
  rw [Nat.add_zero] at h
  simp only [work, hst, work_copy_frame_control, h, copy_frame_control_loop, hcast, zero_add]

/-- A call in COPY_FRAME_CONTROL with more samples than the buffer still needs
fills the buffer, decodes it and consumes only the stored samples. -/
theorem copy_frame_control_call_decode (c : constants) (ops : phy_service_ops P) (n : Int)
    (inp : Int → ℚ) (s : phy_rx_impl P) (hst : s.d_receiver_state = COPY_FRAME_CONTROL)
    (hoff : s.d_frame_control_offset ≤ c.FRAME_CONTROL_SIZE)
    (hmore : c.FRAME_CONTROL_SIZE - s.d_frame_control_offset < n) :
    work c ops n inp s =
      { rx := frame_control_decode ops { s with
          d_frame_control :=
            std_copy inp (c.FRAME_CONTROL_SIZE - s.d_frame_control_offset).toNat 0
              s.d_frame_control s.d_frame_control_offset
          d_frame_control_offset :=
            s.d_frame_control_offset + (c.FRAME_CONTROL_SIZE - s.d_frame_control_offset) },
        published := [], consumed := c.FRAME_CONTROL_SIZE - s.d_frame_control_offset,
        search_hits := [] } := by
  obtain ⟨m, hm⟩ : ∃ m : Nat, (m : Int) = c.FRAME_CONTROL_SIZE - s.d_frame_control_offset :=
    ⟨(c.FRAME_CONTROL_SIZE - s.d_frame_control_offset).toNat, by omega⟩
  obtain ⟨f, hf⟩ : ∃ f : Nat, n.toNat = m + (f + 1) := ⟨n.toNat - m - 1, by omega⟩
  have h := copy_frame_control_loop_store c ops inp n m (f + 1) s 0 (by omega) (by omega)
  have hm2 : (c.FRAME_CONTROL_SIZE - s.d_frame_control_offset).toNat = m := by omega
  have hi : (0 : Int) + m < n := by omega
  have hfull : ¬ (s.d_frame_control_offset + (m : Int) < c.FRAME_CONTROL_SIZE) := by omega
  simp only [work, hst, work_copy_frame_control, hf, h, copy_frame_control_loop, hi, hfull,
    if_true, if_false, hm2]
  simp [hm]

theorem frame_control_stored_step (s : phy_rx_impl P) (x : Int → ℚ) (p k a : Int)
    (hk : 0 ≤ k) (ha : 0 ≤ a) :
    ({ frame_control_stored s x p k with
        d_frame_control := std_copy (fun j => x (p + k + j)) a.toNat 0
          (frame_control_stored s x p k).d_frame_control
          (frame_control_stored s x p k).d_frame_control_offset
        d_frame_control_offset := (frame_control_stored s x p k).d_frame_control_offset + a } :
      phy_rx_impl P) = frame_control_stored s x p (k + a) := by
  have e : (k + a).toNat = k.toNat + a.toNat := Int.toNat_add hk ha
  have hc : ((k.toNat : Nat) : Int) = k := Int.toNat_of_nonneg hk
  simp only [frame_control_stored, e, std_copy_add, std_copy_shift, hc, add_zero, zero_add]

/-- Calls in COPY_FRAME_CONTROL that together bring no more than
`FRAME_CONTROL_SIZE` samples only store them. -/
theorem copy_frame_control_run_store (c : constants) (ops : phy_service_ops P) (x : Int → ℚ)
    (s : phy_rx_impl P) (p : Int) (pub : List pmt_t) (hits : List Bool)
    (hst : s.d_receiver_state = COPY_FRAME_CONTROL) (ns : List Int) :
    ∀ k : Int, 0 ≤ k → (∀ a ∈ ns, 0 ≤ a) → k + ns.sum ≤ c.FRAME_CONTROL_SIZE →
      run c ops x { rx := frame_control_stored s x p k, pos := p + k, published := pub,
                    search_hits := hits } ns =
        { rx := frame_control_stored s x p (k + ns.sum), pos := p + (k + ns.sum),
          published := pub, search_hits := hits } := by
  induction ns with
  | nil => intro k _ _ _; simp [run]
  | cons a ns ih =>
    intro k hk hns hsum
    have ha : 0 ≤ a := hns a (List.mem_cons_self _ _)
    have hns2 : ∀ b ∈ ns, 0 ≤ b := fun b hb => hns b (List.mem_cons_of_mem _ hb)
    have hrest : 0 ≤ ns.sum := List.sum_nonneg hns2
    rw [List.sum_cons] at hsum
    have hcall := copy_frame_control_call_store c ops a (fun j => x (p + k + j))
      (frame_control_stored s x p k) hst ha (by show k + a ≤ _; omega)
    rw [frame_control_stored_step s x p k a hk ha] at hcall
    have hstep : run_call c ops x
        { rx := frame_control_stored s x p k, pos := p + k, published := pub,
          search_hits := hits } a =
        { rx := frame_control_stored s x p (k + a), pos := p + (k + a), published := pub,
          search_hits := hits } := by
      simp only [run_call]
      rw [hcall]
      simp only [List.append_nil, add_assoc]
    have := ih (k + a) (by omega) hns2 (by omega)
    simp only [run, List.foldl_cons] at this ⊢
    rw [hstep, this, List.sum_cons, add_assoc]

/-- C3: a call of `work` in COPY_FRAME_CONTROL that has a sample at hand once the
buffer is full decodes the collected frame-control buffer (the stored buffer with
the missing samples added). Whenever `process_ppdu_frame_control` returns false
on it, the state becomes RESET, nothing is published, and `d_payload_size` and
the payload buffer are as before the call. -/
theorem frame_control_decode_failure (c : constants) (ops : phy_service_ops P) (ninput : Int)
    (inp : Int → ℚ) (s : phy_rx_impl P)
    (hst : s.d_receiver_state = COPY_FRAME_CONTROL)
    (hoff : s.d_frame_control_offset ≤ c.FRAME_CONTROL_SIZE)
    (hmore : c.FRAME_CONTROL_SIZE - s.d_frame_control_offset < ninput)
    (hfail : (ops.process_ppdu_frame_control s.d_phy_service
      (std_copy inp (c.FRAME_CONTROL_SIZE - s.d_frame_control_offset).toNat 0
        s.d_frame_control s.d_frame_control_offset)).1 = false) :
    (work c ops ninput inp s).rx.d_frame_control =
      std_copy inp (c.FRAME_CONTROL_SIZE - s.d_frame_control_offset).toNat 0
        s.d_frame_control s.d_frame_control_offset ∧
    (work c ops ninput inp s).rx.d_receiver_state = RESET ∧
    (work c ops ninput inp s).published = [] ∧
    (work c ops ninput inp s).rx.d_payload_size = s.d_payload_size ∧
    (work c ops ninput inp s).rx.d_payload = s.d_payload := by
  rw [copy_frame_control_call_decode c ops ninput inp s hst hoff hmore]
  simp [frame_control_decode, hfail]

/-- Witness of C3: a two-sample frame control that fails to decode. -/
theorem frame_control_decode_failure_witness :
    (work demo_constants (demo_ops MPDU_TYPE_SOF false) 3 ramp
      (demo_rx COPY_FRAME_CONTROL 0)).rx.d_frame_control = [0, 1] ∧
    (work demo_constants (demo_ops MPDU_TYPE_SOF false) 3 ramp
      (demo_rx COPY_FRAME_CONTROL 0)).rx.d_receiver_state = RESET ∧
    (work demo_constants (demo_ops MPDU_TYPE_SOF false) 3 ramp
      (demo_rx COPY_FRAME_CONTROL 0)).published = [] :=
  have h := frame_control_decode_failure demo_constants (demo_ops MPDU_TYPE_SOF false) 3 ramp
    (demo_rx COPY_FRAME_CONTROL 0) rfl (by decide) (by decide) rfl
  ⟨h.1.trans (by decide), h.2.1, h.2.2.1⟩

/-- C8: from the entry into COPY_FRAME_CONTROL at stream position `p` (offset 0,
buffer of `FRAME_CONTROL_SIZE` samples), calls that together bring at most
`FRAME_CONTROL_SIZE` samples only store them, sample `k` at index `k`, and consume
them. The first call with more samples than still missing decodes: the buffer
handed to `process_ppdu_frame_control` is exactly `x[p .. p+FRAME_CONTROL_SIZE)`,
the state has consumed `FRAME_CONTROL_SIZE` samples in total (the sample at hand
is not consumed, the offset stops at `FRAME_CONTROL_SIZE`), and on success the
state is COPY_PAYLOAD with `d_payload_size = get_ppdu_payload_length()` and a
payload buffer of that length; on failure it is RESET. -/
theorem frame_control_collection (c : constants) (ops : phy_service_ops P) (x : Int → ℚ)
    (s : phy_rx_impl P) (p : Int) (pub : List pmt_t) (hits : List Bool)
    (ns : List Int) (n : Int)
    (hst : s.d_receiver_state = COPY_FRAME_CONTROL)
    (hoff : s.d_frame_control_offset = 0)
    (hlen : (s.d_frame_control.length : Int) = c.FRAME_CONTROL_SIZE)
    (hns : ∀ a ∈ ns, 0 ≤ a)
    (hsum : ns.sum ≤ c.FRAME_CONTROL_SIZE)
    (hn : c.FRAME_CONTROL_SIZE - ns.sum < n) :
    let start : run_state P := { rx := s, pos := p, published := pub, search_hits := hits }
    let mid := run c ops x start ns
    let fin := run c ops x start (ns ++ [n])
    let fc := stream_slice x p c.FRAME_CONTROL_SIZE.toNat
    let dec := ops.process_ppdu_frame_control s.d_phy_service fc
    (mid.rx.d_receiver_state = COPY_FRAME_CONTROL ∧ mid.pos = p + ns.sum ∧
      mid.published = pub ∧ mid.rx.d_frame_control_offset = ns.sum ∧
      mid.rx.d_phy_service = s.d_phy_service ∧
      mid.rx.d_frame_control.length = s.d_frame_control.length ∧
      ∀ k : Int, 0 ≤ k → k < ns.sum → rd mid.rx.d_frame_control k = x (p + k)) ∧
    (fin.pos = p + c.FRAME_CONTROL_SIZE ∧ fin.published = pub ∧
      fin.rx.d_frame_control = fc ∧ fin.rx.d_frame_control_offset = c.FRAME_CONTROL_SIZE ∧
      fin.rx.d_phy_service = dec.2) ∧
    (dec.1 = false → fin.rx.d_receiver_state = RESET) ∧
    (dec.1 = true →
      fin.rx.d_receiver_state = COPY_PAYLOAD ∧
      fin.rx.d_payload_size = ops.get_ppdu_payload_length dec.2 ∧
      fin.rx.d_payload.length = (ops.get_ppdu_payload_length dec.2).toNat ∧
      (0 ≤ ops.get_ppdu_payload_length dec.2 →
        (fin.rx.d_payload.length : Int) = fin.rx.d_payload_size)) := by
  intro start mid fin fc dec
  have hs0 : frame_control_stored s x p 0 = s := by
    simp only [frame_control_stored, Int.toNat_zero, std_copy, ← hoff]
  have hrest : 0 ≤ ns.sum := List.sum_nonneg hns
  have hstart : start =
      { rx := frame_control_stored s x p 0, pos := p + 0, published := pub,
        search_hits := hits } := by
    simp only [start, hs0, add_zero]
  have hmid : mid =
      { rx := frame_control_stored s x p ns.sum, pos := p + ns.sum,
        published := pub, search_hits := hits } := by
    have h := copy_frame_control_run_store c ops x s p pub hits hst ns 0 (le_refl 0) hns
      (by omega)
    simp only [mid, hstart, h, zero_add]
  have hfcs : (c.FRAME_CONTROL_SIZE.toNat : Int) = c.FRAME_CONTROL_SIZE := by omega
  have hfull : (frame_control_stored s x p c.FRAME_CONTROL_SIZE).d_frame_control = fc := by
    have h := std_copy_full x p s.d_frame_control
    have hl : s.d_frame_control.length = c.FRAME_CONTROL_SIZE.toNat := by omega
    simp only [frame_control_stored, fc, ← hl, h]
  have hcall := copy_frame_control_call_decode c ops n (fun j => x (p + ns.sum + j))
    (frame_control_stored s x p ns.sum) hst (by show ns.sum ≤ _; omega)
    (by show c.FRAME_CONTROL_SIZE - ns.sum < n; omega)
  rw [show (frame_control_stored s x p ns.sum).d_frame_control_offset = ns.sum from rfl]
    at hcall
  have hstep := frame_control_stored_step s x p ns.sum (c.FRAME_CONTROL_SIZE - ns.sum) hrest
    (by omega)
  rw [show ns.sum + (c.FRAME_CONTROL_SIZE - ns.sum) = c.FRAME_CONTROL_SIZE by ring] at hstep
  simp only [show (frame_control_stored s x p ns.sum).d_frame_control_offset = ns.sum from rfl]
    at hstep
  rw [hstep] at hcall
  have hfin : fin =
      { rx := frame_control_decode ops (frame_control_stored s x p c.FRAME_CONTROL_SIZE),
        pos := p + c.FRAME_CONTROL_SIZE, published := pub, search_hits := hits } := by
    simp only [fin, run, List.foldl_append, List.foldl_cons, List.foldl_nil]
    have hm : List.foldl (run_call c ops x) start ns = mid := rfl
    rw [hm, hmid]
    simp only [run_call]
    rw [hcall]
    simp only [List.append_nil]
    congr 1
    ring
  have hphy : (frame_control_stored s x p c.FRAME_CONTROL_SIZE).d_phy_service =
      s.d_phy_service := rfl
  refine ⟨?_, ?_, ?_, ?_⟩
  · rw [hmid]
    refine ⟨hst, rfl, rfl, rfl, rfl, ?_, ?_⟩
    · simp only [frame_control_stored, std_copy_length]
    · intro k hk0 hk
      simp only [frame_control_stored]
      rw [rd_std_copy _ _ _ _ _ (le_refl 0), if_pos (by omega)]
      simp
  · rw [hfin]
    refine ⟨rfl, rfl, ?_, ?_, ?_⟩
    · simp only [frame_control_decode]
      split_ifs <;> exact hfull
    · simp only [frame_control_decode]
      split_ifs <;> rfl
    · simp only [frame_control_decode, hfull, hphy]
      split_ifs <;> rfl
  · intro hd
    rw [hfin]
    simp only [frame_control_decode, hfull, hphy]
    rw [if_pos hd]
  · intro hd
    have hd2 : ¬ (dec.1 = false) := by simp [hd]
    rw [hfin]
    simp only [frame_control_decode, hfull, hphy]
    rw [if_neg hd2]
    refine ⟨rfl, rfl, ?_, ?_⟩
    · simp
    · intro h0
      simp only [List.length_replicate]
      exact Int.toNat_of_nonneg h0

/-- Witness of C8: two frame-control samples arriving in the calls 1, 0, 1,
decoded at the next call. -/
theorem frame_control_collection_witness :
    (run demo_constants (demo_ops MPDU_TYPE_SOF true) ramp
      (run_start (demo_rx COPY_FRAME_CONTROL 0)) ([1, 0, 1] ++ [5])).pos = 2 ∧
    (run demo_constants (demo_ops MPDU_TYPE_SOF true) ramp
      (run_start (demo_rx COPY_FRAME_CONTROL 0)) ([1, 0, 1] ++ [5])).rx.d_frame_control = [0, 1] ∧
    (run demo_constants (demo_ops MPDU_TYPE_SOF true) ramp
      (run_start (demo_rx COPY_FRAME_CONTROL 0)) ([1, 0, 1] ++ [5])).rx.d_receiver_state =
        COPY_PAYLOAD ∧
    (run demo_constants (demo_ops MPDU_TYPE_SOF true) ramp
      (run_start (demo_rx COPY_FRAME_CONTROL 0)) ([1, 0, 1] ++ [5])).rx.d_payload_size = 3 :=
  have h := frame_control_collection demo_constants (demo_ops MPDU_TYPE_SOF true) ramp
    (demo_rx COPY_FRAME_CONTROL 0) 0 [] [] [1, 0, 1] 5 rfl rfl (by decide) (by decide)
    (by decide) (by decide)
  ⟨h.2.1.1, h.2.1.2.2.1.trans (by decide), (h.2.2.2 rfl).1, (h.2.2.2 rfl).2.1⟩

/-- The SENSE_SPACE loop stores the `m` samples it is asked for. -/
theorem sense_loop_store (inp : Int → ℚ) (j : Int) (m fuel : Nat) (s : phy_rx_impl P) (i : Int)
    (hin : i + m ≤ j) :
    sense_loop inp j (m + fuel) s i =
      sense_loop inp j fuel
        { s with
          d_noise := std_copy inp m i s.d_noise s.d_inter_frame_space_offset
          d_inter_frame_space_offset := s.d_inter_frame_space_offset + m } (i + m) := by
  induction m generalizing s i with
  | zero => simp [std_copy]
  | succ m ih =>
    have h1 : i < j := by push_cast at hin; omega
    rw [show m + 1 + fuel = (m + fuel) + 1 by omega]
    rw [sense_loop]
    simp only [h1, if_true]
    rw [ih _ _ (by push_cast at hin ⊢; omega)]
    have e1 : i + 1 + (m : Int) = i + ((m + 1 : Nat) : Int) := by push_cast; ring
    have e2 : s.d_inter_frame_space_offset + 1 + (m : Int) =
        s.d_inter_frame_space_offset + ((m + 1 : Nat) : Int) := by push_cast; ring
    simp only [std_copy, e1, e2]

/-- The allocation `if (d_inter_frame_space_offset == 0) d_noise = ...` as an
update of the noise buffer alone. -/
theorem sense_space_alloc (ops : phy_service_ops P) (s : phy_rx_impl P) :
    (if s.d_inter_frame_space_offset = 0 then
        ({ s with d_noise :=
            List.replicate (ops.get_inter_frame_space s.d_phy_service).toNat 0 } : phy_rx_impl P)
      else s) =
      { s with d_noise :=
          if s.d_inter_frame_space_offset = 0 then
            List.replicate (ops.get_inter_frame_space s.d_phy_service).toNat 0
          else s.d_noise } := by
  split <;> rfl

/-- A call in SENSE_SPACE that does not complete the inter-frame space stores
its samples and consumes them. -/
theorem sense_space_call_store (ops : phy_service_ops P) (n : Int)
    (inp : Int → ℚ) (s : phy_rx_impl P) (hn : 0 ≤ n)
    (hlt : s.d_inter_frame_space_offset + n < ops.get_inter_frame_space s.d_phy_service) :
    work_sense_space ops n inp s =
      { rx := { s with
          d_noise := std_copy inp n.toNat 0
            (if s.d_inter_frame_space_offset = 0 then
              List.replicate (ops.get_inter_frame_space s.d_phy_service).toNat 0
             else s.d_noise) s.d_inter_frame_space_offset
          d_inter_frame_space_offset := s.d_inter_frame_space_offset + n },
        published := [], consumed := n, search_hits := [] } := by
  have hcast : ((n.toNat : Nat) : Int) = n := Int.toNat_of_nonneg hn
  have hmin : min (ops.get_inter_frame_space s.d_phy_service - s.d_inter_frame_space_offset) n
      = n := min_eq_right (by omega)
  have h := sense_loop_store inp n n.toNat 0
    { s with d_noise :=
        if s.d_inter_frame_space_offset = 0 then
          List.replicate (ops.get_inter_frame_space s.d_phy_service).toNat 0
        else s.d_noise } 0 (by omega)
  rw [Nat.add_zero] at h
  simp only [hcast, zero_add] at h
  have hne : ¬ (s.d_inter_frame_space_offset + n =
      ops.get_inter_frame_space s.d_phy_service) := by omega
  simp only [work_sense_space, sense_space_alloc, hmin, h, sense_loop, hne, if_false]

/-- A call in SENSE_SPACE that brings the rest of the inter-frame space stores
it, runs the noise estimation, publishes `PHY-RXSNR` then `PHY-RXEND` and
resets. -/
theorem sense_space_call_finish (ops : phy_service_ops P) (n : Int)
    (inp : Int → ℚ) (s : phy_rx_impl P)
    (hoff : s.d_inter_frame_space_offset ≤ ops.get_inter_frame_space s.d_phy_service)
    (hge : ops.get_inter_frame_space s.d_phy_service - s.d_inter_frame_space_offset ≤ n) :
    work_sense_space ops n inp s =
      { rx := { s with
          d_noise := sense_space_noise ops inp s
          d_inter_frame_space_offset := s.d_inter_frame_space_offset +
            (ops.get_inter_frame_space s.d_phy_service - s.d_inter_frame_space_offset)
          d_phy_service :=
            ops.set_noise_psd (ops.process_noise s.d_phy_service (sense_space_noise ops inp s))
              (noise_var (sense_space_noise ops inp s)
                (ops.get_inter_frame_space
                  (ops.process_noise s.d_phy_service (sense_space_noise ops inp s))) * 2)
          d_receiver_state := RESET },
        published := [cons (mp "PHY-RXSNR")
            (dict_add make_dict (mp "snr") (pmt_t.f32vector (ops.get_snr
              (ops.process_noise s.d_phy_service (sense_space_noise ops inp s))))),
          cons (mp "PHY-RXEND") make_dict],
        consumed := ops.get_inter_frame_space s.d_phy_service - s.d_inter_frame_space_offset,
        search_hits := [] } := by
  have hmin : min (ops.get_inter_frame_space s.d_phy_service - s.d_inter_frame_space_offset) n
      = ops.get_inter_frame_space s.d_phy_service - s.d_inter_frame_space_offset :=
    min_eq_left hge
  have hcast : (((ops.get_inter_frame_space s.d_phy_service -
        s.d_inter_frame_space_offset).toNat : Nat) : Int) =
      ops.get_inter_frame_space s.d_phy_service - s.d_inter_frame_space_offset :=
    Int.toNat_of_nonneg (by omega)
  have h := sense_loop_store inp
    (ops.get_inter_frame_space s.d_phy_service - s.d_inter_frame_space_offset)
    (ops.get_inter_frame_space s.d_phy_service - s.d_inter_frame_space_offset).toNat 0
    { s with d_noise :=
        if s.d_inter_frame_space_offset = 0 then
          List.replicate (ops.get_inter_frame_space s.d_phy_service).toNat 0
        else s.d_noise } 0 (by omega)
  rw [Nat.add_zero] at h
  simp only [hcast, zero_add] at h
  have hfin : s.d_inter_frame_space_offset +
      (ops.get_inter_frame_space s.d_phy_service - s.d_inter_frame_space_offset) =
      ops.get_inter_frame_space s.d_phy_service := by ring
  simp only [work_sense_space, sense_space_alloc, hmin, h, sense_loop, hfin, if_true,
    sense_space_noise]

theorem work_in_sense_space (c : constants) (ops : phy_service_ops P) (n : Int)
    (inp : Int → ℚ) (s : phy_rx_impl P) (hst : s.d_receiver_state = SENSE_SPACE) :
    work c ops n inp s = work_sense_space ops n inp s := by
  simp only [work, hst]

theorem work_in_consume_space (c : constants) (ops : phy_service_ops P) (n : Int)
    (inp : Int → ℚ) (s : phy_rx_impl P) (hst : s.d_receiver_state = CONSUME_SPACE) :
    work c ops n inp s = work_consume_space ops n s := by
  simp only [work, hst]

/-- A SENSE_SPACE call below the inter-frame space, made after `k` samples of the
space were stored. -/
theorem sense_space_call_store_at (c : constants) (ops : phy_service_ops P) (x : Int → ℚ)
    (s rx : phy_rx_impl P) (p k a : Int)
    (hst : s.d_receiver_state = SENSE_SPACE) (hoff : s.d_inter_frame_space_offset = 0)
    (hrx : rx = s ∧ k = 0 ∨ rx = noise_stored ops s x p k)
    (hk : 0 ≤ k) (ha : 0 ≤ a) (hlt : k + a < ops.get_inter_frame_space s.d_phy_service) :
    work c ops a (fun j => x (p + k + j)) rx =
      { rx := noise_stored ops s x p (k + a), published := [], consumed := a,
        search_hits := [] } := by
  have e : (k + a).toNat = k.toNat + a.toNat := Int.toNat_add hk ha
  have hc : ((k.toNat : Nat) : Int) = k := Int.toNat_of_nonneg hk
  rcases hrx with ⟨rfl, rfl⟩ | rfl
  · have h := sense_space_call_store ops a (fun j => x (p + 0 + j)) rx ha
      (by rw [hoff]; omega)
    rw [work_in_sense_space c ops a _ rx hst, h]
    simp only [hoff, if_true, noise_stored, std_copy_shift, add_zero, zero_add]
  · have h := sense_space_call_store ops a (fun j => x (p + k + j)) (noise_stored ops s x p k) ha
      (by show k + a < _; exact hlt)
    have hbuf : (if (noise_stored ops s x p k).d_inter_frame_space_offset = 0 then
          List.replicate (ops.get_inter_frame_space
            (noise_stored ops s x p k).d_phy_service).toNat 0
        else (noise_stored ops s x p k).d_noise) = (noise_stored ops s x p k).d_noise := by
      split_ifs with h0
      · have hk0 : k = 0 := h0
        subst hk0
        simp [noise_stored, std_copy]
      · rfl
    rw [hbuf] at h
    have hst2 : (noise_stored ops s x p k).d_receiver_state = SENSE_SPACE := hst
    rw [work_in_sense_space c ops a _ _ hst2, h]
    simp only [noise_stored, e, std_copy_add, std_copy_shift, hc, add_zero, zero_add]

/-- The SENSE_SPACE call that completes the inter-frame space, made after `k`
samples of the space were stored. -/
theorem sense_space_call_finish_at (c : constants) (ops : phy_service_ops P) (x : Int → ℚ)
    (s rx : phy_rx_impl P) (p k n : Int)
    (hst : s.d_receiver_state = SENSE_SPACE) (hoff : s.d_inter_frame_space_offset = 0)
    (hrx : rx = s ∧ k = 0 ∨ rx = noise_stored ops s x p k)
    (hk : 0 ≤ k) (hle : k ≤ ops.get_inter_frame_space s.d_phy_service)
    (hge : ops.get_inter_frame_space s.d_phy_service - k ≤ n) :
    work c ops n (fun j => x (p + k + j)) rx =
      { rx := sense_space_done ops s
          (stream_slice x p (ops.get_inter_frame_space s.d_phy_service).toNat),
        published := sense_space_messages ops s
          (stream_slice x p (ops.get_inter_frame_space s.d_phy_service).toNat),
        consumed := ops.get_inter_frame_space s.d_phy_service - k, search_hits := [] } := by
  have hc : ((k.toNat : Nat) : Int) = k := Int.toNat_of_nonneg hk
  have hfull : std_copy x (ops.get_inter_frame_space s.d_phy_service).toNat p
      (List.replicate (ops.get_inter_frame_space s.d_phy_service).toNat 0) 0 =
      stream_slice x p (ops.get_inter_frame_space s.d_phy_service).toNat := by
    have h := std_copy_full x p
      (List.replicate (ops.get_inter_frame_space s.d_phy_service).toNat (0 : ℚ))
    rw [List.length_replicate] at h
    exact h
  have hsplit : (ops.get_inter_frame_space s.d_phy_service).toNat =
      k.toNat + (ops.get_inter_frame_space s.d_phy_service - k).toNat := by omega
  rcases hrx with ⟨rfl, rfl⟩ | rfl
  · have h := sense_space_call_finish ops n (fun j => x (p + 0 + j)) rx
      (by rw [hoff]; omega) (by rw [hoff]; omega)
    have hn : sense_space_noise ops (fun j => x (p + 0 + j)) rx =
        stream_slice x p (ops.get_inter_frame_space rx.d_phy_service).toNat := by
      simp only [sense_space_noise, hoff, if_true, sub_zero, std_copy_shift, add_zero]
      exact hfull
    rw [hn] at h
    rw [work_in_sense_space c ops n _ rx hst, h]
    simp only [hoff, sense_space_done, sense_space_messages, zero_add, sub_zero]
  · have h := sense_space_call_finish ops n (fun j => x (p + k + j)) (noise_stored ops s x p k)
      (by show k ≤ _; exact hle) (by show _ - k ≤ n; exact hge)
    have hn : sense_space_noise ops (fun j => x (p + k + j)) (noise_stored ops s x p k) =
        stream_slice x p (ops.get_inter_frame_space s.d_phy_service).toNat := by
      have hadd := std_copy_add x k.toNat
        (ops.get_inter_frame_space s.d_phy_service - k).toNat p
        (List.replicate (ops.get_inter_frame_space s.d_phy_service).toNat 0) 0
      rw [← hsplit] at hadd
      rw [← hfull, hadd]
      simp only [sense_space_noise, noise_stored, std_copy_shift, add_zero, zero_add, hc]
      split_ifs with h0
      · subst h0
        simp [std_copy]
      · rfl
    rw [hn] at h
    have hst2 : (noise_stored ops s x p k).d_receiver_state = SENSE_SPACE := hst
    rw [work_in_sense_space c ops n _ _ hst2, h]
    simp only [noise_stored, sense_space_done, sense_space_messages]
    congr 2
    ring

/-- SENSE_SPACE calls that together stay below the inter-frame space only store
their samples. -/
theorem sense_space_run_store (c : constants) (ops : phy_service_ops P) (x : Int → ℚ)
    (s : phy_rx_impl P) (p : Int) (pub : List pmt_t) (hits : List Bool)
    (hst : s.d_receiver_state = SENSE_SPACE) (hoff : s.d_inter_frame_space_offset = 0)
    (ns : List Int) :
    ∀ (rx : phy_rx_impl P) (k : Int), 0 ≤ k →
      (rx = s ∧ k = 0 ∨ rx = noise_stored ops s x p k) →
      (∀ a ∈ ns, 0 ≤ a) →
      (ns ≠ [] → k + ns.sum < ops.get_inter_frame_space s.d_phy_service) →
      ∃ rx1 : phy_rx_impl P,
        (rx1 = s ∧ k + ns.sum = 0 ∨ rx1 = noise_stored ops s x p (k + ns.sum)) ∧
        run c ops x { rx := rx, pos := p + k, published := pub, search_hits := hits } ns =
          { rx := rx1, pos := p + (k + ns.sum), published := pub, search_hits := hits } := by
  induction ns with
  | nil =>
    intro rx k _ hrx _ _
    refine ⟨rx, ?_, ?_⟩
    · simpa using hrx
    · simp [run]
  | cons a ns ih =>
    intro rx k hk hrx hns hsum
    have ha : 0 ≤ a := hns a (List.mem_cons_self _ _)
    have hns2 : ∀ b ∈ ns, 0 ≤ b := fun b hb => hns b (List.mem_cons_of_mem _ hb)
    have hrest : 0 ≤ ns.sum := List.sum_nonneg hns2
    have hlt := hsum (List.cons_ne_nil _ _)
    rw [List.sum_cons] at hlt
    have hcall := sense_space_call_store_at c ops x s rx p k a hst hoff hrx hk ha (by omega)
    obtain ⟨rx1, hrx1, hrun⟩ := ih (noise_stored ops s x p (k + a)) (k + a) (by omega)
      (Or.inr rfl) hns2 (fun _ => by omega)
    refine ⟨rx1, ?_, ?_⟩
    · rw [List.sum_cons, ← add_assoc]; exact hrx1
    · simp only [run, List.foldl_cons] at hrun ⊢
      simp only [run_call]
      rw [hcall]
      simp only [List.append_nil]
      rw [show p + k + a = p + (k + a) by ring, hrun, List.sum_cons, add_assoc]

/-- A CONSUME_SPACE call below the inter-frame space only advances the offset. -/
theorem consume_space_call_skip (ops : phy_service_ops P) (n : Int) (s : phy_rx_impl P)
    (hlt : s.d_inter_frame_space_offset + n < ops.get_inter_frame_space s.d_phy_service) :
    work_consume_space ops n s =
      { rx := { s with d_inter_frame_space_offset := s.d_inter_frame_space_offset + n },
        published := [], consumed := n, search_hits := [] } := by
  have hmin : min (ops.get_inter_frame_space s.d_phy_service - s.d_inter_frame_space_offset) n
      = n := min_eq_right (by omega)
  have hne : ¬ (s.d_inter_frame_space_offset + n =
      ops.get_inter_frame_space s.d_phy_service) := by omega
  simp only [work_consume_space, hmin, hne, if_false]

/-- The CONSUME_SPACE call that completes the inter-frame space publishes
`PHY-RXEND` and resets. -/
theorem consume_space_call_finish (ops : phy_service_ops P) (n : Int) (s : phy_rx_impl P)
    (hge : ops.get_inter_frame_space s.d_phy_service - s.d_inter_frame_space_offset ≤ n) :
    work_consume_space ops n s =
      { rx := { s with
          d_inter_frame_space_offset := ops.get_inter_frame_space s.d_phy_service
          d_receiver_state := RESET },
        published := [cons (mp "PHY-RXEND") make_dict],
        consumed := ops.get_inter_frame_space s.d_phy_service - s.d_inter_frame_space_offset,
        search_hits := [] } := by
  have hmin : min (ops.get_inter_frame_space s.d_phy_service - s.d_inter_frame_space_offset) n
      = ops.get_inter_frame_space s.d_phy_service - s.d_inter_frame_space_offset :=
    min_eq_left hge
  have hfin : s.d_inter_frame_space_offset +
      (ops.get_inter_frame_space s.d_phy_service - s.d_inter_frame_space_offset) =
      ops.get_inter_frame_space s.d_phy_service := by ring
  simp only [work_consume_space, hmin, hfin, if_true]

/-- CONSUME_SPACE calls that together stay below the inter-frame space only
advance the offset. -/
theorem consume_space_run_skip (c : constants) (ops : phy_service_ops P) (x : Int → ℚ)
    (s : phy_rx_impl P) (p : Int) (pub : List pmt_t) (hits : List Bool)
    (hst : s.d_receiver_state = CONSUME_SPACE) (ns : List Int) :
    ∀ k : Int, (∀ a ∈ ns, 0 ≤ a) →
      (ns ≠ [] → k + ns.sum < ops.get_inter_frame_space s.d_phy_service) →
      run c ops x { rx := { s with d_inter_frame_space_offset := k }, pos := p + k,
                    published := pub, search_hits := hits } ns =
        { rx := { s with d_inter_frame_space_offset := k + ns.sum }, pos := p + (k + ns.sum),
          published := pub, search_hits := hits } := by
  induction ns with
  | nil => intro k _ _; simp [run]
  | cons a ns ih =>
    intro k hns hsum
    have hns2 : ∀ b ∈ ns, 0 ≤ b := fun b hb => hns b (List.mem_cons_of_mem _ hb)
    have hrest : 0 ≤ ns.sum := List.sum_nonneg hns2
    have hlt := hsum (List.cons_ne_nil _ _)
    rw [List.sum_cons] at hlt
    have hst2 : ({ s with d_inter_frame_space_offset := k } : phy_rx_impl P).d_receiver_state =
        CONSUME_SPACE := hst
    have hcall := consume_space_call_skip ops a { s with d_inter_frame_space_offset := k }
      (by show k + a < ops.get_inter_frame_space s.d_phy_service; omega)
    have hrun := ih (k + a) hns2 (fun _ => by omega)
    simp only [run, List.foldl_cons] at hrun ⊢
    simp only [run_call]
    rw [work_in_consume_space c ops a _ _ hst2, hcall]
    simp only [List.append_nil]
    rw [show p + k + a = p + (k + a) by ring, hrun, List.sum_cons, add_assoc]

/-- The accumulation of `noise_var` is the sum of the squares over the
inter-frame space. -/
theorem noise_var_eq (noise : List ℚ) (L : Int) :
    noise_var noise L = (noise.map (fun v => v ^ 2)).sum / (L : ℚ) := by
  have key : ∀ (l : List ℚ) (acc : ℚ),
      l.foldl (fun acc v => acc + v * v / (L : ℚ)) acc =
        acc + (l.map (fun v => v ^ 2)).sum / (L : ℚ) := by
    intro l
    induction l with
    | nil => intro acc; simp
    | cons v l ih =>
      intro acc
      rw [List.foldl_cons, ih, List.map_cons, List.sum_cons, add_div, sq]
      ring
  rw [noise_var, key, zero_add]

/-- The run of SENSE_SPACE calls from the entry into the state up to and
including the call that completes the inter-frame space. -/
theorem sense_space_run_finish (c : constants) (ops : phy_service_ops P) (x : Int → ℚ)
    (s : phy_rx_impl P) (p : Int) (pub : List pmt_t) (hits : List Bool)
    (ns : List Int) (n : Int)
    (hst : s.d_receiver_state = SENSE_SPACE) (hoff : s.d_inter_frame_space_offset = 0)
    (hL : 0 ≤ ops.get_inter_frame_space s.d_phy_service)
    (hns : ∀ a ∈ ns, 0 ≤ a)
    (hsum : ns ≠ [] → ns.sum < ops.get_inter_frame_space s.d_phy_service)
    (hn : ops.get_inter_frame_space s.d_phy_service - ns.sum ≤ n) :
    run c ops x { rx := s, pos := p, published := pub, search_hits := hits } (ns ++ [n]) =
      { rx := sense_space_done ops s
          (stream_slice x p (ops.get_inter_frame_space s.d_phy_service).toNat),
        pos := p + ops.get_inter_frame_space s.d_phy_service,
        published := pub ++ sense_space_messages ops s
          (stream_slice x p (ops.get_inter_frame_space s.d_phy_service).toNat),
        search_hits := hits } := by
  have hrest : 0 ≤ ns.sum := List.sum_nonneg hns
  have hle : ns.sum ≤ ops.get_inter_frame_space s.d_phy_service := by
    by_cases h : ns = []
    · subst h; simpa using hL
    · exact le_of_lt (hsum h)
  obtain ⟨rx1, hrx1, hrun⟩ := sense_space_run_store c ops x s p pub hits hst hoff ns s 0
    (le_refl 0) (Or.inl ⟨rfl, rfl⟩) hns (fun h => by have := hsum h; omega)
  rw [zero_add] at hrx1
  simp only [add_zero, zero_add] at hrun
  have hcall := sense_space_call_finish_at c ops x s rx1 p ns.sum n hst hoff hrx1 hrest hle hn
  simp only [run, List.foldl_append, List.foldl_cons, List.foldl_nil] at hrun ⊢
  rw [hrun]
  simp only [run_call]
  rw [hcall]
  simp only [List.append_nil]
  congr 1
  ring

/-- C4: end of frame handling, from the entry into SENSE_SPACE or CONSUME_SPACE
(offset 0) at stream position `p`, with `L = get_inter_frame_space()`. Calls
that together bring fewer than `L` samples consume all they are given, publish
nothing and leave the state as it is; SENSE_SPACE stores sample `k` of the
space at index `k`, CONSUME_SPACE changes nothing but the offset. The call that
brings the count to `L` consumes only what was missing. SENSE_SPACE then holds
exactly `x[p .. p+L)` in the noise buffer, publishes `PHY-RXSNR` (key `snr`)
followed by `PHY-RXEND` and moves to RESET; CONSUME_SPACE publishes exactly one
`PHY-RXEND` and moves to RESET. -/
theorem end_of_frame_handling (c : constants) (ops : phy_service_ops P) (x : Int → ℚ)
    (s : phy_rx_impl P) (p : Int) (pub : List pmt_t) (hits : List Bool)
    (ns : List Int) (n : Int)
    (hoff : s.d_inter_frame_space_offset = 0)
    (hL : 0 ≤ ops.get_inter_frame_space s.d_phy_service)
    (hns : ∀ a ∈ ns, 0 ≤ a)
    (hsum : ns ≠ [] → ns.sum < ops.get_inter_frame_space s.d_phy_service)
    (hn : ops.get_inter_frame_space s.d_phy_service - ns.sum ≤ n) :
    let L := ops.get_inter_frame_space s.d_phy_service
    let start : run_state P := { rx := s, pos := p, published := pub, search_hits := hits }
    let mid := run c ops x start ns
    let fin := run c ops x start (ns ++ [n])
    let noise := stream_slice x p L.toNat
    (s.d_receiver_state = SENSE_SPACE →
      (mid.rx.d_receiver_state = SENSE_SPACE ∧ mid.published = pub ∧ mid.pos = p + ns.sum ∧
        mid.rx.d_inter_frame_space_offset = ns.sum ∧
        mid.rx.d_phy_service = s.d_phy_service ∧
        ∀ k : Int, 0 ≤ k → k < ns.sum → rd mid.rx.d_noise k = x (p + k)) ∧
      (fin.pos = p + L ∧ fin.rx.d_noise = noise ∧
        fin.published = pub ++
          [cons (mp "PHY-RXSNR") (dict_add make_dict (mp "snr")
              (pmt_t.f32vector (ops.get_snr (ops.process_noise s.d_phy_service noise)))),
            cons (mp "PHY-RXEND") make_dict] ∧
        fin.rx.d_receiver_state = RESET)) ∧
    (s.d_receiver_state = CONSUME_SPACE →
      (mid.rx = { s with d_inter_frame_space_offset := ns.sum } ∧ mid.published = pub ∧
        mid.pos = p + ns.sum) ∧
      (fin.pos = p + L ∧ fin.published = pub ++ [cons (mp "PHY-RXEND") make_dict] ∧
        fin.rx = { s with d_inter_frame_space_offset := L, d_receiver_state := RESET })) := by
  intro L start mid fin noise
  have hrest : 0 ≤ ns.sum := List.sum_nonneg hns
  have hle : ns.sum ≤ L := by
    by_cases h : ns = []
    · subst h; simpa using hL
    · exact le_of_lt (hsum h)
  constructor
  · intro hst
    constructor
    · obtain ⟨rx1, hrx1, hrun⟩ := sense_space_run_store c ops x s p pub hits hst hoff ns s 0
        (le_refl 0) (Or.inl ⟨rfl, rfl⟩) hns (fun h => by have := hsum h; omega)
      rw [zero_add] at hrx1
      simp only [add_zero, zero_add] at hrun
      have hmid : mid = { rx := rx1, pos := p + ns.sum, published := pub, search_hits := hits } :=
        hrun
      rw [hmid]
      rcases hrx1 with ⟨rfl, h0⟩ | rfl
      · refine ⟨hst, rfl, rfl, ?_, rfl, ?_⟩
        · show rx1.d_inter_frame_space_offset = ns.sum
          rw [hoff, h0]
        · intro k hk0 hk; omega
      · refine ⟨hst, rfl, rfl, rfl, rfl, ?_⟩
        intro k hk0 hk
        show rd (std_copy x ns.sum.toNat p (List.replicate L.toNat 0) 0) k = x (p + k)
        rw [rd_std_copy _ _ _ _ _ (le_refl 0), if_pos]
        · simp
        · rw [List.length_replicate]; omega
    · have hfin : fin = _ :=
        sense_space_run_finish c ops x s p pub hits ns n hst hoff hL hns hsum hn
      rw [hfin]
      exact ⟨rfl, rfl, rfl, rfl⟩
  · intro hst
    have hs0 : ({ s with d_inter_frame_space_offset := 0 } : phy_rx_impl P) = s := by
      rw [← hoff]
    have hrun := consume_space_run_skip c ops x s p pub hits hst ns 0 hns
      (fun h => by have := hsum h; omega)
    simp only [hs0, add_zero, zero_add] at hrun
    have hmid : mid = { rx := { s with d_inter_frame_space_offset := ns.sum }, pos := p + ns.sum,
                        published := pub, search_hits := hits } := hrun
    constructor
    · rw [hmid]
      exact ⟨rfl, rfl, rfl⟩
    · have hst2 : ({ s with d_inter_frame_space_offset := ns.sum } :
          phy_rx_impl P).d_receiver_state = CONSUME_SPACE := hst
      have hcall := consume_space_call_finish ops n { s with d_inter_frame_space_offset := ns.sum }
        (by show L - ns.sum ≤ n; exact hn)
      have hfin : fin = run_call c ops x mid n := by
        simp only [fin, mid, run, List.foldl_append, List.foldl_cons, List.foldl_nil]
      rw [hfin, hmid]
      simp only [run_call]
      rw [work_in_consume_space c ops n _ _ hst2, hcall]
      refine ⟨?_, rfl, rfl⟩
      show p + ns.sum + (L - ns.sum) = p + L
      ring

/-- Witness of C4: an inter-frame space of four samples arriving in the calls
1, 0, 2 and completed by a call of five samples, in SENSE_SPACE and in
CONSUME_SPACE. -/
theorem end_of_frame_handling_witness :
    ((run demo_constants (demo_ops MPDU_TYPE_SOF true) ramp
        (run_start (demo_rx SENSE_SPACE 0)) ([1, 0, 2] ++ [5])).pos = 4 ∧
      (run demo_constants (demo_ops MPDU_TYPE_SOF true) ramp
        (run_start (demo_rx SENSE_SPACE 0)) ([1, 0, 2] ++ [5])).rx.d_noise = [0, 1, 2, 3] ∧
      (run demo_constants (demo_ops MPDU_TYPE_SOF true) ramp
        (run_start (demo_rx SENSE_SPACE 0)) ([1, 0, 2] ++ [5])).published =
          [cons (mp "PHY-RXSNR") (dict_add make_dict (mp "snr") (pmt_t.f32vector [])),
            cons (mp "PHY-RXEND") make_dict] ∧
      (run demo_constants (demo_ops MPDU_TYPE_SOF true) ramp
        (run_start (demo_rx SENSE_SPACE 0)) ([1, 0, 2] ++ [5])).rx.d_receiver_state = RESET) ∧
    ((run demo_constants (demo_ops MPDU_TYPE_SOF true) ramp
        (run_start (demo_rx CONSUME_SPACE 0)) ([1, 0, 2] ++ [5])).pos = 4 ∧
      (run demo_constants (demo_ops MPDU_TYPE_SOF true) ramp
        (run_start (demo_rx CONSUME_SPACE 0)) ([1, 0, 2] ++ [5])).published =
          [cons (mp "PHY-RXEND") make_dict]) :=
  have h1 := (end_of_frame_handling demo_constants (demo_ops MPDU_TYPE_SOF true) ramp
    (demo_rx SENSE_SPACE 0) 0 [] [] [1, 0, 2] 5 rfl (by decide) (by decide) (by decide)
    (by decide)).1 rfl
  have h2 := (end_of_frame_handling demo_constants (demo_ops MPDU_TYPE_SOF true) ramp
    (demo_rx CONSUME_SPACE 0) 0 [] [] [1, 0, 2] 5 rfl (by decide) (by decide) (by decide)
    (by decide)).2 rfl
  ⟨⟨h1.2.1, h1.2.2.1.trans (by decide), h1.2.2.2.1, h1.2.2.2.2⟩, ⟨h2.2.1, h2.2.2.1⟩⟩

/-- C6: in SENSE_SPACE, with `L = get_inter_frame_space() > 0` samples
`n_0 .. n_{L-1}` collected from the entry into the state, the value passed to
`set_noise_psd` is `2 * (n_0^2 + ... + n_{L-1}^2) / L`, provided
`process_noise` leaves the inter-frame space the service reports unchanged
(the divisor is read after `process_noise` has run). -/
theorem noise_psd_estimate (c : constants) (ops : phy_service_ops P) (x : Int → ℚ)
    (s : phy_rx_impl P) (p : Int) (pub : List pmt_t) (hits : List Bool)
    (ns : List Int) (n : Int)
    (hst : s.d_receiver_state = SENSE_SPACE) (hoff : s.d_inter_frame_space_offset = 0)
    (hL : 0 < ops.get_inter_frame_space s.d_phy_service)
    (hns : ∀ a ∈ ns, 0 ≤ a)
    (hsum : ns ≠ [] → ns.sum < ops.get_inter_frame_space s.d_phy_service)
    (hn : ops.get_inter_frame_space s.d_phy_service - ns.sum ≤ n)
    (hkeep : ops.get_inter_frame_space (ops.process_noise s.d_phy_service
        (stream_slice x p (ops.get_inter_frame_space s.d_phy_service).toNat)) =
      ops.get_inter_frame_space s.d_phy_service) :
    let L := ops.get_inter_frame_space s.d_phy_service
    let noise := stream_slice x p L.toNat
    let fin := run c ops x { rx := s, pos := p, published := pub, search_hits := hits }
      (ns ++ [n])
    (noise.length : Int) = L ∧
    (∀ k : Nat, k < noise.length → noise.getD k 0 = x (p + k)) ∧
    fin.rx.d_noise = noise ∧
    fin.rx.d_phy_service =
      ops.set_noise_psd (ops.process_noise s.d_phy_service noise)
        (2 * (noise.map (fun v => v ^ 2)).sum / (L : ℚ)) := by
  intro L noise fin
  have hfin : fin = _ :=
    sense_space_run_finish c ops x s p pub hits ns n hst hoff (le_of_lt hL) hns hsum hn
  refine ⟨?_, ?_, ?_, ?_⟩
  · simp only [noise, stream_slice_length]
    omega
  · intro k hk
    simp only [noise, stream_slice_length] at hk
    simp [noise, stream_slice, List.getD_eq_getElem?_getD, hk]
  · rw [hfin]; rfl
  · rw [hfin]
    show ops.set_noise_psd (ops.process_noise s.d_phy_service noise)
        (noise_var noise (ops.get_inter_frame_space (ops.process_noise s.d_phy_service noise)) * 2)
      = _
    rw [hkeep, noise_var_eq]
    congr 1
    ring

/-- Witness of C6: the inter-frame space 0, 1, 2, 3 gives the noise PSD
`2 * (0 + 1 + 4 + 9) / 4 = 7`. -/
theorem noise_psd_estimate_witness :
    (run demo_constants demo_psd_ops ramp
      { rx := demo_psd_rx SENSE_SPACE, pos := 0, published := [], search_hits := [] }
      ([1, 0, 2] ++ [5])).rx.d_phy_service = 7 :=
  have h := noise_psd_estimate demo_constants demo_psd_ops ramp (demo_psd_rx SENSE_SPACE) 0 [] []
    [1, 0, 2] 5 rfl rfl (by decide) (by decide) (by decide) (by decide) rfl
  h.2.2.2.trans (by
    show (2 : ℚ) * ((stream_slice ramp 0 4).map (fun v => v ^ 2)).sum / ((4 : Int) : ℚ) = 7
    simp [stream_slice, ramp, List.range_succ]
    norm_num)

theorem autocorr_window_succ (x : Int → ℚ) (S n : Int) (hS : 0 ≤ S) :
    autocorr_window x S (n + 1) =
      autocorr_window x S n + (x (n + S) * x (n + S * 2) - x n * x (n + S)) := by
  have hc : ((S.toNat : Nat) : Int) = S := Int.toNat_of_nonneg hS
  have h1 := Finset.sum_range_succ (fun j : Nat => x (n + (j : Int)) * x (n + (j : Int) + S))
    S.toNat
  have h2 := Finset.sum_range_succ' (fun j : Nat => x (n + (j : Int)) * x (n + (j : Int) + S))
    S.toNat
  rw [h1] at h2
  simp only [hc, Nat.cast_add, Nat.cast_one, Nat.cast_zero, add_zero] at h2
  have e : autocorr_window x S (n + 1) =
      Finset.sum (Finset.range S.toNat)
        (fun j : Nat => x (n + ((j : Int) + 1)) * x (n + ((j : Int) + 1) + S)) := by
    simp only [autocorr_window]
    apply Finset.sum_congr rfl
    intro j _
    rw [show n + 1 + (j : Int) = n + ((j : Int) + 1) by ring]
  rw [e, autocorr_window]
  have e2 : n + S + S = n + S * 2 := by ring
  rw [e2] at h2
  linarith

theorem energy_window_succ (x : Int → ℚ) (S n : Int) (hS : 0 ≤ S) :
    energy_window x S (n + 1) =
      energy_window x S n + (x (n + S) * x (n + S) - x n * x n) := by
  have hc : ((S.toNat : Nat) : Int) = S := Int.toNat_of_nonneg hS
  have h1 := Finset.sum_range_succ (fun j : Nat => x (n + (j : Int)) ^ 2) S.toNat
  have h2 := Finset.sum_range_succ' (fun j : Nat => x (n + (j : Int)) ^ 2) S.toNat
  rw [h1] at h2
  simp only [hc, Nat.cast_add, Nat.cast_one, Nat.cast_zero, add_zero] at h2
  have e : energy_window x S (n + 1) =
      Finset.sum (Finset.range S.toNat) (fun j : Nat => x (n + ((j : Int) + 1)) ^ 2) := by
    simp only [energy_window]
    apply Finset.sum_congr rfl
    intro j _
    rw [show n + 1 + (j : Int) = n + ((j : Int) + 1) by ring]
  rw [e, energy_window]
  have e3 : x (n + S) * x (n + S) = x (n + S) ^ 2 := by ring
  have e4 : x n * x n = x n ^ 2 := by ring
  rw [e3, e4]
  linarith

theorem autocorr_window_shift (x : Int → ℚ) (S p n : Int) :
    autocorr_window (fun k => x (p + k)) S n = autocorr_window x S (p + n) := by
  simp only [autocorr_window, add_assoc]

theorem energy_window_shift (x : Int → ℚ) (S p n : Int) :
    energy_window (fun k => x (p + k)) S n = energy_window x S (p + n) := by
  simp only [energy_window, add_assoc]

theorem detection_shift (x : Int → ℚ) (S p n : Int) :
    detection (fun k => x (p + k)) S n = detection x S (p + n) := by
  simp only [detection, autocorr_window_shift, energy_window_shift]

/-- What `m` iterations of the RESET loop starting at `j` add to the two sums;
the state and the plateau counter are not touched. -/
theorem reset_loop_sums (c : constants) (inp : Int → ℚ) (m : Nat) :
    ∀ (s : phy_rx_impl P) (j : Int), j + m ≤ c.SYNCP_SIZE →
      (reset_loop c inp m s j).d_search_corr =
        s.d_search_corr +
          Finset.sum (Finset.range m)
            (fun t => inp (j + (t : Int)) * inp (j + (t : Int) + c.SYNCP_SIZE)) ∧
      (reset_loop c inp m s j).d_energy =
        s.d_energy + Finset.sum (Finset.range m) (fun t => inp (j + (t : Int)) ^ 2) ∧
      (reset_loop c inp m s j).d_plateau = s.d_plateau ∧
      (reset_loop c inp m s j).d_receiver_state = s.d_receiver_state := by
  induction m with
  | zero => intro s j _; simp [reset_loop]
  | succ m ih =>
    intro s j hj
    have hlt : j < c.SYNCP_SIZE := by push_cast at hj; omega
    simp only [reset_loop, hlt, if_true]
    obtain ⟨h1, h2, h3, h4⟩ := ih
      ({ s with
          d_search_corr := s.d_search_corr + inp j * inp (j + c.SYNCP_SIZE)
          d_energy := s.d_energy + inp j * inp j
          d_preamble := wr (wr s.d_preamble s.d_preamble_offset (inp (j * 2)))
            (s.d_preamble_offset + 1) (inp (j * 2 + 1))
          d_preamble_offset := s.d_preamble_offset + 1 + 1 } : phy_rx_impl P) (j + 1)
      (by push_cast at hj ⊢; omega)
    refine ⟨?_, ?_, h3, h4⟩
    · rw [h1, Finset.sum_range_succ']
      simp only [Nat.cast_add, Nat.cast_one, Nat.cast_zero, add_zero]
      have : ∀ t : Nat, j + 1 + (t : Int) = j + ((t : Int) + 1) := fun t => by ring
      simp only [this]
      ring
    · rw [h2, Finset.sum_range_succ']
      simp only [Nat.cast_add, Nat.cast_one, Nat.cast_zero, add_zero]
      have : ∀ t : Nat, j + 1 + (t : Int) = j + ((t : Int) + 1) := fun t => by ring
      simp only [this]
      ring

theorem trailing_hits_nil : trailing_hits [] = 0 := rfl

theorem trailing_hits_append_true (l : List Bool) :
    trailing_hits (l ++ [true]) = trailing_hits l + 1 := by
  simp [trailing_hits, List.takeWhile]

theorem trailing_hits_append_false (l : List Bool) : trailing_hits (l ++ [false]) = 0 := by
  simp [trailing_hits, List.takeWhile]

theorem no_plateau_nil (M : Int) (hM : 0 ≤ M) : no_plateau M [] := by
  intro k _
  simpa [trailing_hits] using hM

theorem no_plateau_append (M : Int) (l : List Bool) (b : Bool) (h : no_plateau M l)
    (hb : (trailing_hits (l ++ [b]) : Int) ≤ M) : no_plateau M (l ++ [b]) := by
  intro k hk
  by_cases hkl : k ≤ l.length
  · rw [List.take_append_of_le_length hkl]
    exact h k hkl
  · have hlen : (l ++ [b]).length = l.length + 1 := by simp
    have : k = (l ++ [b]).length := by omega
    rw [this, List.take_length]
    exact hb

theorem no_plateau_last (M : Int) (l : List Bool) (h : no_plateau M l) :
    (trailing_hits l : Int) ≤ M := by
  have := h l.length (le_refl _)
  rwa [List.take_length] at this

/-- The fuel `work` gives the SEARCH loop is enough: the loop is left either
through the `break` (state SYNC) or with its guard `i + 2*SYNCP_SIZE < ninput`
false. -/
theorem search_loop_exit (c : constants) (inp : Int → ℚ) (ninput : Int) (fuel : Nat) :
    ∀ (s : phy_rx_impl P) (i : Int), (ninput - 2 * c.SYNCP_SIZE - i).toNat ≤ fuel →
      (search_loop c inp ninput fuel s i).1.d_receiver_state = SYNC ∨
      ninput ≤ (search_loop c inp ninput fuel s i).2.1 + 2 * c.SYNCP_SIZE := by
  induction fuel with
  | zero =>
    intro s i h
    right
    simp only [search_loop]
    omega
  | succ fuel ih =>
    intro s i h
    by_cases hg : i + 2 * c.SYNCP_SIZE < ninput
    · rw [search_loop]
      simp only [hg, if_true]
      split_ifs
      · exact ih _ _ (by omega)
      · left; rfl
      · exact ih _ _ (by omega)
    · right
      rw [search_loop]
      simp only [hg, if_false]
      omega

/-- One iteration of the SEARCH loop, with the two running sums written as
window sums. -/
theorem search_loop_step (c : constants) (hS : 0 ≤ c.SYNCP_SIZE) (inp : Int → ℚ) (ninput : Int)
    (fuel : Nat) (s : phy_rx_impl P) (i : Int) (hg : i + 2 * c.SYNCP_SIZE < ninput)
    (hc : s.d_search_corr = autocorr_window inp c.SYNCP_SIZE i)
    (he : s.d_energy = energy_window inp c.SYNCP_SIZE i) :
    search_loop c inp ninput (fuel + 1) s i =
      if detection inp c.SYNCP_SIZE (i + 1) = true then
        if s.d_plateau < c.MIN_PLATEAU then
          ((search_loop c inp ninput fuel
              (preamble_put c
                { s with
                  d_search_corr := autocorr_window inp c.SYNCP_SIZE (i + 1)
                  d_energy := energy_window inp c.SYNCP_SIZE (i + 1)
                  d_plateau := s.d_plateau + 1 }
                (inp (i + 2 * c.SYNCP_SIZE))) (i + 1)).1,
            (search_loop c inp ninput fuel
              (preamble_put c
                { s with
                  d_search_corr := autocorr_window inp c.SYNCP_SIZE (i + 1)
                  d_energy := energy_window inp c.SYNCP_SIZE (i + 1)
                  d_plateau := s.d_plateau + 1 }
                (inp (i + 2 * c.SYNCP_SIZE))) (i + 1)).2.1,
            true :: (search_loop c inp ninput fuel
              (preamble_put c
                { s with
                  d_search_corr := autocorr_window inp c.SYNCP_SIZE (i + 1)
                  d_energy := energy_window inp c.SYNCP_SIZE (i + 1)
                  d_plateau := s.d_plateau + 1 }
                (inp (i + 2 * c.SYNCP_SIZE))) (i + 1)).2.2)
        else
          ({ s with
              d_search_corr := autocorr_window inp c.SYNCP_SIZE (i + 1)
              d_energy := energy_window inp c.SYNCP_SIZE (i + 1)
              d_receiver_state := SYNC }, i + 2 * c.SYNCP_SIZE, [true])
      else
        ((search_loop c inp ninput fuel
            (preamble_put c
              { s with
                d_search_corr := autocorr_window inp c.SYNCP_SIZE (i + 1)
                d_energy := energy_window inp c.SYNCP_SIZE (i + 1)
                d_plateau := 0 }
              (inp (i + 2 * c.SYNCP_SIZE))) (i + 1)).1,
          (search_loop c inp ninput fuel
            (preamble_put c
              { s with
                d_search_corr := autocorr_window inp c.SYNCP_SIZE (i + 1)
                d_energy := energy_window inp c.SYNCP_SIZE (i + 1)
                d_plateau := 0 }
              (inp (i + 2 * c.SYNCP_SIZE))) (i + 1)).2.1,
          false :: (search_loop c inp ninput fuel
            (preamble_put c
              { s with
                d_search_corr := autocorr_window inp c.SYNCP_SIZE (i + 1)
                d_energy := energy_window inp c.SYNCP_SIZE (i + 1)
                d_plateau := 0 }
              (inp (i + 2 * c.SYNCP_SIZE))) (i + 1)).2.2) := by
  have e1 := autocorr_window_succ inp c.SYNCP_SIZE i hS
  have e2 := energy_window_succ inp c.SYNCP_SIZE i hS
  rw [search_loop]
  simp only [hg, if_true, hc, he, ← e1, ← e2]
  by_cases hd : detection inp c.SYNCP_SIZE (i + 1) = true
  · have hd2 := hd
    simp only [detection, decide_eq_true_eq] at hd2
    simp only [hd, hd2, and_self, if_true]
  · have hd2 := hd
    simp only [detection, decide_eq_true_eq] at hd2
    simp only [hd, hd2, if_false]
    simp

/-- The SEARCH loop from a state whose sums are the window sums at `i` and whose
plateau counter is the number of trailing hits of the record `pre` so far. -/
theorem search_loop_inv (c : constants) (hS : 0 ≤ c.SYNCP_SIZE) (inp : Int → ℚ)
    (ninput : Int) (fuel : Nat) :
    ∀ (s : phy_rx_impl P) (i : Int) (pre : List Bool),
      s.d_receiver_state = SEARCH →
      s.d_search_corr = autocorr_window inp c.SYNCP_SIZE i →
      s.d_energy = energy_window inp c.SYNCP_SIZE i →
      s.d_plateau = trailing_hits pre →
      no_plateau c.MIN_PLATEAU pre →
      (ninput - 2 * c.SYNCP_SIZE - i).toNat ≤ fuel →
      (search_loop c inp ninput fuel s i).1.d_search_corr =
        autocorr_window inp c.SYNCP_SIZE
          (i + (search_loop c inp ninput fuel s i).2.2.length) ∧
      (search_loop c inp ninput fuel s i).1.d_energy =
        energy_window inp c.SYNCP_SIZE
          (i + (search_loop c inp ninput fuel s i).2.2.length) ∧
      (search_loop c inp ninput fuel s i).2.2 =
        (List.range (search_loop c inp ninput fuel s i).2.2.length).map
          (fun t : Nat => detection inp c.SYNCP_SIZE (i + 1 + (t : Int))) ∧
      (((search_loop c inp ninput fuel s i).1.d_receiver_state = SEARCH ∧
          (search_loop c inp ninput fuel s i).2.1 =
            i + (search_loop c inp ninput fuel s i).2.2.length ∧
          ninput ≤ (search_loop c inp ninput fuel s i).2.1 + 2 * c.SYNCP_SIZE ∧
          (search_loop c inp ninput fuel s i).1.d_plateau =
            trailing_hits (pre ++ (search_loop c inp ninput fuel s i).2.2) ∧
          no_plateau c.MIN_PLATEAU (pre ++ (search_loop c inp ninput fuel s i).2.2)) ∨
        ((search_loop c inp ninput fuel s i).1.d_receiver_state = SYNC ∧
          (search_loop c inp ninput fuel s i).2.1 =
            i + (search_loop c inp ninput fuel s i).2.2.length - 1 + 2 * c.SYNCP_SIZE ∧
          (search_loop c inp ninput fuel s i).2.1 ≤ ninput ∧
          (search_loop c inp ninput fuel s i).1.d_plateau = c.MIN_PLATEAU ∧
          (trailing_hits (pre ++ (search_loop c inp ninput fuel s i).2.2) : Int) =
            c.MIN_PLATEAU + 1 ∧
          ∃ h1 : List Bool, (search_loop c inp ninput fuel s i).2.2 = h1 ++ [true] ∧
            no_plateau c.MIN_PLATEAU (pre ++ h1))) := by
  induction fuel with
  | zero =>
    intro s i pre hst hc he hp hnp hfuel
    simp only [search_loop, List.length_nil, Nat.cast_zero, add_zero, List.range_zero,
      List.map_nil, List.append_nil, true_and]
    refine ⟨hc, he, Or.inl ⟨hst, ?_, hp, hnp⟩⟩
    omega
  | succ fuel ih =>
    intro s i pre hst hc he hp hnp hfuel
    by_cases hg : i + 2 * c.SYNCP_SIZE < ninput
    · rw [search_loop_step c hS inp ninput fuel s i hg hc he]
      have hpl : (trailing_hits pre : Int) ≤ c.MIN_PLATEAU := no_plateau_last _ _ hnp
      by_cases hd : detection inp c.SYNCP_SIZE (i + 1) = true
      · by_cases hlt : s.d_plateau < c.MIN_PLATEAU
        · rw [if_pos hd, if_pos hlt]
          have hnp2 : no_plateau c.MIN_PLATEAU (pre ++ [true]) :=
            no_plateau_append _ _ _ hnp (by rw [trailing_hits_append_true]; push_cast; omega)
          obtain ⟨a1, a2, a3, a4⟩ := ih
            (preamble_put c
              { s with
                d_search_corr := autocorr_window inp c.SYNCP_SIZE (i + 1)
                d_energy := energy_window inp c.SYNCP_SIZE (i + 1)
                d_plateau := s.d_plateau + 1 }
              (inp (i + 2 * c.SYNCP_SIZE))) (i + 1) (pre ++ [true]) hst rfl rfl
            (by show s.d_plateau + 1 = _; rw [trailing_hits_append_true]; push_cast; omega)
            hnp2 (by omega)
          simp only [List.length_cons, Nat.cast_add, Nat.cast_one]
          refine ⟨?_, ?_, ?_, ?_⟩
          · rw [a1]; congr 1; ring
          · rw [a2]; congr 1; ring
          · rw [List.range_succ_eq_map, List.map_cons, List.map_map]
            simp only [Nat.cast_zero, add_zero, hd]
            congr 1
            conv_lhs => rw [a3]
            apply List.map_congr_left
            intro t _
            simp only [Function.comp, Nat.cast_succ]
            congr 1; ring
          · rcases a4 with ⟨b1, b2, b3, b4, b5⟩ | ⟨b1, b2, b3, b4, b5, h1, b6, b7⟩
            · left
              rw [List.append_assoc] at b4 b5
              exact ⟨b1, by rw [b2]; ring, b3, b4, b5⟩
            · right
              rw [List.append_assoc] at b5 b7
              refine ⟨b1, by rw [b2]; ring, b3, b4, b5, true :: h1, ?_, b7⟩
              rw [b6]; rfl
        · rw [if_pos hd, if_neg hlt]
          have hpm : s.d_plateau = c.MIN_PLATEAU := by omega
          simp only [List.length_singleton, Nat.cast_one, true_and]
          refine ⟨?_, Or.inr ⟨by ring, by omega, hpm, ?_, [], rfl, ?_⟩⟩
          · show [true] = [detection inp c.SYNCP_SIZE (i + 1 + ((0 : Nat) : Int))]
            rw [Nat.cast_zero, add_zero, hd]
          · rw [trailing_hits_append_true]; push_cast; omega
          · simpa using hnp
      · rw [if_neg hd]
        have hd2 : detection inp c.SYNCP_SIZE (i + 1) = false := by simpa using hd
        have hM : (0 : Int) ≤ c.MIN_PLATEAU := by
          have := Int.natCast_nonneg (trailing_hits pre); omega
        have hnp2 : no_plateau c.MIN_PLATEAU (pre ++ [false]) :=
          no_plateau_append _ _ _ hnp (by rw [trailing_hits_append_false]; simpa using hM)
        obtain ⟨a1, a2, a3, a4⟩ := ih
          (preamble_put c
            { s with
              d_search_corr := autocorr_window inp c.SYNCP_SIZE (i + 1)
              d_energy := energy_window inp c.SYNCP_SIZE (i + 1)
              d_plateau := 0 }
            (inp (i + 2 * c.SYNCP_SIZE))) (i + 1) (pre ++ [false]) hst rfl rfl
          (by show (0 : Int) = _; rw [trailing_hits_append_false]; rfl)
          hnp2 (by omega)
        simp only [List.length_cons, Nat.cast_add, Nat.cast_one]
        refine ⟨?_, ?_, ?_, ?_⟩
        · rw [a1]; congr 1; ring
        · rw [a2]; congr 1; ring
        · rw [List.range_succ_eq_map, List.map_cons, List.map_map]
          simp only [Nat.cast_zero, add_zero, hd2]
          congr 1
          conv_lhs => rw [a3]
          apply List.map_congr_left
          intro t _
          simp only [Function.comp, Nat.cast_succ]
          congr 1; ring
        · rcases a4 with ⟨b1, b2, b3, b4, b5⟩ | ⟨b1, b2, b3, b4, b5, h1, b6, b7⟩
          · left
            rw [List.append_assoc] at b4 b5
            exact ⟨b1, by rw [b2]; ring, b3, b4, b5⟩
          · right
            rw [List.append_assoc] at b5 b7
            refine ⟨b1, by rw [b2]; ring, b3, b4, b5, false :: h1, ?_, b7⟩
            rw [b6]; rfl
    · rw [search_loop]
      simp only [hg, if_false, List.length_nil, Nat.cast_zero, add_zero, List.range_zero,
        List.map_nil, List.append_nil, true_and]
      refine ⟨hc, he, Or.inl ⟨hst, ?_, hp, hnp⟩⟩
      omega

theorem min_plateau_nonneg (c : constants) (hS : 0 ≤ c.SYNCP_SIZE) : 0 ≤ c.MIN_PLATEAU := by
  unfold constants.MIN_PLATEAU
  exact Int.tdiv_nonneg (by omega) (by omega)

/-- The RESET call establishes the search phase with no iteration executed. -/
theorem search_phase_reset (c : constants) (ops : phy_service_ops P) (x : Int → ℚ)
    (s : phy_rx_impl P) (n0 : Int) (hst : s.d_receiver_state = RESET)
    (hS : 0 ≤ c.SYNCP_SIZE) :
    search_phase c x (run_call c ops x (run_start s) n0) ∧
    (run_call c ops x (run_start s) n0).pos = 0 ∧
    (run_call c ops x (run_start s) n0).search_hits = [] ∧
    (run_call c ops x (run_start s) n0).rx.d_receiver_state = SEARCH := by
  have hc : ((c.SYNCP_SIZE.toNat : Nat) : Int) = c.SYNCP_SIZE := Int.toNat_of_nonneg hS
  obtain ⟨h1, h2, h3, _⟩ := reset_loop_sums c (fun k => x (0 + k)) c.SYNCP_SIZE.toNat
    ({ s with
      d_plateau := 0
      d_frame_control_offset := 0
      d_sync_offset := 0
      d_preamble_offset := 0
      d_payload_size := 0
      d_payload_offset := 0
      d_cor := []
      d_output_datastream_offset := 0
      d_output_datastream_len := 0
      d_noise_offset := 0
      d_search_corr := 0
      d_energy := 0
      d_inter_frame_space_offset := 0 } : phy_rx_impl P) 0 (by omega)
  have hw : work c ops n0 (fun k => x (0 + k)) s = work_reset c (fun k => x (0 + k)) s := by
    simp only [work, hst]
  refine ⟨⟨?_, ?_, ?_, Or.inl ⟨?_, ?_, ?_, ?_⟩⟩, ?_, ?_, ?_⟩
  · simp only [run_call, run_start, hw, work_reset, List.append_nil, List.length_nil,
      Nat.cast_zero]
    rw [h1]
    simp only [autocorr_window, zero_add]
  · simp only [run_call, run_start, hw, work_reset, List.append_nil, List.length_nil,
      Nat.cast_zero]
    rw [h2]
    simp only [energy_window, zero_add]
  · simp only [run_call, run_start, hw, work_reset, List.append_nil, List.length_nil,
      List.range_zero, List.map_nil]
  · simp only [run_call, run_start, hw, work_reset]
  · simp only [run_call, run_start, hw, work_reset, List.append_nil, List.length_nil,
      Nat.cast_zero, add_zero]
  · simp only [run_call, run_start, hw, work_reset, List.append_nil, trailing_hits_nil,
      Nat.cast_zero]
    rw [h3]
  · simp only [run_call, run_start, hw, work_reset, List.append_nil]
    exact no_plateau_nil _ (min_plateau_nonneg c hS)
  · simp only [run_call, run_start, hw, work_reset, add_zero]
  · simp only [run_call, run_start, hw, work_reset, List.append_nil]
  · simp only [run_call, run_start, hw, work_reset]

/-- A call of `work` made in SEARCH during the search phase keeps the phase. -/
theorem search_phase_call (c : constants) (ops : phy_service_ops P) (x : Int → ℚ)
    (r : run_state P) (n : Int) (hS : 0 ≤ c.SYNCP_SIZE)
    (hst : r.rx.d_receiver_state = SEARCH) (h : search_phase c x r) :
    search_phase c x (run_call c ops x r n) := by
  obtain ⟨hc, he, htr, hcase⟩ := h
  rcases hcase with ⟨_, hpos, hpl, hnp⟩ | ⟨hsync, _⟩
  · have hw : work c ops n (fun k => x (r.pos + k)) r.rx =
        work_search c n (fun k => x (r.pos + k)) r.rx := by
      simp only [work, hst]
    obtain ⟨a1, a2, a3, a4⟩ := search_loop_inv c hS (fun k => x (r.pos + k)) n
      (n - 2 * c.SYNCP_SIZE).toNat r.rx 0 r.search_hits hst
      (by rw [autocorr_window_shift, hc, hpos, add_zero])
      (by rw [energy_window_shift, he, hpos, add_zero])
      hpl hnp (by omega)
    simp only [autocorr_window_shift, energy_window_shift, detection_shift, zero_add] at a1 a2 a3
    simp only [zero_add] at a4
    have hlen : (r.search_hits ++
        (search_loop c (fun k => x (r.pos + k)) n (n - 2 * c.SYNCP_SIZE).toNat r.rx 0).2.2).length
        = r.search_hits.length +
          (search_loop c (fun k => x (r.pos + k)) n (n - 2 * c.SYNCP_SIZE).toNat r.rx 0).2.2.length :=
      List.length_append _ _
    refine ⟨?_, ?_, ?_, ?_⟩
    · simp only [run_call, hw, work_search, hlen, Nat.cast_add]
      rw [a1, hpos]
    · simp only [run_call, hw, work_search, hlen, Nat.cast_add]
      rw [a2, hpos]
    · simp only [run_call, hw, work_search, hlen]
      rw [List.range_add, List.map_append, List.map_map, ← htr]
      congr 1
      conv_lhs => rw [a3]
      apply List.map_congr_left
      intro t _
      simp only [Function.comp, hpos, Nat.cast_add]
      congr 1; ring
    · rcases a4 with ⟨b1, b2, _, b4, b5⟩ | ⟨b1, b2, _, b4, b5, h1, b6, b7⟩
      · left
        simp only [run_call, hw, work_search, hlen, Nat.cast_add]
        exact ⟨b1, by rw [b2, hpos], b4, b5⟩
      · right
        simp only [run_call, hw, work_search, hlen, Nat.cast_add]
        refine ⟨b1, by rw [b2, hpos]; ring, b4, b5, r.search_hits ++ h1, ?_, b7⟩
        rw [b6, List.append_assoc]
  · rw [hst] at hsync
    exact absurd hsync (by decide)

/-- The search phase is kept by every run of calls that stops on leaving
SEARCH. -/
theorem search_phase_run (c : constants) (ops : phy_service_ops P) (x : Int → ℚ)
    (hS : 0 ≤ c.SYNCP_SIZE) (ns : List Int) :
    ∀ r : run_state P, search_phase c x r → search_phase c x (run_in SEARCH c ops x r ns) := by
  induction ns with
  | nil => intro r h; exact h
  | cons n ns ih =>
    intro r h
    by_cases hst : r.rx.d_receiver_state = SEARCH
    · simp only [run_in, hst, if_true]
      exact ih _ (search_phase_call c ops x r n hS hst h)
    · simp only [run_in, hst, if_false]
      exact h

/-- C10: sliding-sum invariant of RESET followed by SEARCH, with `x` the stream
indexed from the first sample seen by the RESET call and `S = SYNCP_SIZE`. The
RESET call consumes no sample and seeds both sums over the first window
(`n = 0`). After any further calls made in SEARCH, with `n` the number of SEARCH
loop iterations executed in all of them, `d_search_corr` is the sum of
`x[j]*x[j+S]` and `d_energy` the sum of `x[j]^2` over `j` in `[n, n+S)`; while
the receiver is still in SEARCH it has consumed exactly `n` samples. -/
theorem search_sliding_sums (c : constants) (ops : phy_service_ops P) (x : Int → ℚ)
    (s : phy_rx_impl P) (n0 : Int) (ns : List Int)
    (hst : s.d_receiver_state = RESET) (hS : 0 ≤ c.SYNCP_SIZE) :
    let r0 := run_call c ops x (run_start s) n0
    let r := run_in SEARCH c ops x r0 ns
    (r0.pos = 0 ∧ r0.rx.d_receiver_state = SEARCH ∧ r0.search_hits = [] ∧
      r0.rx.d_search_corr = autocorr_window x c.SYNCP_SIZE 0 ∧
      r0.rx.d_energy = energy_window x c.SYNCP_SIZE 0) ∧
    r.rx.d_search_corr = autocorr_window x c.SYNCP_SIZE r.search_hits.length ∧
    r.rx.d_energy = energy_window x c.SYNCP_SIZE r.search_hits.length ∧
    (r.rx.d_receiver_state = SEARCH → r.pos = r.search_hits.length) := by
  intro r0 r
  obtain ⟨h0, hpos, hhits, hst0⟩ := search_phase_reset c ops x s n0 hst hS
  have hr : search_phase c x r := search_phase_run c ops x hS ns r0 h0
  refine ⟨⟨hpos, hst0, hhits, ?_, ?_⟩, hr.1, hr.2.1, ?_⟩
  · have := h0.1
    rw [hhits] at this
    exact this
  · have := h0.2.1
    rw [hhits] at this
    exact this
  · intro hs
    rcases hr.2.2.2 with ⟨_, hp, _⟩ | ⟨hsync, _⟩
    · exact hp
    · rw [hs] at hsync
      exact absurd hsync (by decide)

/-- Witness of C10: the ramp stream with `SYNCP_SIZE = 1`; after RESET and
three SEARCH iterations made in two calls the sums are `x[3]*x[4] = 12` and
`x[3]^2 = 9`. -/
theorem search_sliding_sums_witness :
    (run_in SEARCH demo_constants (demo_ops MPDU_TYPE_SOF true) ramp
      (run_call demo_constants (demo_ops MPDU_TYPE_SOF true) ramp (run_start (demo_rx RESET 0)) 2)
      [4, 3]).search_hits.length = 3 ∧
    (run_in SEARCH demo_constants (demo_ops MPDU_TYPE_SOF true) ramp
      (run_call demo_constants (demo_ops MPDU_TYPE_SOF true) ramp (run_start (demo_rx RESET 0)) 2)
      [4, 3]).rx.d_search_corr = 12 ∧
    (run_in SEARCH demo_constants (demo_ops MPDU_TYPE_SOF true) ramp
      (run_call demo_constants (demo_ops MPDU_TYPE_SOF true) ramp (run_start (demo_rx RESET 0)) 2)
      [4, 3]).rx.d_energy = 9 := by
  have h := search_sliding_sums demo_constants (demo_ops MPDU_TYPE_SOF true) ramp
    (demo_rx RESET 0) 2 [4, 3] rfl (by decide)
  have hlen : (run_in SEARCH demo_constants (demo_ops MPDU_TYPE_SOF true) ramp
      (run_call demo_constants (demo_ops MPDU_TYPE_SOF true) ramp (run_start (demo_rx RESET 0)) 2)
      [4, 3]).search_hits.length = 3 := by decide!
  refine ⟨hlen, ?_, ?_⟩
  · have h1 := h.2.1
    simp only [hlen] at h1
    rw [h1]
    decide!
  · have h2 := h.2.2.1
    simp only [hlen] at h2
    rw [h2]
    decide!

/-- C9 as stated fails: with `SYNCP_SIZE = 1` (`MIN_PLATEAU = 5`) and a constant
stream, the detection condition holds on each of the first five SEARCH
iterations, a plateau of `MIN_PLATEAU` consecutive iterations is complete, and
the receiver is still in SEARCH; it moves to SYNC one iteration later. -/
theorem search_plateau_off_by_one :
    demo_constants.MIN_PLATEAU = 5 ∧
    (run demo_constants (demo_ops MPDU_TYPE_SOF true) ones
      (run_start (demo_rx RESET 0)) [2, 7]).search_hits = [true, true, true, true, true] ∧
    (run demo_constants (demo_ops MPDU_TYPE_SOF true) ones
      (run_start (demo_rx RESET 0)) [2, 7]).rx.d_receiver_state = SEARCH ∧
    (run demo_constants (demo_ops MPDU_TYPE_SOF true) ones
      (run_start (demo_rx RESET 0)) [2, 8]).search_hits =
        [true, true, true, true, true, true] ∧
    (run demo_constants (demo_ops MPDU_TYPE_SOF true) ones
      (run_start (demo_rx RESET 0)) [2, 8]).rx.d_receiver_state = SYNC := by
  decide!

/-- C9 (amended): after RESET and any calls made in SEARCH, with `tr` the record
of the detection condition on the SEARCH iterations executed so far (entry `t` is
the condition on the windows starting at sample `t+1`): the receiver is in
SEARCH or SYNC; `d_plateau` stays within `0..MIN_PLATEAU`; in SEARCH `d_plateau`
is the number of trailing hits of `tr`, so an iteration that violates the
condition sets it back to 0; the receiver is in SYNC exactly when `tr` ends with
`MIN_PLATEAU + 1` consecutive hits, and no earlier iteration completed more than
`MIN_PLATEAU` consecutive hits. -/
theorem search_plateau_trigger (c : constants) (ops : phy_service_ops P) (x : Int → ℚ)
    (s : phy_rx_impl P) (n0 : Int) (ns : List Int)
    (hst : s.d_receiver_state = RESET) (hS : 0 ≤ c.SYNCP_SIZE) :
    let r := run_in SEARCH c ops x (run_call c ops x (run_start s) n0) ns
    let tr := r.search_hits
    (r.rx.d_receiver_state = SEARCH ∨ r.rx.d_receiver_state = SYNC) ∧
    tr = (List.range tr.length).map (fun t : Nat => detection x c.SYNCP_SIZE (1 + (t : Int))) ∧
    (0 ≤ r.rx.d_plateau ∧ r.rx.d_plateau ≤ c.MIN_PLATEAU) ∧
    (r.rx.d_receiver_state = SEARCH → r.rx.d_plateau = trailing_hits tr) ∧
    (r.rx.d_receiver_state = SEARCH → ∀ l : List Bool, tr = l ++ [false] →
      r.rx.d_plateau = 0) ∧
    (r.rx.d_receiver_state = SYNC ↔ (trailing_hits tr : Int) = c.MIN_PLATEAU + 1) ∧
    (∀ k : Nat, k < tr.length → (trailing_hits (tr.take k) : Int) ≤ c.MIN_PLATEAU) := by
  intro r tr
  obtain ⟨h0, _, _, _⟩ := search_phase_reset c ops x s n0 hst hS
  have hr : search_phase c x r := search_phase_run c ops x hS ns _ h0
  obtain ⟨_, _, htr, hcase⟩ := hr
  have hM := min_plateau_nonneg c hS
  rcases hcase with ⟨hs, _, hpl, hnp⟩ | ⟨hs, _, hpl, htrail, h1, hh1, hnp⟩
  · have hlast := no_plateau_last _ _ hnp
    refine ⟨Or.inl hs, htr, ⟨?_, ?_⟩, fun _ => hpl, ?_, ?_, ?_⟩
    · rw [hpl]; exact Int.natCast_nonneg _
    · rw [hpl]; exact hlast
    · intro _ l hl
      rw [hpl]
      have : trailing_hits r.search_hits = 0 := by
        rw [show r.search_hits = l ++ [false] from hl, trailing_hits_append_false]
      rw [this]; rfl
    · constructor
      · intro h; rw [hs] at h; exact absurd h (by decide)
      · intro h
        have : (trailing_hits r.search_hits : Int) = c.MIN_PLATEAU + 1 := h
        omega
    · intro k hk
      exact hnp k (le_of_lt hk)
  · refine ⟨Or.inr hs, htr, ⟨?_, ?_⟩, ?_, ?_, ?_, ?_⟩
    · rw [hpl]; exact hM
    · rw [hpl]
    · intro h; rw [hs] at h; exact absurd h (by decide)
    · intro h; rw [hs] at h; exact absurd h (by decide)
    · exact ⟨fun _ => htrail, fun _ => hs⟩
    · intro k hk
      have hk2 : k < r.search_hits.length := hk
      rw [hh1] at hk2
      simp only [List.length_append, List.length_singleton] at hk2
      have hk3 : k ≤ h1.length := by omega
      show (trailing_hits (r.search_hits.take k) : Int) ≤ c.MIN_PLATEAU
      rw [hh1, List.take_append_of_le_length hk3]
      exact hnp k hk3

/-- Witness of C9 (amended): the constant stream with `SYNCP_SIZE = 1`; the sixth
consecutive hit moves the receiver to SYNC. -/
theorem search_plateau_trigger_witness :
    (run_in SEARCH demo_constants (demo_ops MPDU_TYPE_SOF true) ones
      (run_call demo_constants (demo_ops MPDU_TYPE_SOF true) ones (run_start (demo_rx RESET 0)) 2)
      [5, 9]).search_hits = [true, true, true, true, true, true] ∧
    (run_in SEARCH demo_constants (demo_ops MPDU_TYPE_SOF true) ones
      (run_call demo_constants (demo_ops MPDU_TYPE_SOF true) ones (run_start (demo_rx RESET 0)) 2)
      [5, 9]).rx.d_receiver_state = SYNC := by
  have h := search_plateau_trigger demo_constants (demo_ops MPDU_TYPE_SOF true) ones
    (demo_rx RESET 0) 2 [5, 9] rfl (by decide)
  have htr : (run_in SEARCH demo_constants (demo_ops MPDU_TYPE_SOF true) ones
      (run_call demo_constants (demo_ops MPDU_TYPE_SOF true) ones (run_start (demo_rx RESET 0)) 2)
      [5, 9]).search_hits = [true, true, true, true, true, true] := by decide!
  refine ⟨htr, h.2.2.2.2.2.1.2 ?_⟩
  simp only [htr]
  decide

/-! ## SYNC -/

theorem stream_slice_cons (x : Int → ℚ) (a : Int) (n : Nat) :
    stream_slice x a (n + 1) = x a :: stream_slice x (a + 1) n := by
  simp only [stream_slice, List.range_succ_eq_map, List.map_cons, List.map_map, Nat.cast_zero,
    add_zero]
  congr 1
  apply List.map_congr_left
  intro k _
  simp only [Function.comp, Nat.cast_succ]
  congr 1; ring

theorem preamble_put_ring (c : constants) (s : phy_rx_impl P) (v : ℚ) :
    preamble_put c s v =
      { s with
        d_preamble := (ring_put c (s.d_preamble, s.d_preamble_offset) v).1
        d_preamble_offset := (ring_put c (s.d_preamble, s.d_preamble_offset) v).2 } := rfl

/-- The first SYNC loop puts the samples `in[i], in[i+1], ...` up to the bound
into the circular buffer and changes nothing else. -/
theorem sync_loop1_ring (c : constants) (inp : Int → ℚ) (fuel : Nat) :
    ∀ (s : phy_rx_impl P) (i mi : Int) (mv : ℚ),
      i + fuel = c.SYNC_LENGTH - c.SYNCP_SIZE →
      (sync_loop1 c inp fuel s i mi mv).1 =
        { s with
          d_preamble := (ring_append c (s.d_preamble, s.d_preamble_offset)
            (stream_slice inp i fuel)).1
          d_preamble_offset := (ring_append c (s.d_preamble, s.d_preamble_offset)
            (stream_slice inp i fuel)).2 } ∧
      (sync_loop1 c inp fuel s i mi mv).2.1 = i + fuel := by
  induction fuel with
  | zero =>
    intro s i mi mv _
    simp [sync_loop1, stream_slice, ring_append]
  | succ fuel ih =>
    intro s i mi mv h
    have hlt : i < c.SYNC_LENGTH - c.SYNCP_SIZE := by push_cast at h; omega
    have hn : i + 1 + (fuel : Int) = c.SYNC_LENGTH - c.SYNCP_SIZE := by push_cast at h; omega
    rw [sync_loop1]
    simp only [hlt, if_true, stream_slice_cons]
    split_ifs
    · obtain ⟨h1, h2⟩ := ih (preamble_put c s (inp i)) (i + 1) i
        (rd s.d_correlation i * rd s.d_correlation (i + c.SYNCP_SIZE)) hn
      refine ⟨?_, by rw [h2]; push_cast; ring⟩
      rw [h1]
      simp only [preamble_put_ring, ring_append, List.foldl_cons]
    · obtain ⟨h1, h2⟩ := ih (preamble_put c s (inp i)) (i + 1) mi mv hn
      refine ⟨?_, by rw [h2]; push_cast; ring⟩
      rw [h1]
      simp only [preamble_put_ring, ring_append, List.foldl_cons]

/-- The second SYNC loop puts the samples `in[i], ..., in[SYNC_LENGTH-1]` into the
circular buffer and changes nothing else. -/
theorem sync_loop2_ring (c : constants) (inp : Int → ℚ) (m : Nat) :
    ∀ (fuel : Nat) (s : phy_rx_impl P) (i : Int),
      i + m = c.SYNC_LENGTH → m ≤ fuel →
      (sync_loop2 c inp fuel s i).1 =
        { s with
          d_preamble := (ring_append c (s.d_preamble, s.d_preamble_offset)
            (stream_slice inp i m)).1
          d_preamble_offset := (ring_append c (s.d_preamble, s.d_preamble_offset)
            (stream_slice inp i m)).2 } ∧
      (sync_loop2 c inp fuel s i).2 = i + m := by
  induction m with
  | zero =>
    intro fuel s i h _
    have hge : ¬ (i < c.SYNC_LENGTH) := by simp at h; omega
    cases fuel with
    | zero => simp [sync_loop2, stream_slice, ring_append]
    | succ f => simp [sync_loop2, hge, stream_slice, ring_append]
  | succ m ih =>
    intro fuel s i h hf
    obtain ⟨f, rfl⟩ : ∃ f, fuel = f + 1 := ⟨fuel - 1, by omega⟩
    have hlt : i < c.SYNC_LENGTH := by push_cast at h; omega
    rw [sync_loop2]
    simp only [hlt, if_true, stream_slice_cons]
    obtain ⟨h1, h2⟩ := ih f (preamble_put c s (inp i)) (i + 1) (by push_cast at h; omega)
      (by omega)
    refine ⟨?_, by rw [h2]; push_cast; ring⟩
    rw [h1]
    simp only [preamble_put_ring, ring_append, List.foldl_cons]

/-- The first SYNC loop keeps `max_index` the smallest index of the largest
product seen so far. -/
theorem sync_loop1_argmax (c : constants) (inp : Int → ℚ) (corr : List ℚ) (fuel : Nat) :
    ∀ (s : phy_rx_impl P) (i mi : Int) (mv : ℚ),
      s.d_correlation = corr →
      i + fuel = c.SYNC_LENGTH - c.SYNCP_SIZE → 0 ≤ i →
      mv = sync_product c corr mi → 0 ≤ mi → (mi < i ∨ mi = 0) →
      (∀ j : Int, 0 ≤ j → j < i → sync_product c corr j ≤ mv) →
      (∀ j : Int, 0 ≤ j → j < mi → sync_product c corr j < mv) →
      0 ≤ (sync_loop1 c inp fuel s i mi mv).2.2.1 ∧
      ((sync_loop1 c inp fuel s i mi mv).2.2.1 < c.SYNC_LENGTH - c.SYNCP_SIZE ∨
        (sync_loop1 c inp fuel s i mi mv).2.2.1 = 0) ∧
      (∀ j : Int, 0 ≤ j → j < c.SYNC_LENGTH - c.SYNCP_SIZE →
        sync_product c corr j ≤
          sync_product c corr (sync_loop1 c inp fuel s i mi mv).2.2.1) ∧
      (∀ j : Int, 0 ≤ j → j < (sync_loop1 c inp fuel s i mi mv).2.2.1 →
        sync_product c corr j <
          sync_product c corr (sync_loop1 c inp fuel s i mi mv).2.2.1) := by
  induction fuel with
  | zero =>
    intro s i mi mv _ h hi hmv hmi hlt hall hbelow
    have hi2 : i = c.SYNC_LENGTH - c.SYNCP_SIZE := by simpa using h
    simp only [sync_loop1]
    refine ⟨hmi, ?_, ?_, ?_⟩
    · rcases hlt with h1 | h1
      · left; omega
      · right; exact h1
    · intro j hj0 hj; rw [← hmv]; exact hall j hj0 (by omega)
    · intro j hj0 hj; rw [← hmv]; exact hbelow j hj0 hj
  | succ fuel ih =>
    intro s i mi mv hc h hi hmv hmi hlt hall hbelow
    have hg : i < c.SYNC_LENGTH - c.SYNCP_SIZE := by push_cast at h; omega
    have hn : i + 1 + (fuel : Int) = c.SYNC_LENGTH - c.SYNCP_SIZE := by push_cast at h; omega
    rw [sync_loop1]
    simp only [hg, if_true, hc]
    have hp : rd corr i * rd corr (i + c.SYNCP_SIZE) = sync_product c corr i := rfl
    rw [hp]
    by_cases hgt : sync_product c corr i > mv
    · rw [if_pos hgt]
      apply ih (preamble_put c s (inp i)) (i + 1) i (sync_product c corr i) hc hn (by omega) rfl hi
        (by left; omega)
      · intro j hj0 hj
        by_cases hji : j = i
        · rw [hji]
        · exact le_of_lt (lt_of_le_of_lt (hall j hj0 (by omega)) hgt)
      · intro j hj0 hj
        exact lt_of_le_of_lt (hall j hj0 hj) hgt
    · rw [if_neg hgt]
      apply ih (preamble_put c s (inp i)) (i + 1) mi mv hc hn (by omega) hmv hmi
        (by rcases hlt with h1 | h1
            · left; omega
            · right; exact h1)
      · intro j hj0 hj
        by_cases hji : j = i
        · rw [hji]; exact not_lt.mp hgt
        · exact hall j hj0 (by omega)
      · exact hbelow

theorem stream_slice_append (x : Int → ℚ) (a : Int) (n m : Nat) :
    stream_slice x a n ++ stream_slice x (a + n) m = stream_slice x a (n + m) := by
  induction n generalizing a with
  | zero => simp [stream_slice]
  | succ n ih =>
    rw [show n + 1 + m = (n + m) + 1 by omega, stream_slice_cons, stream_slice_cons,
      List.cons_append, ← ih (a + 1)]
    congr 3
    push_cast; ring

theorem stream_slice_shift (x : Int → ℚ) (p a : Int) (n : Nat) :
    stream_slice (fun k => x (p + k)) a n = stream_slice x (p + a) n := by
  simp only [stream_slice, add_assoc]

theorem ring_append_append (c : constants) (rg : List ℚ × Int) (l1 l2 : List ℚ) :
    ring_append c (ring_append c rg l1) l2 = ring_append c rg (l1 ++ l2) := by
  simp only [ring_append, List.foldl_append]

theorem work_in_sync (c : constants) (ops : phy_service_ops P) (n : Int)
    (inp : Int → ℚ) (s : phy_rx_impl P) (hst : s.d_receiver_state = SYNC) :
    work c ops n inp s = work_sync c inp s := by
  simp only [work, hst]

/-- The two SYNC loops together put the window of `SYNC_LENGTH` samples into
the circular buffer and leave `i = SYNC_LENGTH`. -/
theorem sync_loops_ring (c : constants) (inp : Int → ℚ) (s1 : phy_rx_impl P) (mv0 : ℚ)
    (hS : 0 ≤ c.SYNCP_SIZE) :
    sync_loop2 c inp c.SYNC_LENGTH.toNat
        (sync_loop1 c inp (c.SYNC_LENGTH - c.SYNCP_SIZE).toNat s1 0 0 mv0).1
        (sync_loop1 c inp (c.SYNC_LENGTH - c.SYNCP_SIZE).toNat s1 0 0 mv0).2.1 =
      ({ s1 with
          d_preamble := (ring_append c (s1.d_preamble, s1.d_preamble_offset)
            (stream_slice inp 0 c.SYNC_LENGTH.toNat)).1
          d_preamble_offset := (ring_append c (s1.d_preamble, s1.d_preamble_offset)
            (stream_slice inp 0 c.SYNC_LENGTH.toNat)).2 }, c.SYNC_LENGTH) := by
  have hSL : c.SYNC_LENGTH = 2 * c.SYNCP_SIZE := rfl
  obtain ⟨a1, a2⟩ := sync_loop1_ring c inp (c.SYNC_LENGTH - c.SYNCP_SIZE).toNat s1 0 0 mv0
    (by omega)
  obtain ⟨b1, b2⟩ := sync_loop2_ring c inp c.SYNCP_SIZE.toNat c.SYNC_LENGTH.toNat
    (sync_loop1 c inp (c.SYNC_LENGTH - c.SYNCP_SIZE).toNat s1 0 0 mv0).1
    (sync_loop1 c inp (c.SYNC_LENGTH - c.SYNCP_SIZE).toNat s1 0 0 mv0).2.1
    (by rw [a2]; omega) (by omega)
  have hsum : (c.SYNC_LENGTH - c.SYNCP_SIZE).toNat + c.SYNCP_SIZE.toNat = c.SYNC_LENGTH.toNat := by
    omega
  refine Prod.ext ?_ ?_
  · rw [b1, a1, a2]
    simp only [Prod.mk.eta, ring_append_append, stream_slice_append, hsum]
  · rw [b2, a2]
    show 0 + ((c.SYNC_LENGTH - c.SYNCP_SIZE).toNat : Int) + (c.SYNCP_SIZE.toNat : Int) =
      c.SYNC_LENGTH
    omega

/-- The SYNC case in closed form: the window of `SYNC_LENGTH` samples goes into
the circular buffer, `i` ends at `SYNC_LENGTH`, and `d_frame_start` is computed
from `max_index`. -/
theorem work_sync_eq (c : constants) (inp : Int → ℚ) (s : phy_rx_impl P)
    (hS : 0 ≤ c.SYNCP_SIZE) :
    work_sync c inp s =
      { rx := { s with
          d_correlation := filterN s.d_fir inp c.SYNC_LENGTH
          d_preamble := (ring_append c (s.d_preamble, s.d_preamble_offset)
            (stream_slice inp 0 c.SYNC_LENGTH.toNat)).1
          d_preamble_offset := (ring_append c (s.d_preamble, s.d_preamble_offset)
            (stream_slice inp 0 c.SYNC_LENGTH.toNat)).2
          d_frame_start := Int.tdiv (5 * c.SYNCP_SIZE +
            2 * sync_max_index c inp
              { s with d_correlation := filterN s.d_fir inp c.SYNC_LENGTH } -
            2 * c.SYNC_LENGTH) 2
          d_receiver_state :=
            if Int.tdiv (5 * c.SYNCP_SIZE +
              2 * sync_max_index c inp
                { s with d_correlation := filterN s.d_fir inp c.SYNC_LENGTH } -
              2 * c.SYNC_LENGTH) 2 < 0 then RESET else COPY_PREAMBLE },
        published := [], consumed := c.SYNC_LENGTH, search_hits := [] } := by
  have h := sync_loops_ring c inp
    ({ s with d_correlation := filterN s.d_fir inp c.SYNC_LENGTH } : phy_rx_impl P)
    (rd (filterN s.d_fir inp c.SYNC_LENGTH) 0 *
      rd (filterN s.d_fir inp c.SYNC_LENGTH) c.SYNCP_SIZE) hS
  unfold work_sync
  simp only [h, sync_max_index]
  split_ifs <;> rfl

/-- C11: in SYNC, for every correlation vector `d_correlation`, the `max_index`
the first loop computes over the range `[0, SYNC_LENGTH - SYNCP_SIZE)` lies in
that range, maximises the product
`d_correlation[i] * d_correlation[i + SYNCP_SIZE]` over it, and is the smallest
index that does: every smaller index has a strictly smaller product, so ties
resolve to the smaller index. -/
theorem sync_argmax (c : constants) (inp : Int → ℚ) (s : phy_rx_impl P)
    (hS : 0 < c.SYNCP_SIZE) :
    let m := sync_max_index c inp s
    (0 ≤ m ∧ m < c.SYNC_LENGTH - c.SYNCP_SIZE) ∧
    (∀ i : Int, 0 ≤ i → i < c.SYNC_LENGTH - c.SYNCP_SIZE →
      sync_product c s.d_correlation i ≤ sync_product c s.d_correlation m) ∧
    (∀ i : Int, 0 ≤ i → i < m →
      sync_product c s.d_correlation i < sync_product c s.d_correlation m) ∧
    (∀ k : Int, 0 ≤ k → k < c.SYNC_LENGTH - c.SYNCP_SIZE →
      (∀ i : Int, 0 ≤ i → i < c.SYNC_LENGTH - c.SYNCP_SIZE →
        sync_product c s.d_correlation i ≤ sync_product c s.d_correlation k) → m ≤ k) := by
  intro m
  have hSL : c.SYNC_LENGTH = 2 * c.SYNCP_SIZE := rfl
  obtain ⟨h1, h2, h3, h4⟩ := sync_loop1_argmax c inp s.d_correlation
    (c.SYNC_LENGTH - c.SYNCP_SIZE).toNat s 0 0
    (rd s.d_correlation 0 * rd s.d_correlation c.SYNCP_SIZE) rfl (by omega) (le_refl 0)
    (by simp [sync_product]) (le_refl 0) (Or.inr rfl)
    (fun j hj0 hj => by omega) (fun j hj0 hj => by omega)
  have hm : m < c.SYNC_LENGTH - c.SYNCP_SIZE := by
    rcases h2 with h | h
    · exact h
    · have : m = 0 := h
      omega
  refine ⟨⟨h1, hm⟩, h3, h4, ?_⟩
  intro k hk0 hk hmax
  by_contra hlt
  have hklt : k < m := by omega
  have a : sync_product c s.d_correlation k < sync_product c s.d_correlation m :=
    h4 k hk0 hklt
  have b : sync_product c s.d_correlation m ≤ sync_product c s.d_correlation k :=
    hmax m h1 hm
  exact lt_irrefl _ (lt_of_lt_of_le a b)

/-- Witness of C11: `SYNCP_SIZE = 2` and the correlation vector 1, 3, 3, 1, whose
products 3 and 3 tie; `max_index` is 0. -/
theorem sync_argmax_witness :
    (0 ≤ sync_max_index demo_constants2 ramp (demo_sync_rx SYNC [1, 3, 3, 1]) ∧
      sync_max_index demo_constants2 ramp (demo_sync_rx SYNC [1, 3, 3, 1]) <
        demo_constants2.SYNC_LENGTH - demo_constants2.SYNCP_SIZE) ∧
    sync_product demo_constants2 [1, 3, 3, 1] 0 = sync_product demo_constants2 [1, 3, 3, 1] 1 ∧
    sync_max_index demo_constants2 ramp (demo_sync_rx SYNC [1, 3, 3, 1]) = 0 :=
  ⟨(sync_argmax demo_constants2 ramp (demo_sync_rx SYNC [1, 3, 3, 1]) (by decide)).1,
    by decide!, by decide!⟩

/-- C12: a call of `work` in SYNC consumes exactly `SYNC_LENGTH` samples, puts all
of them, in order, into the circular preamble buffer, and sets `d_frame_start`
to the `int` value of `2.5*SYNCP_SIZE + max_index - i` with `i = SYNC_LENGTH`
(the value itself for even `SYNCP_SIZE`, its integer part otherwise); the next
state is RESET if `d_frame_start` is negative and COPY_PREAMBLE otherwise.
Nothing is published and no other field but `d_correlation` changes. -/
theorem sync_step (c : constants) (ops : phy_service_ops P) (ninput : Int) (inp : Int → ℚ)
    (s : phy_rx_impl P) (hst : s.d_receiver_state = SYNC) (hS : 0 ≤ c.SYNCP_SIZE) :
    let w := work c ops ninput inp s
    let m := sync_max_index c inp { s with d_correlation := filterN s.d_fir inp c.SYNC_LENGTH }
    w.consumed = c.SYNC_LENGTH ∧ w.published = [] ∧
    (w.rx.d_preamble, w.rx.d_preamble_offset) =
      ring_append c (s.d_preamble, s.d_preamble_offset)
        (stream_slice inp 0 c.SYNC_LENGTH.toNat) ∧
    w.rx.d_frame_start = Int.tdiv (5 * c.SYNCP_SIZE + 2 * m - 2 * c.SYNC_LENGTH) 2 ∧
    ((w.rx.d_frame_start : ℚ) ≤ 5 / 2 * (c.SYNCP_SIZE : ℚ) + (m : ℚ) - (c.SYNC_LENGTH : ℚ) ∧
      5 / 2 * (c.SYNCP_SIZE : ℚ) + (m : ℚ) - (c.SYNC_LENGTH : ℚ) <
        (w.rx.d_frame_start : ℚ) + 1) ∧
    (2 ∣ c.SYNCP_SIZE →
      (w.rx.d_frame_start : ℚ) =
        5 / 2 * (c.SYNCP_SIZE : ℚ) + (m : ℚ) - (c.SYNC_LENGTH : ℚ)) ∧
    (w.rx.d_frame_start < 0 → w.rx.d_receiver_state = RESET) ∧
    (0 ≤ w.rx.d_frame_start → w.rx.d_receiver_state = COPY_PREAMBLE) ∧
    w.rx = { s with
      d_correlation := filterN s.d_fir inp c.SYNC_LENGTH
      d_preamble := w.rx.d_preamble
      d_preamble_offset := w.rx.d_preamble_offset
      d_frame_start := w.rx.d_frame_start
      d_receiver_state := w.rx.d_receiver_state } := by
  intro w m
  have hSL : c.SYNC_LENGTH = 2 * c.SYNCP_SIZE := rfl
  have hw : w = _ := (work_in_sync c ops ninput inp s hst).trans (work_sync_eq c inp s hS)
  have hm0 : 0 ≤ m := by
    have := sync_loop1_argmax c inp (filterN s.d_fir inp c.SYNC_LENGTH)
      (c.SYNC_LENGTH - c.SYNCP_SIZE).toNat
      ({ s with d_correlation := filterN s.d_fir inp c.SYNC_LENGTH } : phy_rx_impl P) 0 0
      (rd (filterN s.d_fir inp c.SYNC_LENGTH) 0 *
        rd (filterN s.d_fir inp c.SYNC_LENGTH) c.SYNCP_SIZE) rfl (by omega) (le_refl 0)
      (by simp [sync_product]) (le_refl 0) (Or.inr rfl)
      (fun j hj0 hj => by omega) (fun j hj0 hj => by omega)
    exact this.1
  have hd : w.rx.d_frame_start = Int.tdiv (5 * c.SYNCP_SIZE + 2 * m - 2 * c.SYNC_LENGTH) 2 := by
    rw [hw]
  have hd2 : w.rx.d_frame_start = (c.SYNCP_SIZE + 2 * m) / 2 := by
    rw [hd, Int.tdiv_eq_ediv (by omega) (by omega)]
    congr 1
    omega
  have hnn : 0 ≤ w.rx.d_frame_start := by rw [hd2]; omega
  have hst2 : w.rx.d_receiver_state =
      if w.rx.d_frame_start < 0 then RESET else COPY_PREAMBLE := by
    rw [hd, hw]
  refine ⟨by rw [hw], by rw [hw], by rw [hw], hd, ⟨?_, ?_⟩, ?_, ?_, ?_, ?_⟩
  · have h2 : 2 * w.rx.d_frame_start ≤ c.SYNCP_SIZE + 2 * m := by rw [hd2]; omega
    have h2q : (2 : ℚ) * (w.rx.d_frame_start : ℚ) ≤ (c.SYNCP_SIZE : ℚ) + 2 * (m : ℚ) := by
      exact_mod_cast h2
    rw [hSL]; push_cast; linarith
  · have h2 : c.SYNCP_SIZE + 2 * m < 2 * w.rx.d_frame_start + 2 := by rw [hd2]; omega
    have h2q : (c.SYNCP_SIZE : ℚ) + 2 * (m : ℚ) < 2 * (w.rx.d_frame_start : ℚ) + 2 := by
      exact_mod_cast h2
    rw [hSL]; push_cast; linarith
  · intro heven
    have h2 : 2 * w.rx.d_frame_start = c.SYNCP_SIZE + 2 * m := by rw [hd2]; omega
    have h2q : (2 : ℚ) * (w.rx.d_frame_start : ℚ) = (c.SYNCP_SIZE : ℚ) + 2 * (m : ℚ) := by
      exact_mod_cast h2
    rw [hSL]; push_cast; linarith
  · intro hneg; rw [hst2, if_pos hneg]
  · intro hpos; rw [hst2, if_neg (by omega)]
  · rw [hw]

/-- Witness of C12: `SYNCP_SIZE = 2`, correlation filter taps `[1, 0]`, the ramp
stream; the call consumes 4 samples and sets `d_frame_start = 1 + max_index`. -/
theorem sync_step_witness :
    (work demo_constants2 (demo_ops MPDU_TYPE_SOF true) 5 ramp
      (demo_sync_rx SYNC [])).consumed = 4 ∧
    (work demo_constants2 (demo_ops MPDU_TYPE_SOF true) 5 ramp
      (demo_sync_rx SYNC [])).rx.d_receiver_state = COPY_PREAMBLE ∧
    (work demo_constants2 (demo_ops MPDU_TYPE_SOF true) 5 ramp
      (demo_sync_rx SYNC [])).rx.d_frame_start = 2 ∧
    (work demo_constants2 (demo_ops MPDU_TYPE_SOF true) 5 ramp
      (demo_sync_rx SYNC [])).rx.d_preamble = [0, 1, 2, 3] ++ List.replicate 16 0 := by
  have h := sync_step demo_constants2 (demo_ops MPDU_TYPE_SOF true) 5 ramp
    (demo_sync_rx SYNC []) rfl (by decide)
  refine ⟨h.1, ?_, ?_, ?_⟩
  · exact h.2.2.2.2.2.2.2.1 (by decide!)
  · decide!
  · decide!

/-- C16: for `SYNCP_SIZE > 0` and every input, SYNC yields `max_index` in
`[0, SYNCP_SIZE)` and `d_frame_start = SYNCP_SIZE/2 + max_index`, which lies in
`[SYNCP_SIZE/2, 3*SYNCP_SIZE/2)` and is not negative; the call always moves to
COPY_PREAMBLE, never to RESET. -/
theorem sync_never_resets (c : constants) (ops : phy_service_ops P) (ninput : Int)
    (inp : Int → ℚ) (s : phy_rx_impl P) (hst : s.d_receiver_state = SYNC)
    (hS : 0 < c.SYNCP_SIZE) :
    let w := work c ops ninput inp s
    let m := sync_max_index c inp { s with d_correlation := filterN s.d_fir inp c.SYNC_LENGTH }
    (0 ≤ m ∧ m < c.SYNCP_SIZE) ∧
    w.rx.d_frame_start = c.SYNCP_SIZE / 2 + m ∧
    (c.SYNCP_SIZE / 2 ≤ w.rx.d_frame_start ∧ 2 * w.rx.d_frame_start < 3 * c.SYNCP_SIZE) ∧
    0 ≤ w.rx.d_frame_start ∧
    w.rx.d_receiver_state = COPY_PREAMBLE ∧ w.rx.d_receiver_state ≠ RESET := by
  intro w m
  have hSL : c.SYNC_LENGTH = 2 * c.SYNCP_SIZE := rfl
  have hw : w = _ := (work_in_sync c ops ninput inp s hst).trans
    (work_sync_eq c inp s (le_of_lt hS))
  obtain ⟨h1, h2, _, _⟩ := sync_loop1_argmax c inp (filterN s.d_fir inp c.SYNC_LENGTH)
    (c.SYNC_LENGTH - c.SYNCP_SIZE).toNat
    ({ s with d_correlation := filterN s.d_fir inp c.SYNC_LENGTH } : phy_rx_impl P) 0 0
    (rd (filterN s.d_fir inp c.SYNC_LENGTH) 0 *
      rd (filterN s.d_fir inp c.SYNC_LENGTH) c.SYNCP_SIZE) rfl (by omega) (le_refl 0)
    (by simp [sync_product]) (le_refl 0) (Or.inr rfl)
    (fun j hj0 hj => by omega) (fun j hj0 hj => by omega)
  have hm0 : 0 ≤ m := h1
  have hmS : m < c.SYNCP_SIZE := by
    rcases h2 with h | h
    · have : m < c.SYNC_LENGTH - c.SYNCP_SIZE := h
      omega
    · have : m = 0 := h
      omega
  have hd : w.rx.d_frame_start = Int.tdiv (5 * c.SYNCP_SIZE + 2 * m - 2 * c.SYNC_LENGTH) 2 := by
    rw [hw]
  have hd2 : w.rx.d_frame_start = c.SYNCP_SIZE / 2 + m := by
    rw [hd, Int.tdiv_eq_ediv (by omega) (by omega)]
    omega
  have hst2 : w.rx.d_receiver_state =
      if w.rx.d_frame_start < 0 then RESET else COPY_PREAMBLE := by
    rw [hd, hw]
  have hnn : 0 ≤ w.rx.d_frame_start := by rw [hd2]; omega
  have hcp : w.rx.d_receiver_state = COPY_PREAMBLE := by rw [hst2, if_neg (by omega)]
  refine ⟨⟨hm0, hmS⟩, hd2, ⟨by rw [hd2]; omega, by rw [hd2]; omega⟩, hnn, hcp, ?_⟩
  rw [hcp]; decide

/-- Witness of C16: the SYNC call of the demo receiver with `SYNCP_SIZE = 2`. -/
theorem sync_never_resets_witness :
    (work demo_constants2 (demo_ops MPDU_TYPE_SOF true) 5 ones
      (demo_sync_rx SYNC [])).rx.d_receiver_state = COPY_PREAMBLE ∧
    0 ≤ (work demo_constants2 (demo_ops MPDU_TYPE_SOF true) 5 ones
      (demo_sync_rx SYNC [])).rx.d_frame_start :=
  have h := sync_never_resets demo_constants2 (demo_ops MPDU_TYPE_SOF true) 5 ones
    (demo_sync_rx SYNC []) rfl (by decide)
  ⟨h.2.2.2.2.1, h.2.2.2.1⟩

/-! ## COPY_PREAMBLE -/

theorem ring_append_length (c : constants) (l : List ℚ) :
    ∀ rg : List ℚ × Int, (ring_append c rg l).1.length = rg.1.length := by
  induction l with
  | nil => intro rg; rfl
  | cons v l ih =>
    intro rg
    simp only [ring_append, List.foldl_cons] at ih ⊢
    rw [ih]
    simp only [ring_put, wr_length]

theorem ring_put_offset (c : constants) (rg : List ℚ × Int) (v : ℚ)
    (hN : 0 < c.PREAMBLE_SIZE) (h0 : 0 ≤ rg.2) :
    (ring_put c rg v).2 = (rg.2 + 1) % c.PREAMBLE_SIZE := by
  simp only [ring_put]
  exact Int.tmod_eq_emod (by omega) (by omega)

theorem ring_append_offset_bounds (c : constants) (hN : 0 < c.PREAMBLE_SIZE) (l : List ℚ) :
    ∀ rg : List ℚ × Int, 0 ≤ rg.2 → rg.2 < c.PREAMBLE_SIZE →
      0 ≤ (ring_append c rg l).2 ∧ (ring_append c rg l).2 < c.PREAMBLE_SIZE := by
  induction l with
  | nil => intro rg h0 h1; exact ⟨h0, h1⟩
  | cons v l ih =>
    intro rg h0 h1
    simp only [ring_append, List.foldl_cons] at ih ⊢
    apply ih
    · rw [ring_put_offset c rg v hN h0]
      exact Int.emod_nonneg _ (by omega)
    · rw [ring_put_offset c rg v hN h0]
      exact Int.emod_lt_of_pos _ hN

/-- The COPY_PREAMBLE loop puts `m` samples into the circular buffer, counting
them in `d_sync_offset`, when `m` more samples are at hand and wanted and the
loop guard fails after them. -/
theorem copy_preamble_loop_eq (c : constants) (inp : Int → ℚ) (ninput : Int) (m : Nat) :
    ∀ (fuel : Nat) (s : phy_rx_impl P) (i : Int),
      m ≤ fuel → i + m ≤ ninput → s.d_sync_offset + m ≤ s.d_frame_start →
      (i + m = ninput ∨ s.d_sync_offset + m = s.d_frame_start) →
      copy_preamble_loop c inp ninput fuel s i =
        ({ s with
            d_preamble := (ring_append c (s.d_preamble, s.d_preamble_offset)
              (stream_slice inp i m)).1
            d_preamble_offset := (ring_append c (s.d_preamble, s.d_preamble_offset)
              (stream_slice inp i m)).2
            d_sync_offset := s.d_sync_offset + m }, i + m) := by
  induction m with
  | zero =>
    intro fuel s i _ _ _ hexit
    have hg : ¬ (i < ninput ∧ s.d_sync_offset < s.d_frame_start) := by
      simp only [Nat.cast_zero, add_zero] at hexit
      omega
    cases fuel with
    | zero => simp [copy_preamble_loop, stream_slice, ring_append]
    | succ f => simp [copy_preamble_loop, hg, stream_slice, ring_append]
  | succ m ih =>
    intro fuel s i hf hin hfs hexit
    obtain ⟨f, rfl⟩ : ∃ f, fuel = f + 1 := ⟨fuel - 1, by omega⟩
    have hg : i < ninput ∧ s.d_sync_offset < s.d_frame_start := by
      push_cast at hin hfs; omega
    rw [copy_preamble_loop]
    simp only [hg, and_self, if_true, stream_slice_cons]
    rw [ih f _ (i + 1) (by omega) (by push_cast at hin; omega)
      (by show s.d_sync_offset + 1 + (m : Int) ≤ s.d_frame_start; push_cast at hfs; omega)
      (by show i + 1 + (m : Int) = ninput ∨ s.d_sync_offset + 1 + (m : Int) = s.d_frame_start
          push_cast at hexit; omega)]
    refine Prod.ext ?_ (by show i + 1 + (m : Int) = i + ((m + 1 : Nat) : Int); push_cast; ring)
    simp only [preamble_put_ring, ring_append, List.foldl_cons]
    have e : s.d_sync_offset + 1 + (m : Int) = s.d_sync_offset + ((m + 1 : Nat) : Int) := by
      push_cast; ring
    rw [e]

/-- The rotation `d_preamble[offset..] ++ d_preamble[..offset]` of a full
circular buffer: entry `k` is the slot `(offset + k) mod PREAMBLE_SIZE`. -/
theorem rotation_spec (N : Int) (buf : List ℚ) (off : Int) (hlen : (buf.length : Int) = N)
    (h0 : 0 ≤ off) (h1 : off < N) :
    ((buf.drop off.toNat ++ buf.take off.toNat).length : Int) = N ∧
    ∀ k : Int, 0 ≤ k → k < N →
      rd (buf.drop off.toNat ++ buf.take off.toNat) k = rd buf ((off + k) % N) := by
  constructor
  · simp only [List.length_append, List.length_drop, List.length_take]
    omega
  · intro k hk0 hk
    have hmod0 : 0 ≤ (off + k) % N := Int.emod_nonneg _ (by omega)
    simp only [rd, hk0, hmod0, if_true, List.getD_eq_getElem?_getD, List.getElem?_append,
      List.length_drop, List.getElem?_drop, List.getElem?_take]
    by_cases hlt : off + k < N
    · have e : (off + k) % N = off + k := Int.emod_eq_of_lt (by omega) hlt
      have h2 : k.toNat < buf.length - off.toNat := by omega
      rw [if_pos h2, e]
      congr 2
      omega
    · have e : (off + k) % N = off + k - N := by
        have := @Int.add_mul_emod_self (off + k - N) 1 N
        rw [show off + k - N + 1 * N = off + k by ring] at this
        rw [this]
        exact Int.emod_eq_of_lt (by omega) (by omega)
      have h2 : ¬ (k.toNat < buf.length - off.toNat) := by omega
      have h3 : k.toNat - (buf.length - off.toNat) < off.toNat := by omega
      rw [if_neg h2, if_pos h3, e]
      congr 2
      omega

theorem work_in_copy_preamble (c : constants) (ops : phy_service_ops P) (n : Int)
    (inp : Int → ℚ) (s : phy_rx_impl P) (hst : s.d_receiver_state = COPY_PREAMBLE) :
    work c ops n inp s = work_copy_preamble c ops n inp s := by
  simp only [work, hst]

/-- The loop of a COPY_PREAMBLE call in closed form: the call copies
`min(ninput, d_frame_start - d_sync_offset)` samples. -/
theorem copy_preamble_call_loop (c : constants) (inp : Int → ℚ) (ninput : Int)
    (s : phy_rx_impl P) (hn : 0 ≤ ninput) (hle : s.d_sync_offset ≤ s.d_frame_start) :
    copy_preamble_loop c inp ninput ninput.toNat s 0 =
      ({ s with
          d_preamble := (ring_append c (s.d_preamble, s.d_preamble_offset)
            (stream_slice inp 0 (min ninput (s.d_frame_start - s.d_sync_offset)).toNat)).1
          d_preamble_offset := (ring_append c (s.d_preamble, s.d_preamble_offset)
            (stream_slice inp 0 (min ninput (s.d_frame_start - s.d_sync_offset)).toNat)).2
          d_sync_offset := s.d_sync_offset + min ninput (s.d_frame_start - s.d_sync_offset) },
        min ninput (s.d_frame_start - s.d_sync_offset)) := by
  have hm0 : 0 ≤ min ninput (s.d_frame_start - s.d_sync_offset) := le_min hn (by omega)
  have hc : (((min ninput (s.d_frame_start - s.d_sync_offset)).toNat : Nat) : Int) =
      min ninput (s.d_frame_start - s.d_sync_offset) := Int.toNat_of_nonneg hm0
  have h1 : min ninput (s.d_frame_start - s.d_sync_offset) ≤ ninput := min_le_left _ _
  have h2 : min ninput (s.d_frame_start - s.d_sync_offset) ≤ s.d_frame_start - s.d_sync_offset :=
    min_le_right _ _
  have h3 : min ninput (s.d_frame_start - s.d_sync_offset) = ninput ∨
      min ninput (s.d_frame_start - s.d_sync_offset) = s.d_frame_start - s.d_sync_offset := by
    rcases le_total ninput (s.d_frame_start - s.d_sync_offset) with h | h
    · left; exact min_eq_left h
    · right; exact min_eq_right h
  have h := copy_preamble_loop_eq c inp ninput
    (min ninput (s.d_frame_start - s.d_sync_offset)).toNat ninput.toNat s 0
    (by omega) (by omega) (by omega) (by omega)
  rw [h, hc, zero_add]

/-- C13: a call of `work` in COPY_PREAMBLE copies
`min(ninput, d_frame_start - d_sync_offset)` samples into the circular buffer and
consumes exactly those. Once `d_sync_offset` equals `d_frame_start`, the buffer
handed to `process_ppdu_preamble` has length `PREAMBLE_SIZE = 10 * SYNCP_SIZE` and
is the rotation of the circular buffer that starts at the write position:
`aligned[k] = d_preamble[(d_preamble_offset + k) mod PREAMBLE_SIZE]`; the state
becomes COPY_FRAME_CONTROL. Otherwise the state and the service are unchanged. -/
theorem copy_preamble_step (c : constants) (ops : phy_service_ops P) (ninput : Int)
    (inp : Int → ℚ) (s : phy_rx_impl P)
    (hst : s.d_receiver_state = COPY_PREAMBLE) (hn : 0 ≤ ninput)
    (hle : s.d_sync_offset ≤ s.d_frame_start)
    (hS : 0 < c.SYNCP_SIZE)
    (hlen : (s.d_preamble.length : Int) = c.PREAMBLE_SIZE)
    (hoff : 0 ≤ s.d_preamble_offset ∧ s.d_preamble_offset < c.PREAMBLE_SIZE) :
    let w := work c ops ninput inp s
    let m := min ninput (s.d_frame_start - s.d_sync_offset)
    let aligned := w.rx.d_preamble.drop w.rx.d_preamble_offset.toNat ++
      w.rx.d_preamble.take w.rx.d_preamble_offset.toNat
    w.consumed = m ∧ w.published = [] ∧
    w.rx.d_sync_offset = s.d_sync_offset + m ∧ w.rx.d_sync_offset ≤ s.d_frame_start ∧
    w.rx.d_frame_start = s.d_frame_start ∧
    (w.rx.d_preamble, w.rx.d_preamble_offset) =
      ring_append c (s.d_preamble, s.d_preamble_offset) (stream_slice inp 0 m.toNat) ∧
    ((w.rx.d_preamble.length : Int) = c.PREAMBLE_SIZE ∧
      0 ≤ w.rx.d_preamble_offset ∧ w.rx.d_preamble_offset < c.PREAMBLE_SIZE) ∧
    (s.d_sync_offset + m = s.d_frame_start →
      w.rx.d_receiver_state = COPY_FRAME_CONTROL ∧
      w.rx.d_phy_service = ops.process_ppdu_preamble s.d_phy_service aligned ∧
      (aligned.length : Int) = c.PREAMBLE_SIZE ∧
      c.PREAMBLE_SIZE = 10 * c.SYNCP_SIZE ∧
      ∀ k : Int, 0 ≤ k → k < c.PREAMBLE_SIZE →
        rd aligned k = rd w.rx.d_preamble ((w.rx.d_preamble_offset + k) % c.PREAMBLE_SIZE)) ∧
    (s.d_sync_offset + m < s.d_frame_start →
      w.rx.d_receiver_state = COPY_PREAMBLE ∧ w.rx.d_phy_service = s.d_phy_service) := by
  intro w m aligned
  have hN : 0 < c.PREAMBLE_SIZE := by unfold constants.PREAMBLE_SIZE; omega
  have hloop := copy_preamble_call_loop c inp ninput s hn hle
  have hw : w = work_copy_preamble c ops ninput inp s :=
    work_in_copy_preamble c ops ninput inp s hst
  have hm2 : m ≤ s.d_frame_start - s.d_sync_offset := min_le_right _ _
  have hb := ring_append_offset_bounds c hN (stream_slice inp 0 m.toNat)
    (s.d_preamble, s.d_preamble_offset) hoff.1 hoff.2
  have hl := ring_append_length c (stream_slice inp 0 m.toNat)
    (s.d_preamble, s.d_preamble_offset)
  have hring : (w.rx.d_preamble, w.rx.d_preamble_offset) =
      ring_append c (s.d_preamble, s.d_preamble_offset) (stream_slice inp 0 m.toNat) := by
    rw [hw]
    simp only [work_copy_preamble, hloop]
    split_ifs <;> rfl
  have hbuf : w.rx.d_preamble =
      (ring_append c (s.d_preamble, s.d_preamble_offset) (stream_slice inp 0 m.toNat)).1 := by
    rw [← hring]
  have hof : w.rx.d_preamble_offset =
      (ring_append c (s.d_preamble, s.d_preamble_offset) (stream_slice inp 0 m.toNat)).2 := by
    rw [← hring]
  have hsync : w.rx.d_sync_offset = s.d_sync_offset + m := by
    rw [hw]
    simp only [work_copy_preamble, hloop]
    split_ifs <;> rfl
  have hlen2 : (w.rx.d_preamble.length : Int) = c.PREAMBLE_SIZE := by
    rw [hbuf, hl]; exact hlen
  refine ⟨?_, ?_, hsync, by rw [hsync]; omega, ?_, hring,
    ⟨hlen2, by rw [hof]; exact hb.1, by rw [hof]; exact hb.2⟩, ?_, ?_⟩
  · rw [hw]
    simp only [work_copy_preamble, hloop]
    split_ifs <;> rfl
  · rw [hw]
    simp only [work_copy_preamble, hloop]
    split_ifs <;> rfl
  · rw [hw]
    simp only [work_copy_preamble, hloop]
    split_ifs <;> rfl
  · intro hreach
    have hrot := rotation_spec c.PREAMBLE_SIZE w.rx.d_preamble w.rx.d_preamble_offset hlen2
      (by rw [hof]; exact hb.1) (by rw [hof]; exact hb.2)
    refine ⟨?_, ?_, hrot.1, rfl.trans (mul_comm _ _), hrot.2⟩
    · rw [hw]
      simp only [work_copy_preamble, hloop]
      rw [if_pos hreach]
    · show w.rx.d_phy_service = ops.process_ppdu_preamble s.d_phy_service
        (w.rx.d_preamble.drop w.rx.d_preamble_offset.toNat ++
          w.rx.d_preamble.take w.rx.d_preamble_offset.toNat)
      rw [hbuf, hof, hw]
      simp only [work_copy_preamble, hloop]
      rw [if_pos hreach]
  · intro hbelow
    have hne : ¬ (s.d_sync_offset + m = s.d_frame_start) := by omega
    constructor
    · rw [hw]
      simp only [work_copy_preamble, hloop]
      rw [if_neg hne]
      exact hst
    · rw [hw]
      simp only [work_copy_preamble, hloop]
      rw [if_neg hne]

/-- Witness of C13: two samples are missing, five are at hand; the call copies
and consumes two and hands the rotated buffer over. -/
theorem copy_preamble_step_witness :
    (work demo_constants (demo_ops MPDU_TYPE_SOF true) 5 ramp demo_preamble_rx).consumed = 2 ∧
    (work demo_constants (demo_ops MPDU_TYPE_SOF true) 5 ramp
      demo_preamble_rx).rx.d_receiver_state = COPY_FRAME_CONTROL ∧
    (work demo_constants (demo_ops MPDU_TYPE_SOF true) 5 ramp
      demo_preamble_rx).rx.d_preamble = [0, 1, 0, 0, 0, 0, 0, 0, 0, 0] ∧
    (work demo_constants (demo_ops MPDU_TYPE_SOF true) 5 ramp
      demo_preamble_rx).rx.d_preamble_offset = 2 := by
  have h := copy_preamble_step demo_constants (demo_ops MPDU_TYPE_SOF true) 5 ramp
    demo_preamble_rx rfl (by decide) (by decide) (by decide) (by decide) (by decide)
  exact ⟨h.1, (h.2.2.2.2.2.2.2.1 (by decide)).1, by decide!, by decide!⟩

/-! ## The correlation filter -/

/-- C14 as stated fails: with `SYNCP_SIZE = 2` and the reference preamble
0, 1, ..., 19 the filter has the taps 16, 15, the reverse of the window
`preamble[15..17)`; the reverse of the last window would start with
`preamble[19] = 19`. -/
theorem filter_taps_not_last_window :
    (phy_rx_impl_new demo_constants2 demo_preamble_ops ()).d_fir = [16, 15] ∧
    demo_constants2.PREAMBLE_SIZE = 20 ∧
    rd (demo_preamble_ops.preamble ()) (demo_constants2.PREAMBLE_SIZE - 1 - 0) = 19 ∧
    rd (phy_rx_impl_new demo_constants2 demo_preamble_ops ()).d_fir 0 ≠
      rd (demo_preamble_ops.preamble ()) (demo_constants2.PREAMBLE_SIZE - 1 - 0) := by
  decide!

/-- C14 (amended): the correlation filter built by the constructor has exactly
`SYNCP_SIZE` taps, the reverse of the `SYNCP_SIZE`-long window of the reference
preamble that ends at `8.5 * SYNCP_SIZE` (1.5 SYNCP before the end of the
preamble): `taps[k] = preamble[8.5*SYNCP_SIZE - 1 - k]` for `k` in
`[0, SYNCP_SIZE)`, the offset `8.5*SYNCP_SIZE` truncated to an integer. -/
theorem filter_taps (c : constants) (ops : phy_service_ops P) (phy : P)
    (hS : 0 ≤ c.SYNCP_SIZE)
    (hlen : ((ops.preamble phy).length : Int) = c.PREAMBLE_SIZE) :
    ((phy_rx_impl_new c ops phy).d_fir.length : Int) = c.SYNCP_SIZE ∧
    (∀ k : Int, 0 ≤ k → k < c.SYNCP_SIZE →
      rd (phy_rx_impl_new c ops phy).d_fir k =
        rd (ops.preamble phy) (Int.tdiv (17 * c.SYNCP_SIZE) 2 - 1 - k)) ∧
    (2 ∣ c.SYNCP_SIZE → ∀ k : Int, 0 ≤ k → k < c.SYNCP_SIZE →
      rd (phy_rx_impl_new c ops phy).d_fir k =
        rd (ops.preamble phy) (c.PREAMBLE_SIZE - 3 * (c.SYNCP_SIZE / 2) - 1 - k)) := by
  have hN : c.PREAMBLE_SIZE = c.SYNCP_SIZE * 10 := rfl
  have h15 : Int.tdiv (15 * c.SYNCP_SIZE) 2 = (15 * c.SYNCP_SIZE) / 2 :=
    Int.tdiv_eq_ediv (by omega) (by omega)
  have h17 : Int.tdiv (17 * c.SYNCP_SIZE) 2 = (17 * c.SYNCP_SIZE) / 2 :=
    Int.tdiv_eq_ediv (by omega) (by omega)
  have hlenfir : (phy_rx_impl_new c ops phy).d_fir.length = c.SYNCP_SIZE.toNat := by
    simp only [phy_rx_impl_new, List.length_reverse, List.length_take, List.length_drop, h15, h17]
    omega
  have hmain : ∀ k : Int, 0 ≤ k → k < c.SYNCP_SIZE →
      rd (phy_rx_impl_new c ops phy).d_fir k =
        rd (ops.preamble phy) (Int.tdiv (17 * c.SYNCP_SIZE) 2 - 1 - k) := by
    intro k hk0 hk
    have hidx : 0 ≤ Int.tdiv (17 * c.SYNCP_SIZE) 2 - 1 - k := by rw [h17]; omega
    have hkl : k.toNat < (phy_rx_impl_new c ops phy).d_fir.length := by rw [hlenfir]; omega
    simp only [rd, hk0, hidx, if_true, List.getD_eq_getElem?_getD]
    have hkl2 := hkl
    simp only [phy_rx_impl_new, List.length_reverse] at hkl2
    simp only [phy_rx_impl_new]
    rw [List.getElem?_reverse hkl2, List.getElem?_take, List.getElem?_drop]
    simp only [List.length_take, List.length_drop, h15, h17] at hkl2 ⊢
    rw [if_pos (by omega)]
    congr 2
    omega
  refine ⟨by rw [hlenfir]; omega, hmain, ?_⟩
  intro heven k hk0 hk
  rw [hmain k hk0 hk, h17]
  congr 1
  omega

/-- Witness of C14 (amended): `SYNCP_SIZE = 2`, reference preamble 0, 1, ..., 19:
two taps, `taps[k] = preamble[16 - k]`. -/
theorem filter_taps_witness :
    ((phy_rx_impl_new demo_constants2 demo_preamble_ops ()).d_fir.length : Int) = 2 ∧
    rd (phy_rx_impl_new demo_constants2 demo_preamble_ops ()).d_fir 1 =
      rd (demo_preamble_ops.preamble ()) 15 :=
  have h := filter_taps demo_constants2 demo_preamble_ops () (by decide) (by decide)
  ⟨h.1, h.2.1 1 (by decide) (by decide)⟩

/-! ## `app_in_impl::general_work` -/

theorem getD_some_lt (heap : heap_t) (a : Nat) (obj : heap_obj)
    (h : heap.getD a none = some obj) : a < heap.length := by
  by_contra hlt
  rw [List.getD_eq_getElem?_getD, List.getElem?_eq_none (by omega)] at h
  exact absurd h (by simp)

/-- The release of the last handle frees the object. -/
theorem release_last (heap : heap_t) (a : Nat) (obj : heap_obj)
    (h : heap.getD a none = some obj) (hr : obj.refs ≤ 1) :
    (release heap a).getD a none = none := by
  have hlt := getD_some_lt heap a obj h
  unfold release
  rw [h]
  simp only [if_pos hr]
  rw [List.getD_eq_getElem?_getD, List.getElem?_set_self hlt]
  rfl

/-- The release of a handle that is not the last leaves the object allocated
with its value. -/
theorem release_shared (heap : heap_t) (a : Nat) (obj : heap_obj)
    (h : heap.getD a none = some obj) (hr : 2 ≤ obj.refs) :
    (release heap a).getD a none = some { obj with refs := obj.refs - 1 } := by
  have hlt := getD_some_lt heap a obj h
  unfold release
  rw [h]
  simp only [if_neg (by omega : ¬ obj.refs ≤ 1)]
  rw [List.getD_eq_getElem?_getD, List.getElem?_set_self hlt]
  rfl

theorem msdu_elements_of (heap : heap_t) (a : Nat) (obj : heap_obj) (dict : pmt_t)
    (p : List Nat) (h : heap.getD a none = some obj)
    (hv : obj.value = cons (mp "MAC-RXMSDU") dict)
    (hp : dict_ref dict (mp "msdu") pmt_t.PMT_NIL = pmt_t.u8vector p) :
    msdu_elements heap a = some p := by
  unfold msdu_elements
  rw [h]
  simp only [hv, cons, cdr, hp, u8vector_elements]

/-- A message that is not a `MAC-RXMSDU` command is taken from the queue,
released and skipped. -/
theorem dequeue_loop_skip (s : app_in_impl) (b : Nat) (q : List Nat) (heap : heap_t)
    (obj : heap_obj) (h : heap.getD b none = some obj) (hj : is_rxmsdu obj.value = false) :
    dequeue_loop s (b :: q) heap = dequeue_loop s q (release heap b) := by
  unfold is_rxmsdu at hj
  rw [dequeue_loop, h]
  simp only []
  by_cases h1 : (is_pair obj.value && is_symbol (car obj.value) && is_dict (cdr obj.value)) = true
  · rw [if_pos h1]
    rw [h1] at hj
    have h2 : ¬ symbol_to_string (car obj.value) = "MAC-RXMSDU" := by simpa using hj
    rw [if_neg h2]
  · rw [if_neg h1]

/-- A `MAC-RXMSDU` command at the head of the queue: the block keeps the
address and the length, the handle taken from the queue is released. -/
theorem dequeue_loop_hit (s : app_in_impl) (a : Nat) (q : List Nat) (heap : heap_t)
    (obj : heap_obj) (dict : pmt_t) (p : List Nat)
    (h : heap.getD a none = some obj)
    (hv : obj.value = cons (mp "MAC-RXMSDU") dict)
    (hd : is_dict dict = true)
    (hp : dict_ref dict (mp "msdu") pmt_t.PMT_NIL = pmt_t.u8vector p) :
    dequeue_loop s (a :: q) heap =
      Except.ok ({ s with d_mac_payload := a, d_mac_payload_length := (p.length : Int) },
        q, release heap a) := by
  rw [dequeue_loop, h]
  simp only [hv, cons, mp, is_pair, car, cdr, is_symbol, symbol_to_string, hd, Bool.and_self,
    if_true] at hp ⊢
  rw [hp]
  rfl

/-- The defect: a `MAC-RXMSDU` command that only the queue refers to is freed
at the `break`, and the copy of one byte or more reads the freed storage. -/
theorem general_work_dangling (s : app_in_impl) (a : Nat) (q : List Nat) (heap : heap_t)
    (obj : heap_obj) (dict : pmt_t) (p : List Nat) (n : Int)
    (hoff : s.d_mac_payload_offset = 0)
    (h : heap.getD a none = some obj)
    (hv : obj.value = cons (mp "MAC-RXMSDU") dict)
    (hd : is_dict dict = true)
    (hp : dict_ref dict (mp "msdu") pmt_t.PMT_NIL = pmt_t.u8vector p)
    (hr : obj.refs ≤ 1) (hn : 1 ≤ n) (hL : 1 ≤ p.length) :
    general_work n s (a :: q) heap = Except.error fault.use_after_free := by
  have hfree : msdu_elements (release heap a) a = none := by
    unfold msdu_elements
    rw [release_last heap a obj h hr]
  have hi : ¬ min n ((p.length : Int) - 0) = 0 := by omega
  unfold general_work
  rw [if_pos hoff, dequeue_loop_hit s a q heap obj dict p h hv hd hp]
  simp only [hoff, memcpy_payload, hi, if_false, hfree]

/-- A later call finds the storage freed when the last other handle has been
released since the message was taken from the queue. -/
theorem general_work_dangling_later (s : app_in_impl) (q : List Nat) (heap : heap_t) (n : Int)
    (ho : 0 < s.d_mac_payload_offset)
    (hfree : msdu_elements heap s.d_mac_payload = none)
    (hn : 1 ≤ n) (hL : s.d_mac_payload_offset < s.d_mac_payload_length) :
    general_work n s q heap = Except.error fault.use_after_free := by
  have hi : ¬ min n (s.d_mac_payload_length - s.d_mac_payload_offset) = 0 := by omega
  unfold general_work
  rw [if_neg (by omega)]
  simp only [memcpy_payload, hi, if_false, hfree]

/-- A call of `general_work` at an offset `o` within the payload `p`, whose
storage is still allocated, in closed form: no message is taken from the queue
and the heap is not touched. -/
theorem general_work_loaded (a : Nat) (p : List Nat) (o t k : Int) (q : List Nat)
    (heap : heap_t) (ho : 0 < o) (hol : o < (p.length : Int)) (hk : 1 ≤ k)
    (hm : msdu_elements heap a = some p) :
    general_work k
        { d_mac_payload := a, d_mac_payload_offset := o,
          d_mac_payload_length := (p.length : Int), d_total_bytes := t } q heap =
      Except.ok
        { block :=
              { d_mac_payload := a,
                d_mac_payload_offset :=
                  if o + min k ((p.length : Int) - o) = (p.length : Int) then 0
                  else o + min k ((p.length : Int) - o),
                d_mac_payload_length := (p.length : Int),
                d_total_bytes := t + min k ((p.length : Int) - o) },
          queue := q, heap := heap,
          out := (p.drop o.toNat).take (min k ((p.length : Int) - o)).toNat,
          returned := min k ((p.length : Int) - o) } := by
  have hi : ¬ min k ((p.length : Int) - o) = 0 := by omega
  have hb : 0 ≤ o ∧ 0 ≤ min k ((p.length : Int) - o) ∧
      o + min k ((p.length : Int) - o) ≤ (p.length : Int) := by omega
  unfold general_work
  simp only [if_neg (by omega : ¬ o = 0), memcpy_payload, hi, if_false, hm, hb, and_self,
    if_true]
  split_ifs <;> rfl

/-- The call that takes a `MAC-RXMSDU` command from the head of the queue while
another handle keeps the message alive. -/
theorem general_work_fresh (s : app_in_impl) (a : Nat) (rest : List Nat) (heap : heap_t)
    (obj : heap_obj) (dict : pmt_t) (p : List Nat) (k : Int)
    (hoff : s.d_mac_payload_offset = 0)
    (h : heap.getD a none = some obj)
    (hv : obj.value = cons (mp "MAC-RXMSDU") dict)
    (hd : is_dict dict = true)
    (hp : dict_ref dict (mp "msdu") pmt_t.PMT_NIL = pmt_t.u8vector p)
    (hr : 2 ≤ obj.refs) (hk : 1 ≤ k) :
    general_work k s (a :: rest) heap =
      Except.ok
        { block :=
              { d_mac_payload := a,
                d_mac_payload_offset :=
                  if min k (p.length : Int) = (p.length : Int) then 0
                  else min k (p.length : Int),
                d_mac_payload_length := (p.length : Int),
                d_total_bytes := s.d_total_bytes + min k (p.length : Int) },
          queue := rest, heap := release heap a,
          out := p.take (min k (p.length : Int)).toNat,
          returned := min k (p.length : Int) } := by
  have hm : msdu_elements (release heap a) a = some p :=
    msdu_elements_of (release heap a) a { obj with refs := obj.refs - 1 } dict p
      (release_shared heap a obj h hr) hv hp
  have hb : (0 : Int) ≤ 0 ∧ 0 ≤ min k (p.length : Int) ∧
      0 + min k (p.length : Int) ≤ (p.length : Int) := by omega
  unfold general_work
  rw [if_pos hoff, dequeue_loop_hit s a rest heap obj dict p h hv hd hp]
  dsimp only
  rw [hoff]
  simp only [sub_zero, zero_add, memcpy_payload, hm]
  by_cases h0 : min k (p.length : Int) = 0
  · have hL : (p.length : Int) = 0 := by omega
    have hk0 : min k (0 : Int) = 0 := by omega
    simp only [hL, hk0, if_true, Int.toNat_zero, List.take_zero, add_zero]
  · have hb2 : 0 ≤ min k (p.length : Int) ∧ min k (p.length : Int) ≤ (p.length : Int) := by
      omega
    simp only [h0, if_false, le_refl, hb2, and_self, if_true, Int.toNat_zero, List.drop_zero,
      true_and]
    split_ifs <;> rfl

theorem general_work_run_loaded (a : Nat) (p : List Nat) (q : List Nat) (heap : heap_t)
    (hm : msdu_elements heap a = some p) :
    ∀ (ns : List Int) (o t : Int) (out : List Nat), 0 < o → (∀ k ∈ ns, 1 ≤ k) →
      o + ns.sum < (p.length : Int) →
      general_work_run ns
          { d_mac_payload := a, d_mac_payload_offset := o,
            d_mac_payload_length := (p.length : Int), d_total_bytes := t } q heap out =
        Except.ok
          ({ d_mac_payload := a, d_mac_payload_offset := o + ns.sum,
             d_mac_payload_length := (p.length : Int), d_total_bytes := t + ns.sum }, q,
            heap, out ++ (p.drop o.toNat).take ns.sum.toNat) := by
  intro ns
  induction ns with
  | nil =>
    intro o t out _ _ _
    simp [general_work_run]
  | cons n ns ih =>
    intro o t out ho hns hsum
    have hn : 1 ≤ n := hns n (List.mem_cons_self _ _)
    have hns2 : ∀ k ∈ ns, 1 ≤ k := fun x hx => hns x (List.mem_cons_of_mem _ hx)
    have hs0 : 0 ≤ ns.sum := List.sum_nonneg (fun x hx => by have := hns2 x hx; omega)
    rw [List.sum_cons] at hsum
    have hmin : min n ((p.length : Int) - o) = n := by omega
    have hne : ¬ o + n = (p.length : Int) := by omega
    rw [general_work_run, general_work_loaded a p o t n q heap ho (by omega) hn hm]
    simp only [hmin, if_neg hne]
    rw [ih (o + n) (t + n) _ (by omega) hns2 (by omega)]
    have e1 : (o + n).toNat = o.toNat + n.toNat := by omega
    have e2 : (n + ns.sum).toNat = n.toNat + ns.sum.toNat := by omega
    rw [List.sum_cons, e1, e2, List.take_add, List.drop_drop, List.append_assoc, add_assoc,
      add_assoc]

theorem general_work_run_append (a b : List Int) :
    ∀ (s : app_in_impl) (q : List Nat) (heap : heap_t) (out : List Nat) (s1 : app_in_impl)
      (q1 : List Nat) (heap1 : heap_t) (out1 : List Nat),
      general_work_run a s q heap out = Except.ok (s1, q1, heap1, out1) →
      general_work_run (a ++ b) s q heap out = general_work_run b s1 q1 heap1 out1 := by
  induction a with
  | nil =>
    intro s q heap out s1 q1 heap1 out1 h
    simp only [general_work_run, Except.ok.injEq, Prod.mk.injEq] at h
    obtain ⟨h1, h2, h3, h4⟩ := h
    subst h1 h2 h3 h4
    rfl
  | cons n a ih =>
    intro s q heap out s1 q1 heap1 out1 h
    rw [List.cons_append, general_work_run]
    rw [general_work_run] at h
    cases hg : general_work n s q heap with
    | error e => rw [hg] at h; exact absurd h (by simp)
    | ok r =>
      rw [hg] at h
      exact ih _ _ _ _ _ _ _ _ h

/-- The calls `ns` made while payload `p` is being delivered and kept alive by
another handle, starting with the call that takes it from the queue. -/
theorem general_work_run_fresh (s : app_in_impl) (a : Nat) (rest : List Nat) (heap : heap_t)
    (obj : heap_obj) (dict : pmt_t) (p : List Nat) (ns : List Int)
    (hoff : s.d_mac_payload_offset = 0)
    (h : heap.getD a none = some obj)
    (hv : obj.value = cons (mp "MAC-RXMSDU") dict)
    (hd : is_dict dict = true)
    (hp : dict_ref dict (mp "msdu") pmt_t.PMT_NIL = pmt_t.u8vector p)
    (hr : 2 ≤ obj.refs)
    (hns : ∀ k ∈ ns, 1 ≤ k) (hne : ns ≠ []) (hsum : ns.sum < (p.length : Int)) :
    general_work_run ns s (a :: rest) heap [] =
      Except.ok
        ({ d_mac_payload := a, d_mac_payload_offset := ns.sum,
           d_mac_payload_length := (p.length : Int),
           d_total_bytes := s.d_total_bytes + ns.sum }, rest, release heap a,
          p.take ns.sum.toNat) := by
  have hm : msdu_elements (release heap a) a = some p :=
    msdu_elements_of (release heap a) a { obj with refs := obj.refs - 1 } dict p
      (release_shared heap a obj h hr) hv hp
  cases ns with
  | nil => exact absurd rfl hne
  | cons n ns =>
    have hn : 1 ≤ n := hns n (List.mem_cons_self _ _)
    have hns2 : ∀ k ∈ ns, 1 ≤ k := fun x hx => hns x (List.mem_cons_of_mem _ hx)
    have hs0 : 0 ≤ ns.sum := List.sum_nonneg (fun x hx => by have := hns2 x hx; omega)
    rw [List.sum_cons] at hsum
    have hmin : min n (p.length : Int) = n := by omega
    have hne2 : ¬ n = (p.length : Int) := by omega
    rw [general_work_run, general_work_fresh s a rest heap obj dict p n hoff h hv hd hp hr hn]
    simp only [hmin, if_neg hne2]
    rw [general_work_run_loaded a p rest (release heap a) hm ns n _ _ (by omega) hns2 (by omega)]
    have e2 : (n + ns.sum).toNat = n.toNat + ns.sum.toNat := by omega
    rw [List.sum_cons, e2, List.take_add, List.nil_append, add_assoc]

/-- The chunking of `general_work` while another handle keeps the message
alive and nothing else touches the heap: from offset 0, with a `MAC-RXMSDU`
command at the head of the queue whose `msdu` entry is the payload `p` of
length L, the calls `ns` (each with `noutput_items ≥ 1`, fewer than L bytes in
all) followed by a call `n ≥ 1` for at least the remainder return, their
concatenated output is `p`, the offset is back at 0, the byte counter has
advanced by L and one handle has left the queue. -/
theorem general_work_run_alive (s : app_in_impl) (a : Nat) (rest : List Nat) (heap : heap_t)
    (obj : heap_obj) (dict : pmt_t) (p : List Nat) (ns : List Int) (n : Int)
    (hoff : s.d_mac_payload_offset = 0)
    (h : heap.getD a none = some obj)
    (hv : obj.value = cons (mp "MAC-RXMSDU") dict)
    (hd : is_dict dict = true)
    (hp : dict_ref dict (mp "msdu") pmt_t.PMT_NIL = pmt_t.u8vector p)
    (hr : 2 ≤ obj.refs)
    (hns : ∀ k ∈ ns, 1 ≤ k) (hsum : ns = [] ∨ ns.sum < (p.length : Int))
    (hn1 : 1 ≤ n) (hn : (p.length : Int) - ns.sum ≤ n) :
    general_work_run (ns ++ [n]) s (a :: rest) heap [] =
      Except.ok
        ({ d_mac_payload := a, d_mac_payload_offset := 0,
           d_mac_payload_length := (p.length : Int),
           d_total_bytes := s.d_total_bytes + (p.length : Int) }, rest, release heap a, p) := by
  have hm : msdu_elements (release heap a) a = some p :=
    msdu_elements_of (release heap a) a { obj with refs := obj.refs - 1 } dict p
      (release_shared heap a obj h hr) hv hp
  by_cases hne : ns = []
  · subst hne
    simp only [List.nil_append, List.sum_nil, sub_zero] at hn ⊢
    have hmin : min n (p.length : Int) = (p.length : Int) := by omega
    rw [general_work_run, general_work_fresh s a rest heap obj dict p n hoff h hv hd hp hr hn1]
    simp only [hmin, if_true, general_work_run, List.nil_append, Int.toNat_ofNat,
      List.take_length]
  · have hlt : ns.sum < (p.length : Int) := by
      rcases hsum with h | h
      · exact absurd h hne
      · exact h
    have hpos : 0 < ns.sum := by
      cases ns with
      | nil => exact absurd rfl hne
      | cons b l =>
        have hb : 1 ≤ b := hns b (List.mem_cons_self _ _)
        have hl : 0 ≤ l.sum :=
          List.sum_nonneg (fun x hx => by
            have := hns x (List.mem_cons_of_mem _ hx); omega)
        rw [List.sum_cons]; omega
    rw [general_work_run_append ns [n] _ _ _ _ _ _ _ _
      (general_work_run_fresh s a rest heap obj dict p ns hoff h hv hd hp hr hns hne hlt)]
    have hmin : min n ((p.length : Int) - ns.sum) = (p.length : Int) - ns.sum := by omega
    have hadd : ns.sum + ((p.length : Int) - ns.sum) = (p.length : Int) := by omega
    rw [general_work_run,
      general_work_loaded a p ns.sum _ n rest (release heap a) hpos hlt hn1 hm]
    simp only [hmin, hadd, if_true, general_work_run]
    have e1 : ((p.length : Int) - ns.sum).toNat = p.length - ns.sum.toNat := by omega
    have e2 : s.d_total_bytes + ns.sum + ((p.length : Int) - ns.sum) =
        s.d_total_bytes + (p.length : Int) := by omega
    have e3 : List.take (p.length - ns.sum.toNat) (List.drop ns.sum.toNat p) =
        List.drop ns.sum.toNat p := by
      apply List.take_of_length_le
      rw [List.length_drop]
    rw [e1, e2, e3, List.take_append_drop]

/-- C18 (evaluation at the failing input). The block is freshly constructed and
the queue of port "mac in" holds, after two messages that are skipped, a
`MAC-RXMSDU` command with the payload 7, 8, 9. (1) When the queue holds the only
handle to that message, the call with `noutput_items = 2` frees the message at
the `break` and its `memcpy` reads the freed storage: no payload byte is
delivered. (2) When one more handle keeps the message alive, the same call
returns 2 and writes 7, 8, and a following call for 5 bytes completes the
payload 7, 8, 9, as the claim says. (3) When that other handle is released
between the two calls, the second call reads freed storage. (4) On the two
skipped messages alone the call blocks without output. -/
theorem general_work_reads_freed_payload :
    general_work 2 demo_app_in demo_queue (demo_heap 1) =
      Except.error fault.use_after_free ∧
    general_work_run [2, 5] demo_app_in demo_queue (demo_heap 1) [] =
      Except.error fault.use_after_free ∧
    general_work 2 demo_app_in demo_queue (demo_heap 2) =
      Except.ok
        { block := { d_mac_payload := 2, d_mac_payload_offset := 2, d_mac_payload_length := 3,
                     d_total_bytes := 2 },
          queue := [3], heap := release (release (release (demo_heap 2) 0) 1) 2,
          out := [7, 8], returned := 2 } ∧
    general_work_run [2, 5] demo_app_in demo_queue (demo_heap 2) [] =
      Except.ok
        ({ d_mac_payload := 2, d_mac_payload_offset := 0, d_mac_payload_length := 3,
           d_total_bytes := 3 }, [3], release (release (release (demo_heap 2) 0) 1) 2,
          [7, 8, 9]) ∧
    msdu_elements (release (release (release (demo_heap 2) 0) 1) 2) 2 = some [7, 8, 9] ∧
    general_work 5
        { d_mac_payload := 2, d_mac_payload_offset := 2, d_mac_payload_length := 3,
          d_total_bytes := 2 }
        [3] (release (release (release (release (demo_heap 2) 0) 1) 2) 2) =
      Except.error fault.use_after_free ∧
    general_work 5 demo_app_in [0, 1] (demo_heap 1) = Except.error fault.blocked := by
  refine ⟨?_, ?_, ?_, ?_, ?_, ?_, ?_⟩ <;> decide

/-! ## The circular preamble buffer from RESET to the preamble hand-over -/

theorem stream_slice_snoc (x : Int → ℚ) (a : Int) (n : Nat) :
    stream_slice x a (n + 1) = stream_slice x a n ++ [x (a + n)] := by
  simp only [stream_slice, List.range_succ, List.map_append, List.map_cons, List.map_nil]

theorem ring_append_snoc (c : constants) (rg : List ℚ × Int) (l : List ℚ) (v : ℚ) :
    ring_append c rg (l ++ [v]) = ring_put c (ring_append c rg l) v := by
  simp only [ring_append, List.foldl_append, List.foldl_cons, List.foldl_nil]

/-- After the stream samples `x[0..T-1]` have been put into a circular buffer of
`N = PREAMBLE_SIZE` slots from write position 0, the write position is
`T mod N` and slot `t mod N` holds `x[t]` for each of the last `N` samples. -/
theorem ring_append_content (c : constants) (x : Int → ℚ) (buf0 : List ℚ)
    (hN : 0 < c.PREAMBLE_SIZE) (hlen : (buf0.length : Int) = c.PREAMBLE_SIZE) (T : Nat) :
    (ring_append c (buf0, 0) (stream_slice x 0 T)).2 = (T : Int) % c.PREAMBLE_SIZE ∧
    ∀ t : Int, 0 ≤ t → t < T → (T : Int) - c.PREAMBLE_SIZE ≤ t →
      rd (ring_append c (buf0, 0) (stream_slice x 0 T)).1 (t % c.PREAMBLE_SIZE) = x t := by
  induction T with
  | zero =>
    refine ⟨by simp [stream_slice, ring_append], ?_⟩
    intro t h0 h1 _
    simp only [Nat.cast_zero] at h1
    omega
  | succ T ih =>
    obtain ⟨ih1, ih2⟩ := ih
    have hmod0 : 0 ≤ (T : Int) % c.PREAMBLE_SIZE := Int.emod_nonneg _ (by omega)
    have hmod1 : (T : Int) % c.PREAMBLE_SIZE < c.PREAMBLE_SIZE := Int.emod_lt_of_pos _ hN
    rw [stream_slice_snoc, ring_append_snoc]
    constructor
    · rw [ring_put_offset c _ _ hN (by rw [ih1]; exact hmod0), ih1]
      push_cast
      rw [Int.emod_add_cancel_right, Int.emod_emod]
    · intro t h0 h1 h2
      simp only [ring_put, ih1, zero_add]
      have hlen2 : ((ring_append c (buf0, 0) (stream_slice x 0 T)).1.length : Int) =
          c.PREAMBLE_SIZE := by rw [ring_append_length]; exact hlen
      by_cases ht : t = T
      · subst ht
        rw [rd_wr]
        simp only [if_true, true_and]
        rw [if_pos (by omega)]
      · have hne : ¬ (t % c.PREAMBLE_SIZE = (T : Int) % c.PREAMBLE_SIZE) := by
          intro he
          have hd : c.PREAMBLE_SIZE ∣ (T : Int) - t :=
            Int.ModEq.dvd (show t ≡ (T : Int) [ZMOD c.PREAMBLE_SIZE] from he)
          obtain ⟨q, hq⟩ := hd
          push_cast at h1 h2
          have hpos : 0 < (T : Int) - t := by omega
          have hlt : (T : Int) - t < c.PREAMBLE_SIZE := by omega
          have hq0 : 0 < q := by
            by_contra hcon
            have : q ≤ 0 := by omega
            have := mul_nonpos_of_nonneg_of_nonpos (le_of_lt hN) this
            omega
          have : c.PREAMBLE_SIZE * 1 ≤ c.PREAMBLE_SIZE * q :=
            mul_le_mul_of_nonneg_left (by omega) (le_of_lt hN)
          omega
        rw [rd_wr, if_neg (fun h => hne h.1)]
        exact ih2 t h0 (by push_cast at h1; omega) (by push_cast at h2; omega)

theorem list_eq_of_rd (a b : List ℚ) (N : Int) (ha : (a.length : Int) = N)
    (hb : (b.length : Int) = N) (h : ∀ k : Int, 0 ≤ k → k < N → rd a k = rd b k) : a = b := by
  apply List.ext_getElem (by omega)
  intro n h1 h2
  have := h n (by omega) (by omega)
  rw [rd_eq_getElem a n h1, rd_eq_getElem b n h2] at this
  exact this

theorem rd_stream_slice (x : Int → ℚ) (a : Int) (n : Nat) (k : Int) (h0 : 0 ≤ k)
    (h1 : k < n) : rd (stream_slice x a n) k = x (a + k) := by
  have hk : k.toNat < (stream_slice x a n).length := by rw [stream_slice_length]; omega
  have e : k = (k.toNat : Int) := by omega
  rw [e, rd_eq_getElem _ _ hk]
  simp only [stream_slice, List.getElem_map, List.getElem_range]

/-- Once at least `PREAMBLE_SIZE` stream samples `x[0..T-1]` have been put into
the circular buffer, its rotation from the write position is the list of the
last `PREAMBLE_SIZE` samples in chronological order. -/
theorem ring_append_aligned (c : constants) (x : Int → ℚ) (buf0 : List ℚ)
    (hN : 0 < c.PREAMBLE_SIZE) (hlen : (buf0.length : Int) = c.PREAMBLE_SIZE) (T : Nat)
    (hT : c.PREAMBLE_SIZE ≤ T) :
    (ring_append c (buf0, 0) (stream_slice x 0 T)).1.drop
        (ring_append c (buf0, 0) (stream_slice x 0 T)).2.toNat ++
      (ring_append c (buf0, 0) (stream_slice x 0 T)).1.take
        (ring_append c (buf0, 0) (stream_slice x 0 T)).2.toNat =
      stream_slice x ((T : Int) - c.PREAMBLE_SIZE) c.PREAMBLE_SIZE.toNat := by
  obtain ⟨h1, h2⟩ := ring_append_content c x buf0 hN hlen T
  have hlen2 : ((ring_append c (buf0, 0) (stream_slice x 0 T)).1.length : Int) =
      c.PREAMBLE_SIZE := by rw [ring_append_length]; exact hlen
  have hmod0 : 0 ≤ (T : Int) % c.PREAMBLE_SIZE := Int.emod_nonneg _ (by omega)
  have hmod1 : (T : Int) % c.PREAMBLE_SIZE < c.PREAMBLE_SIZE := Int.emod_lt_of_pos _ hN
  obtain ⟨r1, r2⟩ := rotation_spec c.PREAMBLE_SIZE
    (ring_append c (buf0, 0) (stream_slice x 0 T)).1
    (ring_append c (buf0, 0) (stream_slice x 0 T)).2 hlen2 (by rw [h1]; exact hmod0)
    (by rw [h1]; exact hmod1)
  apply list_eq_of_rd _ _ c.PREAMBLE_SIZE r1 (by rw [stream_slice_length]; omega)
  intro k hk0 hk1
  rw [r2 k hk0 hk1, rd_stream_slice x _ _ k hk0 (by omega), h1]
  have e : ((T : Int) % c.PREAMBLE_SIZE + k) % c.PREAMBLE_SIZE =
      ((T : Int) - c.PREAMBLE_SIZE + k) % c.PREAMBLE_SIZE := by
    rw [Int.emod_add_emod]
    have : (T : Int) + k = ((T : Int) - c.PREAMBLE_SIZE + k) + c.PREAMBLE_SIZE := by ring
    rw [this, Int.add_emod_self]
  rw [e]
  exact h2 _ (by omega) (by omega) (by omega)

theorem ring_put_small (c : constants) (buf : List ℚ) (o : Int) (v : ℚ) (h0 : 0 ≤ o)
    (h1 : o + 1 < c.PREAMBLE_SIZE) : ring_put c (buf, o) v = (wr buf o v, o + 1) := by
  simp only [ring_put]
  rw [Int.tmod_eq_emod (by omega) (by omega), Int.emod_eq_of_lt (by omega) h1]

/-- The RESET loop puts the samples `in[2j], in[2j+1], ...` into the circular
buffer as long as the write position stays below `PREAMBLE_SIZE`, and leaves
`d_sync_offset` and the service alone. -/
theorem reset_loop_ring (c : constants) (inp : Int → ℚ) (m : Nat) :
    ∀ (s : phy_rx_impl P) (j : Int), j + m ≤ c.SYNCP_SIZE → 0 ≤ s.d_preamble_offset →
      s.d_preamble_offset + 2 * m < c.PREAMBLE_SIZE →
      ((reset_loop c inp m s j).d_preamble, (reset_loop c inp m s j).d_preamble_offset) =
        ring_append c (s.d_preamble, s.d_preamble_offset) (stream_slice inp (j * 2) (2 * m)) ∧
      (reset_loop c inp m s j).d_sync_offset = s.d_sync_offset ∧
      (reset_loop c inp m s j).d_frame_start = s.d_frame_start ∧
      (reset_loop c inp m s j).d_phy_service = s.d_phy_service := by
  induction m with
  | zero => intro s j _ _ _; simp [reset_loop, stream_slice, ring_append]
  | succ m ih =>
    intro s j hj h0 h1
    have hlt : j < c.SYNCP_SIZE := by push_cast at hj; omega
    simp only [reset_loop, hlt, if_true]
    obtain ⟨a1, a2, a3, a4⟩ := ih
      ({ s with
          d_search_corr := s.d_search_corr + inp j * inp (j + c.SYNCP_SIZE)
          d_energy := s.d_energy + inp j * inp j
          d_preamble := wr (wr s.d_preamble s.d_preamble_offset (inp (j * 2)))
            (s.d_preamble_offset + 1) (inp (j * 2 + 1))
          d_preamble_offset := s.d_preamble_offset + 1 + 1 } : phy_rx_impl P) (j + 1)
      (by push_cast at hj ⊢; omega) (by show 0 ≤ s.d_preamble_offset + 1 + 1; omega)
      (by show s.d_preamble_offset + 1 + 1 + 2 * (m : Int) < c.PREAMBLE_SIZE
          push_cast at h1; omega)
    refine ⟨?_, a2, a3, a4⟩
    rw [a1, show 2 * (m + 1) = 2 * m + 1 + 1 by ring, stream_slice_cons, stream_slice_cons]
    simp only [ring_append, List.foldl_cons]
    rw [ring_put_small c _ _ _ h0 (by push_cast at h1; omega),
      ring_put_small c _ _ _ (by omega) (by push_cast at h1; omega)]
    rw [show (j + 1) * 2 = j * 2 + 1 + 1 by ring]

theorem work_in_reset (c : constants) (ops : phy_service_ops P) (n : Int)
    (inp : Int → ℚ) (s : phy_rx_impl P) (hst : s.d_receiver_state = RESET) :
    work c ops n inp s = work_reset c inp s := by
  simp only [work, hst]

theorem work_in_search (c : constants) (ops : phy_service_ops P) (n : Int)
    (inp : Int → ℚ) (s : phy_rx_impl P) (hst : s.d_receiver_state = SEARCH) :
    work c ops n inp s = work_search c n inp s := by
  simp only [work, hst]

/-- The RESET call: the first `2*SYNCP_SIZE` stream samples are in the circular
buffer, nothing is consumed, the receiver is in SEARCH. -/
theorem ring_holds_reset (c : constants) (ops : phy_service_ops P) (x : Int → ℚ)
    (s : phy_rx_impl P) (n0 : Int) (hst : s.d_receiver_state = RESET)
    (hS : 0 < c.SYNCP_SIZE) :
    ring_holds c x s.d_preamble (run_call c ops x (run_start s) n0) ∧
    (run_call c ops x (run_start s) n0).pos = 0 ∧
    (run_call c ops x (run_start s) n0).rx.d_receiver_state = SEARCH ∧
    (run_call c ops x (run_start s) n0).rx.d_sync_offset = 0 ∧
    (run_call c ops x (run_start s) n0).rx.d_phy_service = s.d_phy_service := by
  have hc : ((c.SYNCP_SIZE.toNat : Nat) : Int) = c.SYNCP_SIZE := Int.toNat_of_nonneg (by omega)
  have hN : c.PREAMBLE_SIZE = c.SYNCP_SIZE * 10 := rfl
  obtain ⟨h1, h2, _, h4⟩ := reset_loop_ring c (fun k => x (0 + k)) c.SYNCP_SIZE.toNat
    ({ s with
      d_plateau := 0
      d_frame_control_offset := 0
      d_sync_offset := 0
      d_preamble_offset := 0
      d_payload_size := 0
      d_payload_offset := 0
      d_cor := []
      d_output_datastream_offset := 0
      d_output_datastream_len := 0
      d_noise_offset := 0
      d_search_corr := 0
      d_energy := 0
      d_inter_frame_space_offset := 0 } : phy_rx_impl P) 0
    (by omega) (by show (0 : Int) ≤ 0; omega)
    (by show (0 : Int) + 2 * (c.SYNCP_SIZE.toNat : Int) < c.PREAMBLE_SIZE; omega)
  have hw : (run_call c ops x (run_start s) n0) =
      { rx := (work_reset c (fun k => x (0 + k)) s).rx, pos := 0 + 0, published := [],
        search_hits := [] } := by
    simp only [run_call, run_start, work_in_reset c ops n0 _ s hst]
    rfl
  rw [hw]
  refine ⟨⟨?_, ?_⟩, by simp, rfl, h2, h4⟩
  · simp only [preamble_written, work_reset, if_true]
    omega
  · simp only [preamble_written, work_reset, if_true]
    rw [h1]
    simp only [stream_slice_shift, zero_mul, add_zero, zero_add]
    congr 2
    omega

/-- The SEARCH loop puts the `w` samples `in[i+2S], in[i+2S+1], ...` into the
circular buffer, one per iteration that does not hand over to SYNC, and leaves
`d_sync_offset` and the service alone; `i` advances by `w`, and by a further
`2*SYNCP_SIZE` on the hand-over. -/
theorem search_loop_ring (c : constants) (inp : Int → ℚ) (ninput : Int) (fuel : Nat) :
    ∀ (s : phy_rx_impl P) (i : Int), s.d_receiver_state = SEARCH →
      ∃ w : Nat,
        ((search_loop c inp ninput fuel s i).1.d_preamble,
          (search_loop c inp ninput fuel s i).1.d_preamble_offset) =
          ring_append c (s.d_preamble, s.d_preamble_offset)
            (stream_slice inp (i + 2 * c.SYNCP_SIZE) w) ∧
        (((search_loop c inp ninput fuel s i).1.d_receiver_state = SEARCH ∧
            (search_loop c inp ninput fuel s i).2.1 = i + w) ∨
          ((search_loop c inp ninput fuel s i).1.d_receiver_state = SYNC ∧
            (search_loop c inp ninput fuel s i).2.1 = i + w + 2 * c.SYNCP_SIZE)) ∧
        (search_loop c inp ninput fuel s i).1.d_sync_offset = s.d_sync_offset ∧
        (search_loop c inp ninput fuel s i).1.d_frame_start = s.d_frame_start ∧
        (search_loop c inp ninput fuel s i).1.d_phy_service = s.d_phy_service := by
  induction fuel with
  | zero =>
    intro s i hst
    exact ⟨0, by simp [search_loop, stream_slice, ring_append], Or.inl ⟨hst, by simp [search_loop]⟩,
      rfl, rfl, rfl⟩
  | succ fuel ih =>
    intro s i hst
    by_cases hg : i + 2 * c.SYNCP_SIZE < ninput
    · rw [search_loop]
      simp only [hg, if_true]
      split_ifs
      · obtain ⟨w, a1, a2, a3, a4, a5⟩ := ih
          (preamble_put c
            ({ s with
              d_search_corr := s.d_search_corr +
                (inp (i + c.SYNCP_SIZE) * inp (i + c.SYNCP_SIZE * 2) -
                  inp i * inp (i + c.SYNCP_SIZE))
              d_energy := s.d_energy +
                (inp (i + c.SYNCP_SIZE) * inp (i + c.SYNCP_SIZE) - inp i * inp i)
              d_plateau := s.d_plateau + 1 } : phy_rx_impl P)
            (inp (i + 2 * c.SYNCP_SIZE))) (i + 1) hst
        refine ⟨w + 1, ?_, ?_, a3, a4, a5⟩
        · simp only []
          rw [a1, stream_slice_cons, show i + 1 + 2 * c.SYNCP_SIZE = i + 2 * c.SYNCP_SIZE + 1 by ring]
          rfl
        · simp only []
          rcases a2 with ⟨b1, b2⟩ | ⟨b1, b2⟩
          · exact Or.inl ⟨b1, by rw [b2]; push_cast; ring⟩
          · exact Or.inr ⟨b1, by rw [b2]; push_cast; ring⟩
      · exact ⟨0, by simp [stream_slice, ring_append], Or.inr ⟨rfl, by simp⟩, rfl, rfl, rfl⟩
      · obtain ⟨w, a1, a2, a3, a4, a5⟩ := ih
          (preamble_put c
            ({ s with
              d_search_corr := s.d_search_corr +
                (inp (i + c.SYNCP_SIZE) * inp (i + c.SYNCP_SIZE * 2) -
                  inp i * inp (i + c.SYNCP_SIZE))
              d_energy := s.d_energy +
                (inp (i + c.SYNCP_SIZE) * inp (i + c.SYNCP_SIZE) - inp i * inp i)
              d_plateau := 0 } : phy_rx_impl P)
            (inp (i + 2 * c.SYNCP_SIZE))) (i + 1) hst
        refine ⟨w + 1, ?_, ?_, a3, a4, a5⟩
        · simp only []
          rw [a1, stream_slice_cons, show i + 1 + 2 * c.SYNCP_SIZE = i + 2 * c.SYNCP_SIZE + 1 by ring]
          rfl
        · simp only []
          rcases a2 with ⟨b1, b2⟩ | ⟨b1, b2⟩
          · exact Or.inl ⟨b1, by rw [b2]; push_cast; ring⟩
          · exact Or.inr ⟨b1, by rw [b2]; push_cast; ring⟩
    · rw [search_loop]
      simp only [hg, if_false]
      exact ⟨0, by simp [stream_slice, ring_append], Or.inl ⟨hst, by simp⟩, trivial, trivial,
        trivial⟩

theorem preamble_written_search (c : constants) (r : run_state P)
    (h : r.rx.d_receiver_state = SEARCH) : preamble_written c r = r.pos + 2 * c.SYNCP_SIZE := by
  simp only [preamble_written, h, if_true]

theorem preamble_written_other (c : constants) (r : run_state P)
    (h : r.rx.d_receiver_state ≠ SEARCH) : preamble_written c r = r.pos := by
  simp only [preamble_written, h, if_false]

/-- A SEARCH call keeps the circular buffer in step with the stream. -/
theorem ring_holds_search_call (c : constants) (ops : phy_service_ops P) (x : Int → ℚ)
    (buf0 : List ℚ) (r : run_state P) (n : Int)
    (hst : r.rx.d_receiver_state = SEARCH) (h : ring_holds c x buf0 r) :
    ring_holds c x buf0 (run_call c ops x r n) ∧
    ((run_call c ops x r n).rx.d_receiver_state = SEARCH ∨
      (run_call c ops x r n).rx.d_receiver_state = SYNC) ∧
    (run_call c ops x r n).rx.d_sync_offset = r.rx.d_sync_offset ∧
    (run_call c ops x r n).rx.d_phy_service = r.rx.d_phy_service := by
  obtain ⟨hT0, hring⟩ := h
  rw [preamble_written_search c r hst] at hT0 hring
  obtain ⟨w, a1, a2, a3, _, a5⟩ := search_loop_ring c (fun k => x (r.pos + k)) n
    (n - 2 * c.SYNCP_SIZE).toNat r.rx 0 hst
  have hrx : (run_call c ops x r n).rx =
      (search_loop c (fun k => x (r.pos + k)) n (n - 2 * c.SYNCP_SIZE).toNat r.rx 0).1 := by
    simp only [run_call, work_in_search c ops n _ r.rx hst, work_search]
  have hpos : (run_call c ops x r n).pos = r.pos +
      (search_loop c (fun k => x (r.pos + k)) n (n - 2 * c.SYNCP_SIZE).toNat r.rx 0).2.1 := by
    simp only [run_call, work_in_search c ops n _ r.rx hst, work_search]
  have hnew : ((run_call c ops x r n).rx.d_preamble, (run_call c ops x r n).rx.d_preamble_offset) =
      ring_append c (buf0, 0) (stream_slice x 0 ((r.pos + 2 * c.SYNCP_SIZE).toNat + w)) := by
    rw [hrx, a1, hring, ring_append_append, stream_slice_shift, ← stream_slice_append]
    congr 3
    omega
  have hstate : (run_call c ops x r n).rx.d_receiver_state = SEARCH ∨
      (run_call c ops x r n).rx.d_receiver_state = SYNC := by
    rw [hrx]
    rcases a2 with ⟨b1, _⟩ | ⟨b1, _⟩
    · exact Or.inl b1
    · exact Or.inr b1
  refine ⟨?_, hstate, by rw [hrx]; exact a3, by rw [hrx]; exact a5⟩
  rcases a2 with ⟨b1, b2⟩ | ⟨b1, b2⟩
  · have hw : preamble_written c (run_call c ops x r n) =
        r.pos + 2 * c.SYNCP_SIZE + w := by
      rw [preamble_written_search c _ (by rw [hrx]; exact b1), hpos, b2]; ring
    refine ⟨by omega, ?_⟩
    rw [hnew, hw]
    congr 2
    omega
  · have hw : preamble_written c (run_call c ops x r n) =
        r.pos + 2 * c.SYNCP_SIZE + w := by
      rw [preamble_written_other c _ (by rw [hrx, b1]; decide), hpos, b2]; ring
    refine ⟨by omega, ?_⟩
    rw [hnew, hw]
    congr 2
    omega

/-- The calls made in SEARCH keep the circular buffer in step with the stream,
however the stream is split into calls. -/
theorem ring_holds_search_run (c : constants) (ops : phy_service_ops P) (x : Int → ℚ)
    (buf0 : List ℚ) (ns : List Int) :
    ∀ r : run_state P,
      (r.rx.d_receiver_state = SEARCH ∨ r.rx.d_receiver_state = SYNC) →
      ring_holds c x buf0 r →
      ring_holds c x buf0 (run_in SEARCH c ops x r ns) ∧
      ((run_in SEARCH c ops x r ns).rx.d_receiver_state = SEARCH ∨
        (run_in SEARCH c ops x r ns).rx.d_receiver_state = SYNC) ∧
      (run_in SEARCH c ops x r ns).rx.d_sync_offset = r.rx.d_sync_offset ∧
      (run_in SEARCH c ops x r ns).rx.d_phy_service = r.rx.d_phy_service := by
  induction ns with
  | nil => intro r hs h; exact ⟨h, hs, rfl, rfl⟩
  | cons n ns ih =>
    intro r hs h
    by_cases hst : r.rx.d_receiver_state = SEARCH
    · rw [run_in, if_pos hst]
      obtain ⟨a1, a2, a3, a4⟩ := ring_holds_search_call c ops x buf0 r n hst h
      obtain ⟨b1, b2, b3, b4⟩ := ih _ a2 a1
      exact ⟨b1, b2, by rw [b3, a3], by rw [b4, a4]⟩
    · rw [run_in, if_neg hst]
      exact ⟨h, hs, rfl, rfl⟩

/-- The SYNC call for `SYNCP_SIZE > 0`: the window of `SYNC_LENGTH` samples goes
into the circular buffer and is consumed, `d_frame_start` is at least
`SYNCP_SIZE/2`, the receiver moves to COPY_PREAMBLE. -/
theorem work_sync_ring (c : constants) (ops : phy_service_ops P) (ninput : Int)
    (inp : Int → ℚ) (s : phy_rx_impl P) (hst : s.d_receiver_state = SYNC)
    (hS : 0 < c.SYNCP_SIZE) :
    ((work c ops ninput inp s).rx.d_preamble, (work c ops ninput inp s).rx.d_preamble_offset) =
      ring_append c (s.d_preamble, s.d_preamble_offset)
        (stream_slice inp 0 c.SYNC_LENGTH.toNat) ∧
    (work c ops ninput inp s).consumed = c.SYNC_LENGTH ∧
    c.SYNCP_SIZE / 2 ≤ (work c ops ninput inp s).rx.d_frame_start ∧
    (work c ops ninput inp s).rx.d_receiver_state = COPY_PREAMBLE ∧
    (work c ops ninput inp s).rx.d_sync_offset = s.d_sync_offset ∧
    (work c ops ninput inp s).rx.d_phy_service = s.d_phy_service := by
  have hSL : c.SYNC_LENGTH = 2 * c.SYNCP_SIZE := rfl
  have hw : work c ops ninput inp s = _ := (work_in_sync c ops ninput inp s hst).trans
    (work_sync_eq c inp s (le_of_lt hS))
  obtain ⟨h1, _, _, _⟩ := sync_loop1_argmax c inp (filterN s.d_fir inp c.SYNC_LENGTH)
    (c.SYNC_LENGTH - c.SYNCP_SIZE).toNat
    ({ s with d_correlation := filterN s.d_fir inp c.SYNC_LENGTH } : phy_rx_impl P) 0 0
    (rd (filterN s.d_fir inp c.SYNC_LENGTH) 0 *
      rd (filterN s.d_fir inp c.SYNC_LENGTH) c.SYNCP_SIZE) rfl (by omega) (le_refl 0)
    (by simp [sync_product]) (le_refl 0) (Or.inr rfl)
    (fun j hj0 hj => by omega) (fun j hj0 hj => by omega)
  have hm0 : 0 ≤ sync_max_index c inp
      { s with d_correlation := filterN s.d_fir inp c.SYNC_LENGTH } := h1
  have hd : (work c ops ninput inp s).rx.d_frame_start =
      Int.tdiv (5 * c.SYNCP_SIZE + 2 * sync_max_index c inp
        { s with d_correlation := filterN s.d_fir inp c.SYNC_LENGTH } - 2 * c.SYNC_LENGTH) 2 := by
    rw [hw]
  have hd2 : (work c ops ninput inp s).rx.d_frame_start = c.SYNCP_SIZE / 2 + sync_max_index c inp
      { s with d_correlation := filterN s.d_fir inp c.SYNC_LENGTH } := by
    rw [hd, Int.tdiv_eq_ediv (by omega) (by omega)]
    omega
  have hst2 : (work c ops ninput inp s).rx.d_receiver_state =
      if (work c ops ninput inp s).rx.d_frame_start < 0 then RESET else COPY_PREAMBLE := by
    rw [hd, hw]
  refine ⟨by rw [hw], by rw [hw], by rw [hd2]; omega, ?_, by rw [hw], by rw [hw]⟩
  rw [hst2, if_neg (by rw [hd2]; omega)]

theorem ring_holds_sync_call (c : constants) (ops : phy_service_ops P) (x : Int → ℚ)
    (buf0 : List ℚ) (r : run_state P) (n : Int)
    (hst : r.rx.d_receiver_state = SYNC) (hS : 0 < c.SYNCP_SIZE)
    (h : ring_holds c x buf0 r) :
    ring_holds c x buf0 (run_call c ops x r n) ∧
    (run_call c ops x r n).pos = r.pos + 2 * c.SYNCP_SIZE ∧
    c.SYNCP_SIZE / 2 ≤ (run_call c ops x r n).rx.d_frame_start ∧
    (run_call c ops x r n).rx.d_receiver_state = COPY_PREAMBLE ∧
    (run_call c ops x r n).rx.d_sync_offset = r.rx.d_sync_offset ∧
    (run_call c ops x r n).rx.d_phy_service = r.rx.d_phy_service := by
  obtain ⟨hT0, hring⟩ := h
  rw [preamble_written_other c r (by rw [hst]; decide)] at hT0 hring
  have hSL : c.SYNC_LENGTH = 2 * c.SYNCP_SIZE := rfl
  obtain ⟨a1, a2, a3, a4, a5, a6⟩ := work_sync_ring c ops n (fun k => x (r.pos + k)) r.rx hst hS
  have hrx : (run_call c ops x r n).rx = (work c ops n (fun k => x (r.pos + k)) r.rx).rx := rfl
  have hpos : (run_call c ops x r n).pos =
      r.pos + (work c ops n (fun k => x (r.pos + k)) r.rx).consumed := rfl
  have hw : preamble_written c (run_call c ops x r n) = r.pos + 2 * c.SYNCP_SIZE := by
    rw [preamble_written_other c _ (by rw [hrx, a4]; decide), hpos, a2]; rfl
  refine ⟨⟨by rw [hw]; omega, ?_⟩, by rw [hpos, a2]; rfl, by rw [hrx]; exact a3,
    by rw [hrx]; exact a4, by rw [hrx]; exact a5, by rw [hrx]; exact a6⟩
  have e : (r.pos + 2 * c.SYNCP_SIZE).toNat = r.pos.toNat + c.SYNC_LENGTH.toNat := by omega
  rw [hrx, a1, hring, ring_append_append, stream_slice_shift, hw, e, ← stream_slice_append]
  congr 3
  omega

/-- What the loop of a COPY_PREAMBLE call does, for any `ninput`: it puts the
first `i` samples into the circular buffer, counts them in `d_sync_offset`
without passing `d_frame_start`, and changes nothing else that matters here. -/
theorem copy_preamble_loop_facts (c : constants) (inp : Int → ℚ) (ninput : Int)
    (s : phy_rx_impl P) (hle : s.d_sync_offset ≤ s.d_frame_start) :
    ((copy_preamble_loop c inp ninput ninput.toNat s 0).1.d_preamble,
      (copy_preamble_loop c inp ninput ninput.toNat s 0).1.d_preamble_offset) =
      ring_append c (s.d_preamble, s.d_preamble_offset)
        (stream_slice inp 0 (copy_preamble_loop c inp ninput ninput.toNat s 0).2.toNat) ∧
    0 ≤ (copy_preamble_loop c inp ninput ninput.toNat s 0).2 ∧
    (copy_preamble_loop c inp ninput ninput.toNat s 0).1.d_sync_offset =
      s.d_sync_offset + (copy_preamble_loop c inp ninput ninput.toNat s 0).2 ∧
    (copy_preamble_loop c inp ninput ninput.toNat s 0).1.d_sync_offset ≤ s.d_frame_start ∧
    (copy_preamble_loop c inp ninput ninput.toNat s 0).1.d_frame_start = s.d_frame_start ∧
    (copy_preamble_loop c inp ninput ninput.toNat s 0).1.d_receiver_state =
      s.d_receiver_state ∧
    (copy_preamble_loop c inp ninput ninput.toNat s 0).1.d_phy_service = s.d_phy_service := by
  by_cases hn : 0 ≤ ninput
  · rw [copy_preamble_call_loop c inp ninput s hn hle]
    have hm0 : 0 ≤ min ninput (s.d_frame_start - s.d_sync_offset) := le_min hn (by omega)
    have h2 : min ninput (s.d_frame_start - s.d_sync_offset) ≤
        s.d_frame_start - s.d_sync_offset := min_le_right _ _
    exact ⟨rfl, hm0, rfl, by show s.d_sync_offset + _ ≤ _; omega, rfl, rfl, rfl⟩
  · have h0 : ninput.toNat = 0 := by omega
    rw [h0]
    simp only [copy_preamble_loop, Int.toNat_zero, stream_slice, List.range_zero, List.map_nil,
      ring_append, List.foldl_nil, le_refl, add_zero, true_and, and_true]
    exact hle

theorem work_copy_preamble_of_loop (c : constants) (ops : phy_service_ops P) (ninput : Int)
    (inp : Int → ℚ) (s : phy_rx_impl P) :
    work_copy_preamble c ops ninput inp s =
      if (copy_preamble_loop c inp ninput ninput.toNat s 0).1.d_sync_offset =
          (copy_preamble_loop c inp ninput ninput.toNat s 0).1.d_frame_start then
        { rx := { (copy_preamble_loop c inp ninput ninput.toNat s 0).1 with
            d_phy_service := ops.process_ppdu_preamble
              (copy_preamble_loop c inp ninput ninput.toNat s 0).1.d_phy_service
              (preamble_aligned (copy_preamble_loop c inp ninput ninput.toNat s 0).1)
            d_receiver_state := COPY_FRAME_CONTROL },
          published := [], consumed := (copy_preamble_loop c inp ninput ninput.toNat s 0).2,
          search_hits := [] }
      else
        { rx := (copy_preamble_loop c inp ninput ninput.toNat s 0).1, published := [],
          consumed := (copy_preamble_loop c inp ninput ninput.toNat s 0).2, search_hits := [] } :=
  rfl

/-- A COPY_PREAMBLE call keeps the circular buffer in step with the stream; when
`d_sync_offset` reaches `d_frame_start` the rotated buffer goes to
`process_ppdu_preamble`. -/
theorem ring_holds_copy_call (c : constants) (ops : phy_service_ops P) (x : Int → ℚ)
    (buf0 : List ℚ) (r : run_state P) (n : Int)
    (hst : r.rx.d_receiver_state = COPY_PREAMBLE) (h : ring_holds c x buf0 r)
    (hle : r.rx.d_sync_offset ≤ r.rx.d_frame_start) :
    ring_holds c x buf0 (run_call c ops x r n) ∧
    (run_call c ops x r n).rx.d_frame_start = r.rx.d_frame_start ∧
    (run_call c ops x r n).pos - (run_call c ops x r n).rx.d_sync_offset =
      r.pos - r.rx.d_sync_offset ∧
    (run_call c ops x r n).rx.d_sync_offset ≤ (run_call c ops x r n).rx.d_frame_start ∧
    (((run_call c ops x r n).rx.d_receiver_state = COPY_PREAMBLE ∧
        (run_call c ops x r n).rx.d_phy_service = r.rx.d_phy_service) ∨
      ((run_call c ops x r n).rx.d_receiver_state = COPY_FRAME_CONTROL ∧
        (run_call c ops x r n).rx.d_sync_offset = (run_call c ops x r n).rx.d_frame_start ∧
        (run_call c ops x r n).rx.d_phy_service =
          ops.process_ppdu_preamble r.rx.d_phy_service
            (preamble_aligned (run_call c ops x r n).rx))) := by
  obtain ⟨hT0, hring⟩ := h
  rw [preamble_written_other c r (by rw [hst]; decide)] at hT0 hring
  obtain ⟨f1, f2, f3, f4, f5, f6, f7⟩ :=
    copy_preamble_loop_facts c (fun k => x (r.pos + k)) n r.rx hle
  have hwk : work c ops n (fun k => x (r.pos + k)) r.rx = _ :=
    (work_in_copy_preamble c ops n _ r.rx hst).trans
      (work_copy_preamble_of_loop c ops n _ r.rx)
  have hrx : (run_call c ops x r n).rx = (work c ops n (fun k => x (r.pos + k)) r.rx).rx := rfl
  have hpos : (run_call c ops x r n).pos =
      r.pos + (work c ops n (fun k => x (r.pos + k)) r.rx).consumed := rfl
  have hring2 : ring_append c (r.rx.d_preamble, r.rx.d_preamble_offset)
      (stream_slice (fun k => x (r.pos + k)) 0
        (copy_preamble_loop c (fun k => x (r.pos + k)) n n.toNat r.rx 0).2.toNat) =
      ring_append c (buf0, 0) (stream_slice x 0
        (r.pos + (copy_preamble_loop c (fun k => x (r.pos + k)) n n.toNat r.rx 0).2).toNat) := by
    have e : (r.pos + (copy_preamble_loop c (fun k => x (r.pos + k)) n n.toNat r.rx 0).2).toNat =
        r.pos.toNat +
          (copy_preamble_loop c (fun k => x (r.pos + k)) n n.toNat r.rx 0).2.toNat := by omega
    rw [hring, ring_append_append, stream_slice_shift, e, ← stream_slice_append]
    congr 3
    omega
  by_cases hd : (copy_preamble_loop c (fun k => x (r.pos + k)) n n.toNat r.rx 0).1.d_sync_offset =
      (copy_preamble_loop c (fun k => x (r.pos + k)) n n.toNat r.rx 0).1.d_frame_start
  · rw [if_pos hd] at hwk
    have hstate : (run_call c ops x r n).rx.d_receiver_state = COPY_FRAME_CONTROL := by
      rw [hrx, hwk]
    have hw : preamble_written c (run_call c ops x r n) =
        r.pos + (copy_preamble_loop c (fun k => x (r.pos + k)) n n.toNat r.rx 0).2 := by
      rw [preamble_written_other c _ (by rw [hstate]; decide), hpos, hwk]
    refine ⟨⟨by rw [hw]; omega, ?_⟩, ?_, ?_, ?_, Or.inr ⟨hstate, ?_, ?_⟩⟩
    · rw [hw, ← hring2, ← f1, hrx, hwk]
    · rw [hrx, hwk]; exact f5
    · rw [hpos, hrx, hwk]
      show r.pos + _ - (copy_preamble_loop c (fun k => x (r.pos + k)) n n.toNat r.rx 0).1.d_sync_offset
        = _
      rw [f3]; ring
    · rw [hrx, hwk]
      show (copy_preamble_loop c (fun k => x (r.pos + k)) n n.toNat r.rx 0).1.d_sync_offset ≤
        (copy_preamble_loop c (fun k => x (r.pos + k)) n n.toNat r.rx 0).1.d_frame_start
      rw [f5]; exact f4
    · rw [hrx, hwk]; exact hd
    · rw [hrx, hwk]
      show ops.process_ppdu_preamble
        (copy_preamble_loop c (fun k => x (r.pos + k)) n n.toNat r.rx 0).1.d_phy_service _ = _
      rw [f7]
      rfl
  · rw [if_neg hd] at hwk
    have hstate : (run_call c ops x r n).rx.d_receiver_state = COPY_PREAMBLE := by
      rw [hrx, hwk]; exact f6.trans hst
    have hw : preamble_written c (run_call c ops x r n) =
        r.pos + (copy_preamble_loop c (fun k => x (r.pos + k)) n n.toNat r.rx 0).2 := by
      rw [preamble_written_other c _ (by rw [hstate]; decide), hpos, hwk]
    refine ⟨⟨by rw [hw]; omega, ?_⟩, ?_, ?_, ?_, Or.inl ⟨hstate, ?_⟩⟩
    · rw [hw, ← hring2, ← f1, hrx, hwk]
    · rw [hrx, hwk]; exact f5
    · rw [hpos, hrx, hwk]
      show r.pos + _ - (copy_preamble_loop c (fun k => x (r.pos + k)) n n.toNat r.rx 0).1.d_sync_offset
        = _
      rw [f3]; ring
    · rw [hrx, hwk]
      show (copy_preamble_loop c (fun k => x (r.pos + k)) n n.toNat r.rx 0).1.d_sync_offset ≤
        (copy_preamble_loop c (fun k => x (r.pos + k)) n n.toNat r.rx 0).1.d_frame_start
      rw [f5]; exact f4
    · rw [hrx, hwk]; exact f7

theorem copy_phase_call (c : constants) (ops : phy_service_ops P) (x : Int → ℚ)
    (buf0 : List ℚ) (p3 fs : Int) (phy0 : P) (r : run_state P) (n : Int)
    (hst : r.rx.d_receiver_state = COPY_PREAMBLE) (h : copy_phase c ops x buf0 p3 fs phy0 r) :
    copy_phase c ops x buf0 p3 fs phy0 (run_call c ops x r n) := by
  obtain ⟨h1, h2, h3, h4, h5⟩ := h
  have hphy : r.rx.d_phy_service = phy0 := by
    rcases h5 with ⟨_, a⟩ | ⟨a, _⟩
    · exact a
    · rw [hst] at a; exact absurd a (by decide)
  obtain ⟨a1, a2, a3, a4, a5⟩ := ring_holds_copy_call c ops x buf0 r n hst h1 (by rw [h2]; exact h4)
  refine ⟨a1, by rw [a2, h2], by rw [a3, h3], by rw [← h2, ← a2]; exact a4, ?_⟩
  rcases a5 with ⟨b1, b2⟩ | ⟨b1, b2, b3⟩
  · exact Or.inl ⟨b1, by rw [b2, hphy]⟩
  · exact Or.inr ⟨b1, by rw [b2, a2, h2], by rw [b3, hphy]⟩

/-- The calls made in COPY_PREAMBLE keep the circular buffer in step with the
stream up to the hand-over, however the stream is split into calls. -/
theorem copy_phase_run (c : constants) (ops : phy_service_ops P) (x : Int → ℚ)
    (buf0 : List ℚ) (p3 fs : Int) (phy0 : P) (ns : List Int) :
    ∀ r : run_state P, copy_phase c ops x buf0 p3 fs phy0 r →
      copy_phase c ops x buf0 p3 fs phy0 (run_in COPY_PREAMBLE c ops x r ns) := by
  induction ns with
  | nil => intro r h; exact h
  | cons n ns ih =>
    intro r h
    by_cases hst : r.rx.d_receiver_state = COPY_PREAMBLE
    · rw [run_in, if_pos hst]
      exact ih _ (copy_phase_call c ops x buf0 p3 fs phy0 r n hst h)
    · rw [run_in, if_neg hst]
      exact h

theorem trailing_hits_le_length (l : List Bool) : trailing_hits l ≤ l.length := by
  unfold trailing_hits
  have h := (List.takeWhile_sublist (l := l.reverse) id).length_le
  rw [List.length_reverse] at h
  exact h

/-- C15 (ring-buffer content at the preamble hand-over). For even
`SYNCP_SIZE > 0`, a receiver in RESET with a preamble buffer of `PREAMBLE_SIZE`
entries and a stream `x` indexed from the first sample seen by the RESET call:
`r1` is the run after the RESET call, `r2` after any calls made in SEARCH that
end in SYNC, `r3` after the SYNC call, `r4` after any calls made in
COPY_PREAMBLE that end in COPY_FRAME_CONTROL. At each of these points, and after
any number of the SEARCH or COPY_PREAMBLE calls, the circular buffer is the
original buffer into which the consecutive stream samples `x[0..T-1]` have been
put in order from write position 0 (`ring_holds`): `T = 2*SYNCP_SIZE` after
RESET; SEARCH adds `r2.pos - 2*SYNCP_SIZE >= MIN_PLATEAU` samples, so that
`T = r2.pos`; SYNC adds `2*SYNCP_SIZE`; COPY_PREAMBLE adds
`d_frame_start >= SYNCP_SIZE/2`; in all `T = r4.pos >= PREAMBLE_SIZE`. The buffer
handed to `process_ppdu_preamble` is `x[T-PREAMBLE_SIZE..T-1]` in chronological
order, whatever the buffer held before the RESET. -/
theorem preamble_ring_handoff (c : constants) (ops : phy_service_ops P) (x : Int → ℚ)
    (s : phy_rx_impl P) (n0 : Int) (ns1 : List Int) (n2 : Int) (ns3 : List Int)
    (hS : 0 < c.SYNCP_SIZE) (heven : c.SYNCP_SIZE % 2 = 0)
    (hst : s.d_receiver_state = RESET)
    (hlen : (s.d_preamble.length : Int) = c.PREAMBLE_SIZE)
    (h2 : (run_in SEARCH c ops x (run_call c ops x (run_start s) n0) ns1).rx.d_receiver_state
      = SYNC)
    (h4 : (run_in COPY_PREAMBLE c ops x
      (run_call c ops x (run_in SEARCH c ops x (run_call c ops x (run_start s) n0) ns1) n2)
      ns3).rx.d_receiver_state = COPY_FRAME_CONTROL) :
    let r1 := run_call c ops x (run_start s) n0
    let r2 := run_in SEARCH c ops x r1 ns1
    let r3 := run_call c ops x r2 n2
    let r4 := run_in COPY_PREAMBLE c ops x r3 ns3
    (ring_holds c x s.d_preamble r1 ∧ preamble_written c r1 = 2 * c.SYNCP_SIZE) ∧
    (∀ ns : List Int, ring_holds c x s.d_preamble (run_in SEARCH c ops x r1 ns)) ∧
    (ring_holds c x s.d_preamble r2 ∧ preamble_written c r2 = r2.pos ∧
      c.MIN_PLATEAU ≤ r2.pos - 2 * c.SYNCP_SIZE) ∧
    (ring_holds c x s.d_preamble r3 ∧ preamble_written c r3 = r3.pos ∧
      r3.pos = r2.pos + 2 * c.SYNCP_SIZE ∧ r3.rx.d_receiver_state = COPY_PREAMBLE ∧
      c.SYNCP_SIZE / 2 ≤ r3.rx.d_frame_start) ∧
    (∀ ns : List Int, ring_holds c x s.d_preamble (run_in COPY_PREAMBLE c ops x r3 ns)) ∧
    (ring_holds c x s.d_preamble r4 ∧ preamble_written c r4 = r4.pos ∧
      r4.pos = r3.pos + r3.rx.d_frame_start) ∧
    c.PREAMBLE_SIZE ≤ r4.pos ∧
    (r4.rx.d_preamble, r4.rx.d_preamble_offset) =
      ring_append c (s.d_preamble, 0) (stream_slice x 0 r4.pos.toNat) ∧
    preamble_aligned r4.rx =
      stream_slice x (r4.pos - c.PREAMBLE_SIZE) c.PREAMBLE_SIZE.toNat ∧
    r4.rx.d_phy_service =
      ops.process_ppdu_preamble s.d_phy_service
        (stream_slice x (r4.pos - c.PREAMBLE_SIZE) c.PREAMBLE_SIZE.toNat) := by
  intro r1 r2 r3 r4
  have hN : c.PREAMBLE_SIZE = c.SYNCP_SIZE * 10 := rfl
  have hMP : c.MIN_PLATEAU = Int.tdiv (11 * c.SYNCP_SIZE) 2 := rfl
  -- RESET
  obtain ⟨a1, a2, a3, a4, a5⟩ := ring_holds_reset c ops x s n0 hst hS
  have hw1 : preamble_written c r1 = 2 * c.SYNCP_SIZE := by
    rw [preamble_written_search c r1 a3, a2, zero_add]
  -- SEARCH
  have hsearch : ∀ ns : List Int,
      ring_holds c x s.d_preamble (run_in SEARCH c ops x r1 ns) ∧
      ((run_in SEARCH c ops x r1 ns).rx.d_receiver_state = SEARCH ∨
        (run_in SEARCH c ops x r1 ns).rx.d_receiver_state = SYNC) ∧
      (run_in SEARCH c ops x r1 ns).rx.d_sync_offset = r1.rx.d_sync_offset ∧
      (run_in SEARCH c ops x r1 ns).rx.d_phy_service = r1.rx.d_phy_service :=
    fun ns => ring_holds_search_run c ops x s.d_preamble ns r1 (Or.inl a3) a1
  obtain ⟨b1, _, b3, b4⟩ := hsearch ns1
  have hw2 : preamble_written c r2 = r2.pos :=
    preamble_written_other c r2 (by rw [h2]; decide)
  obtain ⟨p0, _, _, _⟩ := search_phase_reset c ops x s n0 hst (le_of_lt hS)
  obtain ⟨_, _, _, pcase⟩ := search_phase_run c ops x (le_of_lt hS) ns1 _ p0
  have hcount : c.MIN_PLATEAU ≤ r2.pos - 2 * c.SYNCP_SIZE := by
    rcases pcase with ⟨q1, _⟩ | ⟨_, q2, _, q4, _⟩
    · rw [h2] at q1; exact absurd q1 (by decide)
    · have hle := trailing_hits_le_length r2.search_hits
      have q2' : r2.pos = (r2.search_hits.length : Int) - 1 + 2 * c.SYNCP_SIZE := q2
      have q4' : (trailing_hits r2.search_hits : Int) = c.MIN_PLATEAU + 1 := q4
      omega
  -- SYNC
  obtain ⟨c1, c2, c3, c4, c5, c6⟩ := ring_holds_sync_call c ops x s.d_preamble r2 n2 h2 hS b1
  have hw3 : preamble_written c r3 = r3.pos :=
    preamble_written_other c r3 (by rw [c4]; decide)
  -- COPY_PREAMBLE
  have c2 : r3.pos = r2.pos + 2 * c.SYNCP_SIZE := c2
  have c3 : c.SYNCP_SIZE / 2 ≤ r3.rx.d_frame_start := c3
  have hso3 : r3.rx.d_sync_offset = 0 := by rw [c5, b3]; exact a4
  have hphy3 : r3.rx.d_phy_service = s.d_phy_service := by rw [c6, b4]; exact a5
  have hfs0 : 0 ≤ r3.rx.d_frame_start := by omega
  have hcp0 : copy_phase c ops x s.d_preamble r3.pos r3.rx.d_frame_start s.d_phy_service r3 :=
    ⟨c1, rfl, by rw [hso3, sub_zero], by rw [hso3]; exact hfs0, Or.inl ⟨c4, hphy3⟩⟩
  have hcopy : ∀ ns : List Int,
      copy_phase c ops x s.d_preamble r3.pos r3.rx.d_frame_start s.d_phy_service
        (run_in COPY_PREAMBLE c ops x r3 ns) :=
    fun ns => copy_phase_run c ops x s.d_preamble r3.pos r3.rx.d_frame_start s.d_phy_service
      ns r3 hcp0
  obtain ⟨d1, _, d3, _, d5⟩ := hcopy ns3
  have hw4 : preamble_written c r4 = r4.pos :=
    preamble_written_other c r4 (by rw [h4]; decide)
  obtain ⟨e1, e2⟩ : r4.rx.d_sync_offset = r3.rx.d_frame_start ∧
      r4.rx.d_phy_service = ops.process_ppdu_preamble s.d_phy_service (preamble_aligned r4.rx) := by
    rcases d5 with ⟨q1, _⟩ | ⟨_, q2, q3⟩
    · rw [h4] at q1; exact absurd q1 (by decide)
    · exact ⟨q2, q3⟩
  have e1 : r4.rx.d_sync_offset = r3.rx.d_frame_start := e1
  have hpos4 : r4.pos = r3.pos + r3.rx.d_frame_start := by
    have : r4.pos - r4.rx.d_sync_offset = r3.pos := d3
    omega
  have hT : c.PREAMBLE_SIZE ≤ r4.pos := by
    rw [hpos4, c2, hN]
    rw [hMP, Int.tdiv_eq_ediv (by omega) (by omega)] at hcount
    omega
  have hring4 : (r4.rx.d_preamble, r4.rx.d_preamble_offset) =
      ring_append c (s.d_preamble, 0) (stream_slice x 0 r4.pos.toNat) := by
    have := d1.2
    rw [hw4] at this
    exact this
  have hal : preamble_aligned r4.rx =
      stream_slice x (r4.pos - c.PREAMBLE_SIZE) c.PREAMBLE_SIZE.toNat := by
    have hcast : ((r4.pos.toNat : Nat) : Int) = r4.pos := Int.toNat_of_nonneg (by omega)
    have h := ring_append_aligned c x s.d_preamble (by omega) hlen r4.pos.toNat (by omega)
    rw [hcast, ← hring4] at h
    exact h
  refine ⟨⟨a1, hw1⟩, fun ns => (hsearch ns).1, ⟨b1, hw2, hcount⟩, ⟨c1, hw3, c2, c4, c3⟩,
    fun ns => (hcopy ns).1, ⟨d1, hw4, hpos4⟩, hT, hring4, hal, ?_⟩
  rw [e2, hal]

/-- Witness of C15: `SYNCP_SIZE = 2`, the stream `x[k] = k`, a preamble buffer of
20 stale entries, SEARCH split into calls of 7 and 20 items, COPY_PREAMBLE into
calls of 1 and 5. The hand-over comes after `T = 21` samples and the service
receives `x[1..20]`. -/
theorem preamble_ring_handoff_witness :
    (run_in COPY_PREAMBLE demo_constants2 demo_record_ops ramp
      (run_call demo_constants2 demo_record_ops ramp
        (run_in SEARCH demo_constants2 demo_record_ops ramp
          (run_call demo_constants2 demo_record_ops ramp (run_start demo_record_rx) 4) [7, 20])
        7) [1, 5]).rx.d_phy_service =
      stream_slice ramp
        ((run_in COPY_PREAMBLE demo_constants2 demo_record_ops ramp
          (run_call demo_constants2 demo_record_ops ramp
            (run_in SEARCH demo_constants2 demo_record_ops ramp
              (run_call demo_constants2 demo_record_ops ramp (run_start demo_record_rx) 4)
              [7, 20])
            7) [1, 5]).pos - 20) 20 ∧
    (20 : Int) ≤ (run_in COPY_PREAMBLE demo_constants2 demo_record_ops ramp
      (run_call demo_constants2 demo_record_ops ramp
        (run_in SEARCH demo_constants2 demo_record_ops ramp
          (run_call demo_constants2 demo_record_ops ramp (run_start demo_record_rx) 4) [7, 20])
        7) [1, 5]).pos := by
  have h := preamble_ring_handoff demo_constants2 demo_record_ops ramp demo_record_rx 4 [7, 20]
    7 [1, 5] (by decide) (by decide) rfl (by decide) (by decide!) (by decide!)
  exact ⟨h.2.2.2.2.2.2.2.2.2, h.2.2.2.2.2.2.1⟩

/-! ## Input bounds -/

theorem reset_loop_log_fst (c : constants) (inp : Int → ℚ) (fuel : Nat) :
    ∀ (s : phy_rx_impl P) (j : Int),
      (reset_loop_log c inp fuel s j).1 = reset_loop c inp fuel s j := by
  induction fuel with
  | zero => intro s j; rfl
  | succ fuel ih =>
    intro s j
    rw [reset_loop_log, reset_loop]
    split_ifs
    · exact ih _ _
    · rfl

theorem search_loop_log_fst (c : constants) (inp : Int → ℚ) (ninput : Int) (fuel : Nat) :
    ∀ (s : phy_rx_impl P) (i : Int),
      (search_loop_log c inp ninput fuel s i).1 = search_loop c inp ninput fuel s i := by
  induction fuel with
  | zero => intro s i; rfl
  | succ fuel ih =>
    intro s i
    rw [search_loop_log, search_loop]
    by_cases hg : i + 2 * c.SYNCP_SIZE < ninput
    · simp only [hg, if_true]
      split_ifs <;> first | rfl | simp only [ih]
    · simp only [hg, if_false]

theorem sync_loop1_log_fst (c : constants) (inp : Int → ℚ) (fuel : Nat) :
    ∀ (s : phy_rx_impl P) (i mi : Int) (mv : ℚ),
      (sync_loop1_log c inp fuel s i mi mv).1 = sync_loop1 c inp fuel s i mi mv := by
  induction fuel with
  | zero => intro s i mi mv; rfl
  | succ fuel ih =>
    intro s i mi mv
    rw [sync_loop1_log, sync_loop1]
    split_ifs
    · exact ih _ _ _ _
    · exact ih _ _ _ _
    · rfl

theorem sync_loop2_log_fst (c : constants) (inp : Int → ℚ) (fuel : Nat) :
    ∀ (s : phy_rx_impl P) (i : Int),
      (sync_loop2_log c inp fuel s i).1 = sync_loop2 c inp fuel s i := by
  induction fuel with
  | zero => intro s i; rfl
  | succ fuel ih =>
    intro s i
    rw [sync_loop2_log, sync_loop2]
    split_ifs
    · exact ih _ _
    · rfl

theorem copy_preamble_loop_log_fst (c : constants) (inp : Int → ℚ) (ninput : Int) (fuel : Nat) :
    ∀ (s : phy_rx_impl P) (i : Int),
      (copy_preamble_loop_log c inp ninput fuel s i).1 =
        copy_preamble_loop c inp ninput fuel s i := by
  induction fuel with
  | zero => intro s i; rfl
  | succ fuel ih =>
    intro s i
    rw [copy_preamble_loop_log, copy_preamble_loop]
    split_ifs
    · exact ih _ _
    · rfl

/-- The function `work_log` computes what `work` computes. -/
theorem work_log_fst (c : constants) (ops : phy_service_ops P) (n : Int) (inp : Int → ℚ)
    (s : phy_rx_impl P) : (work_log c ops n inp s).1 = work c ops n inp s := by
  cases hst : s.d_receiver_state
  · rw [work_in_search c ops n inp s hst]
    simp only [work_log, hst, work_search_log, work_search, search_loop_log_fst]
  · rw [work_in_sync c ops n inp s hst]
    simp only [work_log, hst]
    unfold work_sync_log work_sync
    simp only [sync_loop1_log_fst, sync_loop2_log_fst]
    split_ifs <;> rfl
  · rw [work_in_copy_preamble c ops n inp s hst]
    simp only [work_log, hst]
    unfold work_copy_preamble_log work_copy_preamble
    simp only [copy_preamble_loop_log_fst]
    split_ifs <;> rfl
  · simp only [work_log, hst]
  · simp only [work_log, hst]
  · simp only [work_log, hst]
  · simp only [work_log, hst]
  · rw [work_in_reset c ops n inp s hst]
    simp only [work_log, hst, work_reset_log, work_reset, reset_loop_log_fst]
  · simp only [work_log, hst]
  · simp only [work_log, hst]

theorem in_bounds_none (c : constants) (ninput : Int) :
    access_log.in_bounds c ninput access_log.none := by
  simp [access_log.in_bounds, access_log.none]

theorem in_bounds_append (c : constants) (ninput : Int) (a b : access_log)
    (ha : access_log.in_bounds c ninput a) (hb : access_log.in_bounds c ninput b) :
    access_log.in_bounds c ninput (access_log.append a b) := by
  obtain ⟨a1, a2, a3⟩ := ha
  obtain ⟨b1, b2, b3⟩ := hb
  refine ⟨?_, ?_, ?_⟩
  · intro k hk
    rcases List.mem_append.1 hk with h | h
    · exact a1 k h
    · exact b1 k h
  · intro k hk
    rcases List.mem_append.1 hk with h | h
    · exact a2 k h
    · exact b2 k h
  · intro k hk
    rcases List.mem_append.1 hk with h | h
    · exact a3 k h
    · exact b3 k h

theorem in_bounds_preamble_put (c : constants) (ninput : Int) (s : phy_rx_impl P) (k : Int)
    (hk0 : 0 ≤ k) (hk : k < ninput) (h0 : 0 ≤ s.d_preamble_offset)
    (h1 : s.d_preamble_offset < c.PREAMBLE_SIZE) :
    access_log.in_bounds c ninput (preamble_put_log s k) := by
  refine ⟨?_, ?_, ?_⟩
  · intro j hj
    simp only [preamble_put_log, List.mem_singleton] at hj
    subst hj; exact ⟨hk0, hk⟩
  · intro j hj
    simp only [preamble_put_log, List.mem_singleton] at hj
    subst hj; exact ⟨h0, h1⟩
  · intro d hd
    simp [preamble_put_log] at hd

theorem preamble_put_offset (c : constants) (s : phy_rx_impl P) (v : ℚ)
    (hN : 0 < c.PREAMBLE_SIZE) (h0 : 0 ≤ s.d_preamble_offset) :
    0 ≤ (preamble_put c s v).d_preamble_offset ∧
      (preamble_put c s v).d_preamble_offset < c.PREAMBLE_SIZE := by
  have e : (preamble_put c s v).d_preamble_offset =
      (s.d_preamble_offset + 1) % c.PREAMBLE_SIZE := by
    show Int.tmod (s.d_preamble_offset + 1) c.PREAMBLE_SIZE = _
    exact Int.tmod_eq_emod (by omega) (by omega)
  rw [e]
  exact ⟨Int.emod_nonneg _ (by omega), Int.emod_lt_of_pos _ hN⟩

theorem reset_loop_log_bounds (c : constants) (inp : Int → ℚ) (ninput : Int) (fuel : Nat) :
    ∀ (s : phy_rx_impl P) (j : Int), 0 ≤ j → j + fuel ≤ c.SYNCP_SIZE →
      2 * c.SYNCP_SIZE ≤ ninput → 0 ≤ s.d_preamble_offset →
      s.d_preamble_offset + 2 * fuel ≤ c.PREAMBLE_SIZE →
      access_log.in_bounds c ninput (reset_loop_log c inp fuel s j).2 := by
  induction fuel with
  | zero => intro s j _ _ _ _ _; exact in_bounds_none c ninput
  | succ fuel ih =>
    intro s j hj0 hj hn h0 h1
    have hlt : j < c.SYNCP_SIZE := by push_cast at hj; omega
    rw [reset_loop_log]
    simp only [hlt, if_true]
    apply in_bounds_append
    · refine ⟨?_, ?_, ?_⟩
      · intro k hk
        simp only [List.mem_cons, List.mem_singleton, List.not_mem_nil, or_false] at hk
        omega
      · intro k hk
        simp only [List.mem_cons, List.mem_singleton, List.not_mem_nil, or_false] at hk
        push_cast at h1
        omega
      · intro d hd
        simp at hd
    · apply ih _ (j + 1) (by omega) (by push_cast at hj ⊢; omega) hn
      · show 0 ≤ s.d_preamble_offset + 1 + 1
        omega
      · show s.d_preamble_offset + 1 + 1 + 2 * (fuel : Int) ≤ c.PREAMBLE_SIZE
        push_cast at h1; omega

theorem search_loop_log_bounds (c : constants) (inp : Int → ℚ) (ninput : Int) (fuel : Nat)
    (hS : 0 < c.SYNCP_SIZE) :
    ∀ (s : phy_rx_impl P) (i : Int), 0 ≤ i → 0 ≤ s.d_preamble_offset →
      s.d_preamble_offset < c.PREAMBLE_SIZE →
      access_log.in_bounds c ninput (search_loop_log c inp ninput fuel s i).2 := by
  have hN : 0 < c.PREAMBLE_SIZE := by show 0 < c.SYNCP_SIZE * 10; omega
  induction fuel with
  | zero => intro s i _ _ _; exact in_bounds_none c ninput
  | succ fuel ih =>
    intro s i hi h0 h1
    rw [search_loop_log]
    by_cases hg : i + 2 * c.SYNCP_SIZE < ninput
    · simp only [hg, if_true]
      have hsums : ∀ (e : ℚ), access_log.in_bounds c ninput
          { reads := [i + c.SYNCP_SIZE, i + c.SYNCP_SIZE * 2, i, i + c.SYNCP_SIZE,
              i + c.SYNCP_SIZE, i + c.SYNCP_SIZE, i, i],
            preamble_writes := [],
            divisors := if e > MIN_ENERGY then [e] else [] } := by
        intro e
        refine ⟨?_, ?_, ?_⟩
        · intro k hk
          simp only [List.mem_cons, List.mem_singleton, List.not_mem_nil, or_false] at hk
          omega
        · intro k hk
          simp at hk
        · intro d hd
          by_cases he : e > MIN_ENERGY
          · rw [if_pos he] at hd
            simp only [List.mem_singleton] at hd
            subst hd; exact he
          · rw [if_neg he] at hd
            simp at hd
      have hput : ∀ (t : phy_rx_impl P), t.d_preamble_offset = s.d_preamble_offset →
          access_log.in_bounds c ninput (preamble_put_log t (i + 2 * c.SYNCP_SIZE)) := by
        intro t ht
        exact in_bounds_preamble_put c ninput t _ (by omega) hg (by rw [ht]; exact h0)
          (by rw [ht]; exact h1)
      have hrec : ∀ (t : phy_rx_impl P) (v : ℚ), t.d_preamble_offset = s.d_preamble_offset →
          access_log.in_bounds c ninput
            (search_loop_log c inp ninput fuel (preamble_put c t v) (i + 1)).2 := by
        intro t v ht
        obtain ⟨p0, p1⟩ := preamble_put_offset c t v hN (by rw [ht]; exact h0)
        exact ih _ (i + 1) (by omega) p0 p1
      by_cases hc : s.d_energy +
            (inp (i + c.SYNCP_SIZE) * inp (i + c.SYNCP_SIZE) - inp i * inp i) > MIN_ENERGY ∧
          (s.d_search_corr + (inp (i + c.SYNCP_SIZE) * inp (i + c.SYNCP_SIZE * 2) -
            inp i * inp (i + c.SYNCP_SIZE))) /
            (s.d_energy + (inp (i + c.SYNCP_SIZE) * inp (i + c.SYNCP_SIZE) - inp i * inp i)) >
            THRESHOLD
      · rw [if_pos hc]
        by_cases hp : s.d_plateau < c.MIN_PLATEAU
        · rw [if_pos hp]
          exact in_bounds_append _ _ _ _
            (in_bounds_append _ _ _ _ (hsums _) (hput _ rfl)) (hrec _ _ rfl)
        · rw [if_neg hp]
          exact hsums _
      · rw [if_neg hc]
        exact in_bounds_append _ _ _ _
          (in_bounds_append _ _ _ _ (hsums _) (hput _ rfl)) (hrec _ _ rfl)
    · simp only [hg, if_false]
      exact in_bounds_none c ninput

theorem filterN_reads_bounds (taps : List ℚ) (n : Int) :
    ∀ k ∈ filterN_reads taps n, 0 ≤ k ∧ k < n + (taps.length : Int) - 1 := by
  intro k hk
  simp only [filterN_reads, List.mem_flatMap, List.mem_map, List.mem_range] at hk
  obtain ⟨m, hm, t, ht, rfl⟩ := hk
  omega

theorem sync_loop1_log_bounds (c : constants) (inp : Int → ℚ) (ninput : Int) (fuel : Nat)
    (hN : 0 < c.PREAMBLE_SIZE) (hn : c.SYNC_LENGTH - c.SYNCP_SIZE ≤ ninput) :
    ∀ (s : phy_rx_impl P) (i mi : Int) (mv : ℚ), 0 ≤ i → 0 ≤ s.d_preamble_offset →
      s.d_preamble_offset < c.PREAMBLE_SIZE →
      access_log.in_bounds c ninput (sync_loop1_log c inp fuel s i mi mv).2 := by
  induction fuel with
  | zero => intro s i mi mv _ _ _; exact in_bounds_none c ninput
  | succ fuel ih =>
    intro s i mi mv hi h0 h1
    obtain ⟨p0, p1⟩ := preamble_put_offset c s (inp i) hN h0
    rw [sync_loop1_log]
    by_cases hg : i < c.SYNC_LENGTH - c.SYNCP_SIZE
    · rw [if_pos hg]
      by_cases hm : rd s.d_correlation i * rd s.d_correlation (i + c.SYNCP_SIZE) > mv
      · rw [if_pos hm]
        exact in_bounds_append _ _ _ _
          (in_bounds_preamble_put c ninput s i hi (by omega) h0 h1)
          (ih _ (i + 1) _ _ (by omega) p0 p1)
      · rw [if_neg hm]
        exact in_bounds_append _ _ _ _
          (in_bounds_preamble_put c ninput s i hi (by omega) h0 h1)
          (ih _ (i + 1) _ _ (by omega) p0 p1)
    · rw [if_neg hg]
      exact in_bounds_none c ninput

theorem sync_loop2_log_bounds (c : constants) (inp : Int → ℚ) (ninput : Int) (fuel : Nat)
    (hN : 0 < c.PREAMBLE_SIZE) (hn : c.SYNC_LENGTH ≤ ninput) :
    ∀ (s : phy_rx_impl P) (i : Int), 0 ≤ i → 0 ≤ s.d_preamble_offset →
      s.d_preamble_offset < c.PREAMBLE_SIZE →
      access_log.in_bounds c ninput (sync_loop2_log c inp fuel s i).2 := by
  induction fuel with
  | zero => intro s i _ _ _; exact in_bounds_none c ninput
  | succ fuel ih =>
    intro s i hi h0 h1
    obtain ⟨p0, p1⟩ := preamble_put_offset c s (inp i) hN h0
    rw [sync_loop2_log]
    by_cases hg : i < c.SYNC_LENGTH
    · rw [if_pos hg]
      exact in_bounds_append _ _ _ _
        (in_bounds_preamble_put c ninput s i hi (by omega) h0 h1)
        (ih _ (i + 1) (by omega) p0 p1)
    · rw [if_neg hg]
      exact in_bounds_none c ninput

theorem copy_preamble_loop_log_bounds (c : constants) (inp : Int → ℚ) (ninput : Int)
    (fuel : Nat) (hN : 0 < c.PREAMBLE_SIZE) :
    ∀ (s : phy_rx_impl P) (i : Int), 0 ≤ i → 0 ≤ s.d_preamble_offset →
      s.d_preamble_offset < c.PREAMBLE_SIZE →
      access_log.in_bounds c ninput (copy_preamble_loop_log c inp ninput fuel s i).2 := by
  induction fuel with
  | zero => intro s i _ _ _; exact in_bounds_none c ninput
  | succ fuel ih =>
    intro s i hi h0 h1
    obtain ⟨p0, p1⟩ := preamble_put_offset c s (inp i) hN h0
    rw [copy_preamble_loop_log]
    by_cases hg : i < ninput ∧ s.d_sync_offset < s.d_frame_start
    · rw [if_pos hg]
      exact in_bounds_append _ _ _ _
        (in_bounds_preamble_put c ninput s i hi hg.1 h0 h1)
        (ih _ (i + 1) (by omega) p0 p1)
    · rw [if_neg hg]
      exact in_bounds_none c ninput

/-- The accesses of the SYNC case are in range once `ninput` is at least
`SYNC_LENGTH + SYNCP_SIZE - 1` and the filter has `SYNCP_SIZE` taps. -/
theorem work_sync_log_bounds (c : constants) (inp : Int → ℚ) (ninput : Int)
    (s : phy_rx_impl P) (hS : 0 < c.SYNCP_SIZE)
    (hn : c.SYNC_LENGTH + c.SYNCP_SIZE - 1 ≤ ninput)
    (hfir : (s.d_fir.length : Int) = c.SYNCP_SIZE)
    (h0 : 0 ≤ s.d_preamble_offset) (h1 : s.d_preamble_offset < c.PREAMBLE_SIZE) :
    access_log.in_bounds c ninput (work_sync_log c inp s).2 := by
  have hN : 0 < c.PREAMBLE_SIZE := by show 0 < c.SYNCP_SIZE * 10; omega
  have hSL : c.SYNC_LENGTH = 2 * c.SYNCP_SIZE := rfl
  have hlog : (work_sync_log c inp s).2 =
      access_log.append
        { reads := filterN_reads s.d_fir c.SYNC_LENGTH, preamble_writes := [], divisors := [] }
        (access_log.append
          (sync_loop1_log c inp (c.SYNC_LENGTH - c.SYNCP_SIZE).toNat
            { s with d_correlation := filterN s.d_fir inp c.SYNC_LENGTH } 0 0
            (rd (filterN s.d_fir inp c.SYNC_LENGTH) 0 *
              rd (filterN s.d_fir inp c.SYNC_LENGTH) c.SYNCP_SIZE)).2
          (sync_loop2_log c inp c.SYNC_LENGTH.toNat
            (sync_loop1_log c inp (c.SYNC_LENGTH - c.SYNCP_SIZE).toNat
              { s with d_correlation := filterN s.d_fir inp c.SYNC_LENGTH } 0 0
              (rd (filterN s.d_fir inp c.SYNC_LENGTH) 0 *
                rd (filterN s.d_fir inp c.SYNC_LENGTH) c.SYNCP_SIZE)).1.1
            (sync_loop1_log c inp (c.SYNC_LENGTH - c.SYNCP_SIZE).toNat
              { s with d_correlation := filterN s.d_fir inp c.SYNC_LENGTH } 0 0
              (rd (filterN s.d_fir inp c.SYNC_LENGTH) 0 *
                rd (filterN s.d_fir inp c.SYNC_LENGTH) c.SYNCP_SIZE)).1.2.1).2) := by
    unfold work_sync_log
    simp only []
    split_ifs <;> rfl
  rw [hlog]
  obtain ⟨a1, a2⟩ := sync_loop1_ring c inp (c.SYNC_LENGTH - c.SYNCP_SIZE).toNat
    ({ s with d_correlation := filterN s.d_fir inp c.SYNC_LENGTH } : phy_rx_impl P) 0 0
    (rd (filterN s.d_fir inp c.SYNC_LENGTH) 0 *
      rd (filterN s.d_fir inp c.SYNC_LENGTH) c.SYNCP_SIZE) (by omega)
  obtain ⟨o0, o1⟩ := ring_append_offset_bounds c hN
    (stream_slice inp 0 (c.SYNC_LENGTH - c.SYNCP_SIZE).toNat)
    (s.d_preamble, s.d_preamble_offset) h0 h1
  apply in_bounds_append
  · refine ⟨?_, ?_, ?_⟩
    · intro k hk
      have := filterN_reads_bounds s.d_fir c.SYNC_LENGTH k hk
      omega
    · intro k hk; simp at hk
    · intro d hd; simp at hd
  · apply in_bounds_append
    · exact sync_loop1_log_bounds c inp ninput _ hN (by omega) _ 0 _ _ (le_refl 0) h0 h1
    · rw [sync_loop1_log_fst]
      apply sync_loop2_log_bounds c inp ninput _ hN (by omega)
      · rw [a2]; omega
      · rw [a1]; exact o0
      · rw [a1]; exact o1

theorem search_loop_consumed (c : constants) (inp : Int → ℚ) (ninput : Int) (fuel : Nat)
    (hS : 0 ≤ c.SYNCP_SIZE) :
    ∀ (s : phy_rx_impl P) (i : Int), i ≤ ninput →
      i ≤ (search_loop c inp ninput fuel s i).2.1 ∧
      (search_loop c inp ninput fuel s i).2.1 ≤ ninput := by
  induction fuel with
  | zero => intro s i h; exact ⟨le_refl _, h⟩
  | succ fuel ih =>
    intro s i h
    rw [search_loop]
    by_cases hg : i + 2 * c.SYNCP_SIZE < ninput
    · simp only [hg, if_true]
      split_ifs
      · obtain ⟨a, b⟩ := ih
          (preamble_put c
            ({ s with
              d_search_corr := s.d_search_corr +
                (inp (i + c.SYNCP_SIZE) * inp (i + c.SYNCP_SIZE * 2) -
                  inp i * inp (i + c.SYNCP_SIZE))
              d_energy := s.d_energy +
                (inp (i + c.SYNCP_SIZE) * inp (i + c.SYNCP_SIZE) - inp i * inp i)
              d_plateau := s.d_plateau + 1 } : phy_rx_impl P)
            (inp (i + 2 * c.SYNCP_SIZE))) (i + 1) (by omega)
        exact ⟨le_trans (by omega : i ≤ i + 1) a, b⟩
      · exact ⟨by show i ≤ i + 2 * c.SYNCP_SIZE; omega,
          by show i + 2 * c.SYNCP_SIZE ≤ ninput; omega⟩
      · obtain ⟨a, b⟩ := ih
          (preamble_put c
            ({ s with
              d_search_corr := s.d_search_corr +
                (inp (i + c.SYNCP_SIZE) * inp (i + c.SYNCP_SIZE * 2) -
                  inp i * inp (i + c.SYNCP_SIZE))
              d_energy := s.d_energy +
                (inp (i + c.SYNCP_SIZE) * inp (i + c.SYNCP_SIZE) - inp i * inp i)
              d_plateau := 0 } : phy_rx_impl P)
            (inp (i + 2 * c.SYNCP_SIZE))) (i + 1) (by omega)
        exact ⟨le_trans (by omega : i ≤ i + 1) a, b⟩
    · simp only [hg, if_false]
      exact ⟨le_refl _, h⟩

theorem copy_preamble_loop_consumed (c : constants) (inp : Int → ℚ) (ninput : Int)
    (fuel : Nat) :
    ∀ (s : phy_rx_impl P) (i : Int), i ≤ ninput →
      i ≤ (copy_preamble_loop c inp ninput fuel s i).2 ∧
      (copy_preamble_loop c inp ninput fuel s i).2 ≤ ninput := by
  induction fuel with
  | zero => intro s i h; exact ⟨le_refl _, h⟩
  | succ fuel ih =>
    intro s i h
    rw [copy_preamble_loop]
    by_cases hg : i < ninput ∧ s.d_sync_offset < s.d_frame_start
    · rw [if_pos hg]
      obtain ⟨a, b⟩ := ih
        ({ preamble_put c s (inp i) with
          d_sync_offset := (preamble_put c s (inp i)).d_sync_offset + 1 } : phy_rx_impl P)
        (i + 1) (by omega)
      exact ⟨le_trans (by omega : i ≤ i + 1) a, b⟩
    · rw [if_neg hg]
      exact ⟨le_refl _, h⟩

theorem copy_frame_control_loop_consumed (c : constants) (ops : phy_service_ops P)
    (inp : Int → ℚ) (ninput : Int) (fuel : Nat) :
    ∀ (s : phy_rx_impl P) (i : Int), i ≤ ninput →
      i ≤ (copy_frame_control_loop c ops inp ninput fuel s i).2 ∧
      (copy_frame_control_loop c ops inp ninput fuel s i).2 ≤ ninput := by
  induction fuel with
  | zero => intro s i h; exact ⟨le_refl _, h⟩
  | succ fuel ih =>
    intro s i h
    rw [copy_frame_control_loop]
    by_cases hg : i < ninput
    · rw [if_pos hg]
      by_cases hf : s.d_frame_control_offset < c.FRAME_CONTROL_SIZE
      · rw [if_pos hf]
        obtain ⟨a, b⟩ := ih
          ({ s with
            d_frame_control := wr s.d_frame_control s.d_frame_control_offset (inp i)
            d_frame_control_offset := s.d_frame_control_offset + 1 } : phy_rx_impl P)
          (i + 1) (by omega)
        exact ⟨le_trans (by omega : i ≤ i + 1) a, b⟩
      · rw [if_neg hf]
        exact ⟨le_refl _, h⟩
    · rw [if_neg hg]
      exact ⟨le_refl _, h⟩

theorem sense_loop_consumed (inp : Int → ℚ) (j : Int) (fuel : Nat) :
    ∀ (s : phy_rx_impl P) (i : Int),
      i ≤ (sense_loop inp j fuel s i).2 ∧ (sense_loop inp j fuel s i).2 ≤ max i j := by
  induction fuel with
  | zero => intro s i; exact ⟨le_refl _, le_max_left _ _⟩
  | succ fuel ih =>
    intro s i
    rw [sense_loop]
    by_cases hg : i < j
    · rw [if_pos hg]
      obtain ⟨a, b⟩ := ih
        ({ s with
          d_noise := wr s.d_noise s.d_inter_frame_space_offset (inp i)
          d_inter_frame_space_offset := s.d_inter_frame_space_offset + 1 } : phy_rx_impl P)
        (i + 1)
      have h1 : max (i + 1) j = j := max_eq_right (by omega)
      have h2 : max i j = j := max_eq_right (by omega)
      rw [h1] at b
      rw [h2]
      exact ⟨le_trans (by omega : i ≤ i + 1) a, b⟩
    · rw [if_neg hg]
      exact ⟨le_refl _, le_max_left _ _⟩

theorem work_copy_payload_consumed (ops : phy_service_ops P) (ninput : Int) (inp : Int → ℚ)
    (s : phy_rx_impl P) :
    (work_copy_payload ops ninput inp s).consumed =
      min (s.d_payload_size - s.d_payload_offset) ninput := by
  unfold work_copy_payload
  simp only []
  split_ifs <;> rfl

theorem work_consume_space_consumed (ops : phy_service_ops P) (ninput : Int)
    (s : phy_rx_impl P) :
    (work_consume_space ops ninput s).consumed =
      min (ops.get_inter_frame_space s.d_phy_service - s.d_inter_frame_space_offset) ninput := by
  unfold work_consume_space
  simp only []
  split_ifs <;> rfl

theorem work_sense_space_consumed (ops : phy_service_ops P) (ninput : Int) (inp : Int → ℚ)
    (s : phy_rx_impl P) (hn : 0 ≤ ninput) :
    0 ≤ (work_sense_space ops ninput inp s).consumed ∧
      (work_sense_space ops ninput inp s).consumed ≤ ninput := by
  have key : ∀ (s1 : phy_rx_impl P) (j : Int), j ≤ ninput →
      0 ≤ (sense_loop inp j j.toNat s1 0).2 ∧ (sense_loop inp j j.toNat s1 0).2 ≤ ninput := by
    intro s1 j hj
    obtain ⟨a, b⟩ := sense_loop_consumed inp j j.toNat s1 0
    refine ⟨a, b.trans (max_le hn hj)⟩
  unfold work_sense_space
  simp only []
  split_ifs <;> exact key _ _ (min_le_right _ _)

theorem work_copy_preamble_consumed (c : constants) (ops : phy_service_ops P) (ninput : Int)
    (inp : Int → ℚ) (s : phy_rx_impl P) (hn : 0 ≤ ninput) :
    0 ≤ (work_copy_preamble c ops ninput inp s).consumed ∧
      (work_copy_preamble c ops ninput inp s).consumed ≤ ninput := by
  obtain ⟨a, b⟩ := copy_preamble_loop_consumed c inp ninput ninput.toNat s 0 hn
  rw [work_copy_preamble_of_loop]
  split_ifs <;> exact ⟨a, b⟩

theorem reset_loop_frame (c : constants) (inp : Int → ℚ) (fuel : Nat) :
    ∀ (s : phy_rx_impl P) (j : Int), (reset_loop c inp fuel s j).d_fir = s.d_fir := by
  induction fuel with
  | zero => intro s j; rfl
  | succ fuel ih =>
    intro s j
    rw [reset_loop]
    split_ifs
    · exact ih _ _
    · rfl

theorem search_loop_frame (c : constants) (inp : Int → ℚ) (ninput : Int) (fuel : Nat) :
    ∀ (s : phy_rx_impl P) (i : Int), (search_loop c inp ninput fuel s i).1.d_fir = s.d_fir := by
  induction fuel with
  | zero => intro s i; rfl
  | succ fuel ih =>
    intro s i
    rw [search_loop]
    by_cases hg : i + 2 * c.SYNCP_SIZE < ninput
    · simp only [hg, if_true]
      split_ifs
      · exact (ih _ _).trans rfl
      · rfl
      · exact (ih _ _).trans rfl
    · simp only [hg, if_false]

theorem copy_preamble_loop_frame (c : constants) (inp : Int → ℚ) (ninput : Int) (fuel : Nat)
    (hN : 0 < c.PREAMBLE_SIZE) :
    ∀ (s : phy_rx_impl P) (i : Int), 0 ≤ s.d_preamble_offset →
      s.d_preamble_offset < c.PREAMBLE_SIZE →
      (copy_preamble_loop c inp ninput fuel s i).1.d_fir = s.d_fir ∧
      0 ≤ (copy_preamble_loop c inp ninput fuel s i).1.d_preamble_offset ∧
      (copy_preamble_loop c inp ninput fuel s i).1.d_preamble_offset < c.PREAMBLE_SIZE := by
  induction fuel with
  | zero => intro s i h0 h1; exact ⟨rfl, h0, h1⟩
  | succ fuel ih =>
    intro s i h0 h1
    obtain ⟨p0, p1⟩ := preamble_put_offset c s (inp i) hN h0
    rw [copy_preamble_loop]
    split_ifs
    · exact ih _ _ p0 p1
    · exact ⟨rfl, h0, h1⟩

theorem copy_frame_control_loop_frame (c : constants) (ops : phy_service_ops P)
    (inp : Int → ℚ) (ninput : Int) (fuel : Nat) :
    ∀ (s : phy_rx_impl P) (i : Int),
      (copy_frame_control_loop c ops inp ninput fuel s i).1.d_fir = s.d_fir ∧
      (copy_frame_control_loop c ops inp ninput fuel s i).1.d_preamble_offset =
        s.d_preamble_offset := by
  induction fuel with
  | zero => intro s i; exact ⟨rfl, rfl⟩
  | succ fuel ih =>
    intro s i
    rw [copy_frame_control_loop]
    split_ifs
    · exact ih _ _
    · unfold frame_control_decode
      simp only []
      split_ifs <;> exact ⟨rfl, rfl⟩
    · exact ⟨rfl, rfl⟩

theorem sense_loop_frame (inp : Int → ℚ) (j : Int) (fuel : Nat) :
    ∀ (s : phy_rx_impl P) (i : Int),
      (sense_loop inp j fuel s i).1.d_fir = s.d_fir ∧
      (sense_loop inp j fuel s i).1.d_preamble_offset = s.d_preamble_offset := by
  induction fuel with
  | zero => intro s i; exact ⟨rfl, rfl⟩
  | succ fuel ih =>
    intro s i
    rw [sense_loop]
    split_ifs
    · exact ih _ _
    · exact ⟨rfl, rfl⟩

/-- A call of `work` leaves the filter taps alone and the write position of the
circular buffer within `[0, PREAMBLE_SIZE)`, provided it was there on entry in
every state but RESET, which sets it. -/
theorem work_frame (c : constants) (ops : phy_service_ops P) (n : Int) (inp : Int → ℚ)
    (s : phy_rx_impl P) (hS : 0 < c.SYNCP_SIZE)
    (hoff : s.d_receiver_state ≠ RESET →
      0 ≤ s.d_preamble_offset ∧ s.d_preamble_offset < c.PREAMBLE_SIZE) :
    (work c ops n inp s).rx.d_fir = s.d_fir ∧
    0 ≤ (work c ops n inp s).rx.d_preamble_offset ∧
    (work c ops n inp s).rx.d_preamble_offset < c.PREAMBLE_SIZE := by
  have hN : 0 < c.PREAMBLE_SIZE := by show 0 < c.SYNCP_SIZE * 10; omega
  have hNd : c.PREAMBLE_SIZE = c.SYNCP_SIZE * 10 := rfl
  cases hst : s.d_receiver_state
  · obtain ⟨h0, h1⟩ := hoff (by rw [hst]; decide)
    rw [work_in_search c ops n inp s hst]
    obtain ⟨w, a1, _, _, _, _⟩ := search_loop_ring c inp n (n - 2 * c.SYNCP_SIZE).toNat s 0 hst
    obtain ⟨o0, o1⟩ := ring_append_offset_bounds c hN
      (stream_slice inp (0 + 2 * c.SYNCP_SIZE) w) (s.d_preamble, s.d_preamble_offset) h0 h1
    have e := congrArg Prod.snd a1
    simp only [] at e
    refine ⟨search_loop_frame c inp n _ s 0, ?_, ?_⟩
    · show 0 ≤ (search_loop c inp n (n - 2 * c.SYNCP_SIZE).toNat s 0).1.d_preamble_offset
      rw [e]; exact o0
    · show (search_loop c inp n (n - 2 * c.SYNCP_SIZE).toNat s 0).1.d_preamble_offset < _
      rw [e]; exact o1
  · obtain ⟨h0, h1⟩ := hoff (by rw [hst]; decide)
    rw [work_in_sync c ops n inp s hst, work_sync_eq c inp s (le_of_lt hS)]
    obtain ⟨o0, o1⟩ := ring_append_offset_bounds c hN
      (stream_slice inp 0 c.SYNC_LENGTH.toNat) (s.d_preamble, s.d_preamble_offset) h0 h1
    exact ⟨rfl, o0, o1⟩
  · obtain ⟨h0, h1⟩ := hoff (by rw [hst]; decide)
    rw [work_in_copy_preamble c ops n inp s hst, work_copy_preamble_of_loop]
    obtain ⟨a, b, d⟩ := copy_preamble_loop_frame c inp n n.toNat hN s 0 h0 h1
    split_ifs <;> exact ⟨a, b, d⟩
  · obtain ⟨h0, h1⟩ := hoff (by rw [hst]; decide)
    have hw : work c ops n inp s = work_copy_frame_control c ops n inp s := by
      simp only [work, hst]
    rw [hw]
    obtain ⟨a, b⟩ := copy_frame_control_loop_frame c ops inp n n.toNat s 0
    exact ⟨a, by show 0 ≤ (copy_frame_control_loop c ops inp n n.toNat s 0).1.d_preamble_offset
                 rw [b]; exact h0,
      by show (copy_frame_control_loop c ops inp n n.toNat s 0).1.d_preamble_offset < _
         rw [b]; exact h1⟩
  · obtain ⟨h0, h1⟩ := hoff (by rw [hst]; decide)
    have hw : work c ops n inp s = work_copy_payload ops n inp s := by
      simp only [work, hst]
    rw [hw]
    unfold work_copy_payload
    simp only []
    split_ifs <;> exact ⟨rfl, h0, h1⟩
  · obtain ⟨h0, h1⟩ := hoff (by rw [hst]; decide)
    rw [work_in_consume_space c ops n inp s hst]
    unfold work_consume_space
    simp only []
    split_ifs <;> exact ⟨rfl, h0, h1⟩
  · obtain ⟨h0, h1⟩ := hoff (by rw [hst]; decide)
    rw [work_in_sense_space c ops n inp s hst]
    have key : ∀ (s1 : phy_rx_impl P) (j : Int), s1.d_fir = s.d_fir →
        s1.d_preamble_offset = s.d_preamble_offset →
        (sense_loop inp j j.toNat s1 0).1.d_fir = s.d_fir ∧
        0 ≤ (sense_loop inp j j.toNat s1 0).1.d_preamble_offset ∧
        (sense_loop inp j j.toNat s1 0).1.d_preamble_offset < c.PREAMBLE_SIZE := by
      intro s1 j e1 e2
      obtain ⟨a, b⟩ := sense_loop_frame inp j j.toNat s1 0
      exact ⟨a.trans e1, by rw [b, e2]; exact h0, by rw [b, e2]; exact h1⟩
    unfold work_sense_space
    simp only []
    split_ifs <;> exact key _ _ rfl rfl
  · rw [work_in_reset c ops n inp s hst]
    obtain ⟨a1, _, _, _⟩ := reset_loop_ring c inp c.SYNCP_SIZE.toNat
      ({ s with
        d_plateau := 0
        d_frame_control_offset := 0
        d_sync_offset := 0
        d_preamble_offset := 0
        d_payload_size := 0
        d_payload_offset := 0
        d_cor := []
        d_output_datastream_offset := 0
        d_output_datastream_len := 0
        d_noise_offset := 0
        d_search_corr := 0
        d_energy := 0
        d_inter_frame_space_offset := 0 } : phy_rx_impl P) 0
      (by omega) (by show (0 : Int) ≤ 0; omega)
      (by show (0 : Int) + 2 * (c.SYNCP_SIZE.toNat : Int) < c.PREAMBLE_SIZE; omega)
    obtain ⟨o0, o1⟩ := ring_append_offset_bounds c hN
      (stream_slice inp (0 * 2) (2 * c.SYNCP_SIZE.toNat)) (s.d_preamble, 0) (le_refl 0) hN
    have e := congrArg Prod.snd a1
    simp only [] at e
    refine ⟨reset_loop_frame c inp _ _ 0, ?_, ?_⟩
    · show 0 ≤ (reset_loop c inp c.SYNCP_SIZE.toNat _ 0).d_preamble_offset
      rw [e]; exact o0
    · show (reset_loop c inp c.SYNCP_SIZE.toNat _ 0).d_preamble_offset < _
      rw [e]; exact o1
  · have hw : work c ops n inp s = { rx := s, published := [], consumed := n, search_hits := [] } := by
      simp only [work, hst]
    obtain ⟨h0, h1⟩ := hoff (by rw [hst]; decide)
    rw [hw]; exact ⟨rfl, h0, h1⟩
  · have hw : work c ops n inp s = { rx := s, published := [], consumed := 0, search_hits := [] } := by
      simp only [work, hst]
    obtain ⟨h0, h1⟩ := hoff (by rw [hst]; decide)
    rw [hw]; exact ⟨rfl, h0, h1⟩

theorem min_energy_pos : 0 < MIN_ENERGY := by
  unfold MIN_ENERGY
  norm_num

/-- C17 (input bounds). Let `SYNCP_SIZE > 0`, let `ninput >= 0` be at least what
`forecast` stores in `ninput_items_required[0]` for the current state, and let
the receiver satisfy the invariants of a running receiver: the filter has
`SYNCP_SIZE` taps (needed in SYNC), `d_preamble_offset` is within
`[0, PREAMBLE_SIZE)` in every state but RESET, `d_payload_offset` does not exceed
`d_payload_size` in COPY_PAYLOAD and `d_inter_frame_space_offset` does not exceed
the inter-frame space in CONSUME_SPACE. Then, with `work_log` recording the
accesses of the call in RESET, SEARCH, SYNC and COPY_PREAMBLE: (1) `work_log`
computes the result of `work`; (2) every recorded read `in[k]` has
`0 <= k < ninput`; (3) every recorded write `d_preamble[k]` has
`0 <= k < PREAMBLE_SIZE`; (4) every evaluation of `d_search_corr / d_energy` has
`d_energy > MIN_ENERGY`, and `MIN_ENERGY > 0`; (5) in every state the argument
of `consume_each` is between 0 and `ninput`; (6) after the call the filter taps
are unchanged and `d_preamble_offset` is within `[0, PREAMBLE_SIZE)`, so these
two invariants carry over to the next call; (7) the request of `forecast` on
stream 0 is `2*SYNCP_SIZE` in RESET and `SYNC_LENGTH + SYNCP_SIZE - 1` in SYNC. -/
theorem input_bounds (c : constants) (ops : phy_service_ops P) (ninput : Int)
    (inp : Int → ℚ) (s : phy_rx_impl P)
    (hS : 0 < c.SYNCP_SIZE) (hn : 0 ≤ ninput)
    (hfc : (forecast c ops ninput s).getD 0 0 ≤ ninput)
    (hfir : s.d_receiver_state = SYNC → (s.d_fir.length : Int) = c.SYNCP_SIZE)
    (hoff : s.d_receiver_state ≠ RESET →
      0 ≤ s.d_preamble_offset ∧ s.d_preamble_offset < c.PREAMBLE_SIZE)
    (hpay : s.d_receiver_state = COPY_PAYLOAD → s.d_payload_offset ≤ s.d_payload_size)
    (hifs : s.d_receiver_state = CONSUME_SPACE →
      s.d_inter_frame_space_offset ≤ ops.get_inter_frame_space s.d_phy_service) :
    (work_log c ops ninput inp s).1 = work c ops ninput inp s ∧
    (∀ k ∈ (work_log c ops ninput inp s).2.reads, 0 ≤ k ∧ k < ninput) ∧
    (∀ k ∈ (work_log c ops ninput inp s).2.preamble_writes, 0 ≤ k ∧ k < c.PREAMBLE_SIZE) ∧
    ((∀ d ∈ (work_log c ops ninput inp s).2.divisors, MIN_ENERGY < d) ∧ 0 < MIN_ENERGY) ∧
    (0 ≤ (work c ops ninput inp s).consumed ∧ (work c ops ninput inp s).consumed ≤ ninput) ∧
    ((work c ops ninput inp s).rx.d_fir = s.d_fir ∧
      0 ≤ (work c ops ninput inp s).rx.d_preamble_offset ∧
      (work c ops ninput inp s).rx.d_preamble_offset < c.PREAMBLE_SIZE) ∧
    ((s.d_receiver_state = RESET →
        (forecast c ops ninput s).getD 0 0 = 2 * c.SYNCP_SIZE) ∧
      (s.d_receiver_state = SYNC →
        (forecast c ops ninput s).getD 0 0 = c.SYNC_LENGTH + c.SYNCP_SIZE - 1)) := by
  have hN : 0 < c.PREAMBLE_SIZE := by show 0 < c.SYNCP_SIZE * 10; omega
  have hNd : c.PREAMBLE_SIZE = c.SYNCP_SIZE * 10 := rfl
  have hSL : c.SYNC_LENGTH = 2 * c.SYNCP_SIZE := rfl
  have hlog : access_log.in_bounds c ninput (work_log c ops ninput inp s).2 ∧
      0 ≤ (work c ops ninput inp s).consumed ∧ (work c ops ninput inp s).consumed ≤ ninput := by
    cases hst : s.d_receiver_state
    · obtain ⟨h0, h1⟩ := hoff (by rw [hst]; decide)
      obtain ⟨a, b⟩ := search_loop_consumed c inp ninput (ninput - 2 * c.SYNCP_SIZE).toNat
        (le_of_lt hS) s 0 hn
      refine ⟨?_, ?_, ?_⟩
      · simp only [work_log, hst, work_search_log]
        exact search_loop_log_bounds c inp ninput _ hS s 0 (le_refl 0) h0 h1
      · rw [work_in_search c ops ninput inp s hst]; exact a
      · rw [work_in_search c ops ninput inp s hst]; exact b
    · obtain ⟨h0, h1⟩ := hoff (by rw [hst]; decide)
      have hreq : c.SYNC_LENGTH + c.SYNCP_SIZE - 1 ≤ ninput := by
        simpa [forecast, hst] using hfc
      refine ⟨?_, ?_, ?_⟩
      · simp only [work_log, hst]
        exact work_sync_log_bounds c inp ninput s hS hreq (hfir hst) h0 h1
      · rw [work_in_sync c ops ninput inp s hst, work_sync_eq c inp s (le_of_lt hS)]
        show 0 ≤ c.SYNC_LENGTH
        omega
      · rw [work_in_sync c ops ninput inp s hst, work_sync_eq c inp s (le_of_lt hS)]
        show c.SYNC_LENGTH ≤ ninput
        omega
    · obtain ⟨h0, h1⟩ := hoff (by rw [hst]; decide)
      obtain ⟨a, b⟩ := work_copy_preamble_consumed c ops ninput inp s hn
      refine ⟨?_, ?_, ?_⟩
      · simp only [work_log, hst]
        have e : (work_copy_preamble_log c ops ninput inp s).2 =
            (copy_preamble_loop_log c inp ninput ninput.toNat s 0).2 := by
          unfold work_copy_preamble_log
          simp only []
          split_ifs <;> rfl
        rw [e]
        exact copy_preamble_loop_log_bounds c inp ninput _ hN s 0 (le_refl 0) h0 h1
      · rw [work_in_copy_preamble c ops ninput inp s hst]; exact a
      · rw [work_in_copy_preamble c ops ninput inp s hst]; exact b
    · have hw : work c ops ninput inp s = work_copy_frame_control c ops ninput inp s := by
        simp only [work, hst]
      obtain ⟨a, b⟩ := copy_frame_control_loop_consumed c ops inp ninput ninput.toNat s 0 hn
      refine ⟨?_, ?_, ?_⟩
      · simp only [work_log, hst]; exact in_bounds_none c ninput
      · rw [hw]; exact a
      · rw [hw]; exact b
    · have hw : work c ops ninput inp s = work_copy_payload ops ninput inp s := by
        simp only [work, hst]
      have hp := hpay hst
      refine ⟨?_, ?_, ?_⟩
      · simp only [work_log, hst]; exact in_bounds_none c ninput
      · rw [hw, work_copy_payload_consumed]; exact le_min (by omega) hn
      · rw [hw, work_copy_payload_consumed]; exact min_le_right _ _
    · have hp := hifs hst
      refine ⟨?_, ?_, ?_⟩
      · simp only [work_log, hst]; exact in_bounds_none c ninput
      · rw [work_in_consume_space c ops ninput inp s hst, work_consume_space_consumed]
        exact le_min (by omega) hn
      · rw [work_in_consume_space c ops ninput inp s hst, work_consume_space_consumed]
        exact min_le_right _ _
    · obtain ⟨a, b⟩ := work_sense_space_consumed ops ninput inp s hn
      refine ⟨?_, ?_, ?_⟩
      · simp only [work_log, hst]; exact in_bounds_none c ninput
      · rw [work_in_sense_space c ops ninput inp s hst]; exact a
      · rw [work_in_sense_space c ops ninput inp s hst]; exact b
    · have hreq : 2 * c.SYNCP_SIZE ≤ ninput := by
        simpa [forecast, hst] using hfc
      refine ⟨?_, ?_, ?_⟩
      · simp only [work_log, hst, work_reset_log]
        exact reset_loop_log_bounds c inp ninput c.SYNCP_SIZE.toNat _ 0 (le_refl 0)
          (by omega) hreq (by show (0 : Int) ≤ 0; omega)
          (by show (0 : Int) + 2 * (c.SYNCP_SIZE.toNat : Int) ≤ c.PREAMBLE_SIZE; omega)
      · rw [work_in_reset c ops ninput inp s hst]; exact le_refl 0
      · rw [work_in_reset c ops ninput inp s hst]; exact hn
    · have hw : work c ops ninput inp s =
          { rx := s, published := [], consumed := ninput, search_hits := [] } := by
        simp only [work, hst]
      refine ⟨?_, ?_, ?_⟩
      · simp only [work_log, hst]; exact in_bounds_none c ninput
      · rw [hw]; exact hn
      · rw [hw]
    · have hw : work c ops ninput inp s =
          { rx := s, published := [], consumed := 0, search_hits := [] } := by
        simp only [work, hst]
      refine ⟨?_, ?_, ?_⟩
      · simp only [work_log, hst]; exact in_bounds_none c ninput
      · rw [hw]
      · rw [hw]; exact hn
  obtain ⟨⟨l1, l2, l3⟩, c1, c2⟩ := hlog
  exact ⟨work_log_fst c ops ninput inp s, l1, l2, ⟨l3, min_energy_pos⟩, ⟨c1, c2⟩,
    work_frame c ops ninput inp s hS hoff,
    fun h => by simp [forecast, h], fun h => by simp [forecast, h]⟩

/-- Witness of C17: the SEARCH call with 6 items that follows the RESET call of
the demo receiver (`SYNCP_SIZE = 2`) on the stream `x[k] = k`. Two iterations
run; each evaluates the division, with `d_energy` 5 and 13, and writes one
sample, at slots 4 and 5. -/
theorem input_bounds_witness :
    (work_log demo_constants2 demo_record_ops 6 ramp
      (work demo_constants2 demo_record_ops 4 ramp demo_record_rx).rx).2 =
      { reads := [2, 4, 0, 2, 2, 2, 0, 0, 4, 3, 5, 1, 3, 3, 3, 1, 1, 5],
        preamble_writes := [4, 5], divisors := [5, 13] } ∧
    (∀ k ∈ (work_log demo_constants2 demo_record_ops 6 ramp
      (work demo_constants2 demo_record_ops 4 ramp demo_record_rx).rx).2.reads,
      0 ≤ k ∧ k < 6) ∧
    (∀ d ∈ (work_log demo_constants2 demo_record_ops 6 ramp
      (work demo_constants2 demo_record_ops 4 ramp demo_record_rx).rx).2.divisors,
      MIN_ENERGY < d) ∧
    (0 ≤ (work demo_constants2 demo_record_ops 6 ramp
      (work demo_constants2 demo_record_ops 4 ramp demo_record_rx).rx).consumed ∧
     (work demo_constants2 demo_record_ops 6 ramp
      (work demo_constants2 demo_record_ops 4 ramp demo_record_rx).rx).consumed ≤ 6) := by
  have h := input_bounds demo_constants2 demo_record_ops 6 ramp
    (work demo_constants2 demo_record_ops 4 ramp demo_record_rx).rx
    (by decide) (by decide) (by decide!) (by decide!) (by decide!) (by decide!) (by decide!)
  exact ⟨by decide!, h.2.1, h.2.2.2.1.1, h.2.2.2.2.1⟩

end GrPlc
